import Mathlib

/-!
Verification development for the sql_saga native temporal-merge planner
(src/native/src/sweep.rs and src/native/src/types.rs).

The Rust planner is a pure function over in-memory row collections.  We give a
shallow embedding: each Rust function becomes a Lean function over mirrored
data types, and the claims about the planner are settled as theorems about
those functions.

Modelling conventions, stated once here and referenced from the definitions:

* serde_json maps (serde_json::Map<String, Value>, the default BTreeMap
  representation) are modelled as association lists ordered by key; jmInsert
  below is ordered insert-with-replace, so iteration order matches BTreeMap
  iteration order.  The planner only ever stores scalar JSON values inside its
  maps, and every Value it constructs for a plan-row field is an object, so
  map cells are modelled by the scalar type JsonVal and Value-typed plan-row
  fields by Option Jmap.
* The 64-bit xxh3 content hash of a stripped payload (sweep.rs, resolve_payloads)
  is used only for equality tests during coalescing; it is modelled by the
  stripped payload itself, i.e. hash equality is modelled as equality of the
  hashed content (a collision-free-hash abstraction).
* Rust f64 parsing (types.rs, parse_temporal_numeric) is modelled with exact
  rationals plus the special values nan, infinity and -infinity, following the
  grammar accepted by f64::from_str; values that f64 would round are kept
  exact, which preserves the order comparisons the planner performs.
  Strings that fail to parse become 0, as in unwrap_or(0.0), and comparisons
  against nan yield Ordering.eq, as in partial_cmp(..).unwrap_or(Equal).
* Rust str::cmp is byte-lexicographic on UTF-8; on strings it coincides with
  the code-point lexicographic order used by the String order here.
-/

namespace SqlSaga

/-- Scalar JSON value: the shape of every map cell the planner reads or
builds (mirrors the scalar constructors of serde_json::Value). -/
inductive JsonVal where
  | null : JsonVal
  | bool (b : Bool) : JsonVal
  | num (n : Int) : JsonVal
  | str (s : String) : JsonVal
  deriving DecidableEq, Repr

/-- A JSON object with scalar cells, modelling serde_json::Map with the
default BTreeMap representation: an association list kept ordered by key. -/
abbrev Jmap := List (String × JsonVal)

/-- BTreeMap::get. -/
def jmGet (m : Jmap) (k : String) : Option JsonVal :=
  match m with
  | [] => Option.none
  | (k', v) :: rest => if k' = k then some v else jmGet rest k

/-- BTreeMap::insert (ordered insert, replacing an existing binding). -/
def jmInsert (m : Jmap) (k : String) (v : JsonVal) : Jmap :=
  match m with
  | [] => [(k, v)]
  | (k', v') :: rest =>
    match compare k k' with
    | .lt => (k, v) :: (k', v') :: rest
    | .eq => (k, v) :: rest
    | .gt => (k', v') :: jmInsert rest k v

/-- BTreeMap::contains_key. -/
def jmContains (m : Jmap) (k : String) : Bool :=
  (jmGet m k).isSome

def JsonVal.is_null : JsonVal → Bool
  | .null => true
  | _ => false

/-- Stable insertion of one element into a sorted list: the element goes in
front of the first list member it compares le to, so elements that compare
equal keep their original relative order. -/
def insertLe {α : Type} (le : α → α → Bool) (x : α) : List α → List α
  | [] => [x]
  | y :: ys => if le x y then x :: y :: ys else y :: insertLe le x ys

/-- Stable sort.  Rust slice::sort_by is a stable sort; on every comparator
restriction that is a total preorder a stable sort has a unique result, so
this structural insertion sort computes the same list. -/
def insertionSortLe {α : Type} (le : α → α → Bool) : List α → List α
  | [] => []
  | x :: xs => insertLe le x (insertionSortLe le xs)

/-- Total order comparison used by Rust Vec<String>::sort, in le form. -/
def strLe (a b : String) : Bool := compare a b ≠ .gt

-- ── Numeric boundary model (types.rs: parse_temporal_numeric) ──

/-- Value of an f64 obtained by parsing a boundary string: the planner only
compares these, so the finite case is kept as an exact rational. -/
inductive NumVal where
  | negInf : NumVal
  | inf : NumVal
  | nan : NumVal
  | val (q : ℚ) : NumVal
  deriving DecidableEq, Repr

/-- f64 partial_cmp followed by unwrap_or(Equal): nan compares as eq to
everything, otherwise the usual order with the infinities at the ends. -/
def num_cmp (a b : NumVal) : Ordering :=
  match a, b with
  | .nan, _ => .eq
  | _, .nan => .eq
  | .negInf, .negInf => .eq
  | .negInf, _ => .lt
  | _, .negInf => .gt
  | .inf, .inf => .eq
  | .inf, _ => .gt
  | _, .inf => .lt
  | .val p, .val q => compare p q

def natOfDigits (ds : List Char) : Nat :=
  ds.foldl (fun acc c => acc * 10 + (c.toNat - '0'.toNat)) 0

def isDigitChar (c : Char) : Bool := '0' ≤ c ∧ c ≤ '9'

/-- Optional exponent suffix of the f64 grammar applied to a mantissa. -/
def applyExp (rest : List Char) (mantissa : ℚ) : Option ℚ :=
  match rest with
  | [] => some mantissa
  | e :: r =>
    if e = 'e' ∨ e = 'E' then
      let (sgn, r2) : ℚ × List Char :=
        match r with
        | c :: r' => if c = '-' then (-1, r') else if c = '+' then (1, r') else (1, c :: r')
        | [] => (1, [])
      let (ds, r3) := r2.span isDigitChar
      if ds.isEmpty ∨ ¬ r3.isEmpty then Option.none
      else if sgn = 1 then some (mantissa * (10 : ℚ) ^ natOfDigits ds)
      else some (mantissa / (10 : ℚ) ^ natOfDigits ds)
    else Option.none

/-- Mantissa and exponent of the f64 decimal grammar: digits, digits.digits,
digits dot, or dot digits, each with an optional exponent. -/
def parseDecimal (cs : List Char) : Option ℚ :=
  let (ip, rest) := cs.span isDigitChar
  match rest with
  | [] => if ip.isEmpty then Option.none else some ((natOfDigits ip : ℚ))
  | '.' :: rest2 =>
    let (fp, rest3) := rest2.span isDigitChar
    if ip.isEmpty ∧ fp.isEmpty then Option.none
    else
      applyExp rest3
        ((natOfDigits ip : ℚ) + (natOfDigits fp : ℚ) / (10 : ℚ) ^ fp.length)
  | _ =>
    if ip.isEmpty then Option.none else applyExp rest ((natOfDigits ip : ℚ))

/-- Model of str::parse::<f64>() restricted to comparisons: sign, then a
case-insensitive inf, infinity or nan, or a decimal literal. -/
def parseF64 (s : String) : Option NumVal :=
  let cs := s.toList
  let (neg, rest) : Bool × List Char :=
    match cs with
    | '+' :: r => (false, r)
    | '-' :: r => (true, r)
    | _ => (false, cs)
  let low := rest.map Char.toLower
  if low = "nan".toList then some .nan
  else if low = "inf".toList ∨ low = "infinity".toList then
    some (if neg then .negInf else .inf)
  else
    match parseDecimal rest with
    | some q => some (.val (if neg then -q else q))
    | Option.none => Option.none

/-- types.rs parse_temporal_numeric: the two PostgreSQL sentinels, then the
f64 parse with unwrap_or(0.0). -/
def parse_temporal_numeric (s : String) : NumVal :=
  if s = "infinity" then .inf
  else if s = "-infinity" then .negInf
  else
    match parseF64 s with
    | some v => v
    | Option.none => .val 0

/-- types.rs temporal_cmp: numeric subtypes compare as parsed f64 values,
all other subtypes compare byte-lexicographically. -/
def temporal_cmp (a b : String) (is_numeric : Bool) : Ordering :=
  if is_numeric then num_cmp (parse_temporal_numeric a) (parse_temporal_numeric b)
  else compare a b

-- ── Allen interval relations (types.rs) ──

inductive AllenRelation where
  | precedes | meets | overlaps | starts | during | finishes | equals
  | precededBy | metBy | overlappedBy | startedBy | contains | finishedBy
  deriving DecidableEq, Repr

/-- types.rs AllenRelation::compute over half-open intervals
[x_from, x_until) and [y_from, y_until). -/
def AllenRelation.compute (x_from x_until y_from y_until : String)
    (is_numeric : Bool) : Option AllenRelation :=
  let lt := fun a b => temporal_cmp a b is_numeric = .lt
  let gt := fun a b => temporal_cmp a b is_numeric = .gt
  let eq := fun a b => temporal_cmp a b is_numeric = .eq
  if lt x_until y_from then some .precedes
  else if eq x_until y_from then some .meets
  else if lt x_from y_from ∧ lt y_from x_until ∧ lt x_until y_until then some .overlaps
  else if eq x_from y_from ∧ lt x_until y_until then some .starts
  else if gt x_from y_from ∧ lt x_until y_until then some .during
  else if gt x_from y_from ∧ eq x_until y_until then some .finishes
  else if eq x_from y_from ∧ eq x_until y_until then some .equals
  else if lt y_until x_from then some .precededBy
  else if eq y_until x_from then some .metBy
  else if lt y_from x_from ∧ lt x_from y_until ∧ lt y_until x_until then some .overlappedBy
  else if eq x_from y_from ∧ gt x_until y_until then some .startedBy
  else if lt x_from y_from ∧ gt x_until y_until then some .contains
  else if lt x_from y_from ∧ eq x_until y_until then some .finishedBy
  else Option.none

-- ── Merge mode, delete mode, plan action, update effect (types.rs) ──

inductive MergeMode where
  | mergeEntityUpsert | updateForPortionOf | mergeEntityPatch | patchForPortionOf
  | mergeEntityReplace | replaceForPortionOf | insertNewEntities | deleteForPortionOf
  deriving DecidableEq, Repr

def MergeMode.is_patch : MergeMode → Bool
  | .mergeEntityPatch | .patchForPortionOf => true
  | _ => false

/-- REPLACE-family modes keep only the highest covering source row id per
atomic segment (types.rs is_last_writer_wins). -/
def MergeMode.is_last_writer_wins : MergeMode → Bool
  | .mergeEntityReplace | .replaceForPortionOf
  | .insertNewEntities | .deleteForPortionOf => true
  | _ => false

def MergeMode.is_for_portion_of : MergeMode → Bool
  | .updateForPortionOf | .patchForPortionOf
  | .replaceForPortionOf | .deleteForPortionOf => true
  | _ => false

inductive DeleteMode where
  | none | deleteMissingTimeline | deleteMissingEntities | deleteMissingTimelineAndEntities
  deriving DecidableEq, Repr

def DeleteMode.deletes_entities : DeleteMode → Bool
  | .deleteMissingEntities | .deleteMissingTimelineAndEntities => true
  | _ => false

def DeleteMode.deletes_timeline : DeleteMode → Bool
  | .deleteMissingTimeline | .deleteMissingTimelineAndEntities => true
  | _ => false

inductive PlanAction where
  | delete | update | insert
  | skipIdentical | skipNoTarget | skipFiltered | skipEclipsed | error
  deriving DecidableEq, Repr, Inhabited

def PlanAction.is_dml : PlanAction → Bool
  | .insert | .update | .delete => true
  | _ => false

inductive UpdateEffect where
  | none | shrink | move | grow
  deriving DecidableEq, Repr

inductive IdentityStrategy where
  | hybrid | identityKeyOnly | lookupKeyOnly | undefined
  deriving DecidableEq, Repr

-- ── Row and context records (types.rs) ──

structure EraMetadata where
  range_col : String
  valid_from_col : String
  valid_until_col : String
  valid_to_col : Option String
  range_type : String
  multirange_type : String
  range_subtype : String
  range_subtype_category : Char
  ephemeral_columns : List String
  deriving DecidableEq, Repr

structure SourceRow where
  row_id : Int
  causal_id : String
  valid_from : String
  valid_until : String
  identity_keys : Jmap
  lookup_keys : Jmap
  data_payload : Jmap
  ephemeral_payload : Jmap
  stable_pk_payload : Jmap
  is_identifiable : Bool
  lookup_cols_are_null : Bool
  deriving DecidableEq, Repr, Inhabited

structure TargetRow where
  valid_from : String
  valid_until : String
  identity_keys : Jmap
  lookup_keys : Jmap
  data_payload : Jmap
  ephemeral_payload : Jmap
  pk_payload : Jmap
  deriving DecidableEq, Repr

structure EarlyFeedback where
  action : PlanAction
  message : Option String
  deriving DecidableEq, Repr

structure MatchedSourceRow where
  source : SourceRow
  is_new_entity : Bool
  grouping_key : String
  discovered_identity : Option Jmap
  canonical_nk_json : Option Jmap
  early_feedback : Option EarlyFeedback
  is_eclipsed : Bool
  deriving DecidableEq, Repr, Inhabited

structure AtomicSegment where
  grouping_key : String
  valid_from : String
  valid_until : String
  is_new_entity : Bool
  identity_keys : Jmap
  causal_id : Option String
  deriving DecidableEq, Repr

structure ResolvedSegment where
  grouping_key : String
  valid_from : String
  valid_until : String
  is_new_entity : Bool
  identity_keys : Jmap
  causal_id : Option String
  row_ids : List Int
  source_valid_from : Option String
  source_valid_until : Option String
  target_valid_from : Option String
  target_valid_until : Option String
  data_payload : Option Jmap
  ephemeral_payload : Option Jmap
  target_data_payload : Option Jmap
  data_hash : Option Jmap
  has_source_coverage : Bool
  has_target_coverage : Bool
  s_t_relation : Option AllenRelation
  deriving DecidableEq, Repr

structure CoalescedSegment where
  grouping_key : String
  valid_from : String
  valid_until : String
  is_new_entity : Bool
  identity_keys : Jmap
  causal_id : Option String
  row_ids : List Int
  data_payload : Option Jmap
  ephemeral_payload : Option Jmap
  ancestor_valid_from : Option String
  data_hash : Option Jmap
  has_source_coverage : Bool
  has_target_coverage : Bool
  s_t_relation : Option AllenRelation
  deriving DecidableEq, Repr

structure DiffRow where
  grouping_key : String
  is_new_entity : Bool
  identity_keys : Jmap
  causal_id : Option String
  row_ids : List Int
  final_valid_from : Option String
  final_valid_until : Option String
  final_payload : Option Jmap
  target_valid_from : Option String
  target_valid_until : Option String
  target_payload : Option Jmap
  ephemeral_payload : Option Jmap
  has_source_coverage : Bool
  s_t_relation : Option AllenRelation
  target_ephemeral : Option Jmap
  target_lookup_keys : Option Jmap
  target_pk_payload : Option Jmap
  deriving DecidableEq, Repr, Inhabited

/-- Final plan row (types.rs PlanRow).  The serde_json::Value-typed fields
are always objects in the code, so they are modelled as Option Jmap. -/
structure PlanRow where
  plan_op_seq : Int
  statement_seq : Int
  row_ids : List Int
  operation : PlanAction
  update_effect : Option UpdateEffect
  causal_id : Option String
  is_new_entity : Bool
  entity_keys : Option Jmap
  identity_keys : Option Jmap
  lookup_keys : Option Jmap
  s_t_relation : Option AllenRelation
  b_a_relation : Option AllenRelation
  old_valid_from : Option String
  old_valid_until : Option String
  new_valid_from : Option String
  new_valid_until : Option String
  old_valid_range : Option String
  new_valid_range : Option String
  data : Option Jmap
  feedback : Option Jmap
  trace : Option Jmap
  grouping_key : String
  deriving DecidableEq, Repr, Inhabited

/-- Planner context (types.rs PlannerContext).  The HashSet of
exclude_if_null_columns is modelled as a list queried by membership. -/
structure PlannerContext where
  mode : MergeMode
  delete_mode : DeleteMode
  era : EraMetadata
  identity_columns : List String
  all_lookup_cols : List String
  lookup_key_sets : List (List String)
  original_entity_key_cols : List String
  original_entity_segment_key_cols : List String
  temporal_cols : List String
  pk_cols : List String
  strategy : IdentityStrategy
  ephemeral_columns : List String
  founding_id_column : Option String
  row_id_column : String
  log_trace : Bool
  exclude_if_null_columns : List String
  deriving DecidableEq, Repr

def PlannerContext.is_founding_mode (ctx : PlannerContext) : Bool :=
  ctx.founding_id_column.isSome

structure EntityGroup where
  grouping_key : String
  is_new_entity : Bool
  identity_keys : Jmap
  source_rows : List MatchedSourceRow
  target_rows : List TargetRow
  deriving DecidableEq, Repr

-- ── Shared utilities (sweep.rs) ──

def JsonVal.toDisplay : JsonVal → String
  | .str s => s
  | .num n => toString n
  | .bool b => toString b
  | .null => "_NULL_"

/-- sweep.rs json_value_to_str. -/
def json_value_to_str (v : JsonVal) : String := v.toDisplay

/-- sweep.rs json_map_to_key: non-null entries rendered k=v, sorted, joined
with a double underscore. -/
def json_map_to_key (m : Jmap) : String :=
  let parts := (m.filter (fun kv => ¬ kv.2.is_null)).map
    (fun kv => kv.1 ++ "=" ++ json_value_to_str kv.2)
  String.intercalate "__" (insertionSortLe strLe parts)

/-- sweep.rs build_key_for_cols: only the listed columns, nulls excluded,
empty when every listed column is null or missing. -/
def build_key_for_cols (m : Jmap) (cols : List String) : String :=
  let parts := cols.foldr
    (fun col acc =>
      match jmGet m col with
      | some v => if v.is_null then acc else (col ++ "=" ++ json_value_to_str v) :: acc
      | Option.none => acc) []
  String.intercalate "__" parts

/-- sweep.rs format_range: bracketed half-open range, quoting any component
containing a space. -/
def format_range (f u : String) : String :=
  let q := fun (s : String) =>
    if s.toList.any (fun c => c = ' ') then "\"" ++ s ++ "\"" else s
  "[" ++ q f ++ "," ++ q u ++ ")"

/-- sweep.rs json_to_pg_text for a scalar value. -/
def JsonVal.toPgText : JsonVal → String
  | .str s => "\"" ++ s ++ "\""
  | .num n => toString n
  | .bool b => toString b
  | .null => "null"

/-- sweep.rs json_to_pg_text for an object of scalars (the only shape the
planner passes to it): jsonb-style text with spaces after the colon. -/
def json_to_pg_text (m : Jmap) : String :=
  "\x7b" ++
    String.intercalate ", "
      (m.map (fun kv => "\"" ++ kv.1 ++ "\": " ++ kv.2.toPgText)) ++
  "\x7d"

/-- sweep.rs maps_equal_ignoring_nulls. -/
def maps_equal_ignoring_nulls (a b : Jmap) : Bool :=
  (a.all fun kv =>
    if kv.2.is_null then true
    else match jmGet b kv.1 with
      | some bv => bv = kv.2
      | Option.none => false) &&
  (b.all fun kv =>
    if kv.2.is_null then true
    else match jmGet a kv.1 with
      | some av => av = kv.2
      | Option.none => false)

/-- sweep.rs strip_nulls. -/
def strip_nulls (m : Jmap) : Jmap :=
  m.filter (fun kv => ¬ kv.2.is_null)

/-- sweep.rs merge_data_ephemeral. -/
def merge_data_ephemeral (data ephemeral : Option Jmap) : Option Jmap :=
  match data, ephemeral with
  | some d, some e => some (e.foldl (fun acc kv => jmInsert acc kv.1 kv.2) d)
  | some d, Option.none => some d
  | Option.none, some e => some e
  | Option.none, Option.none => Option.none

/-- str::split over one separator character. -/
def splitChar (c : Char) (s : String) : List String :=
  go s.toList []
where
  go : List Char → List Char → List String
  | [], acc => [String.mk acc.reverse]
  | x :: xs, acc =>
    if x = c then String.mk acc.reverse :: go xs [] else go xs (x :: acc)

/-- u32::from_str: digits with an optional leading plus sign. -/
def natFromChars? (cs : List Char) : Option Nat :=
  let ds := match cs with | '+' :: r => r | _ => cs
  if ¬ ds.isEmpty ∧ ds.all isDigitChar then some (natOfDigits ds) else Option.none

/-- i32::from_str: an optionally signed digit string. -/
def intFromChars? (cs : List Char) : Option Int :=
  match cs with
  | '-' :: r =>
    if ¬ r.isEmpty ∧ r.all isDigitChar then some (-(natOfDigits r : Int)) else Option.none
  | _ => (natFromChars? cs).map (fun n => (n : Int))

/-- sweep.rs date_minus_one: valid_to is valid_until minus one day for
YYYY-MM-DD date strings, and nothing for anything else. -/
def date_minus_one (date_str : String) : Option String :=
  let parts := splitChar '-' date_str
  if h : parts.length = 3 then
    let pad4 := fun (n : Int) =>
      let s := toString n
      (String.mk (List.replicate (4 - s.length) '0')) ++ s
    let pad2 := fun (n : Nat) =>
      let s := toString n
      (String.mk (List.replicate (2 - s.length) '0')) ++ s
    match intFromChars? (parts.get ⟨0, by omega⟩).toList,
          natFromChars? (parts.get ⟨1, by omega⟩).toList,
          natFromChars? (parts.get ⟨2, by omega⟩).toList with
    | some y, some m, some d =>
      if d > 1 then
        some (pad4 y ++ "-" ++ pad2 m ++ "-" ++ pad2 (d - 1))
      else
        let (new_y, new_m) : Int × Nat := if m > 1 then (y, m - 1) else (y - 1, 12)
        match new_m with
        | 1 | 3 | 5 | 7 | 8 | 10 | 12 =>
          some (pad4 new_y ++ "-" ++ pad2 new_m ++ "-" ++ toString (31 : Nat))
        | 4 | 6 | 9 | 11 =>
          some (pad4 new_y ++ "-" ++ pad2 new_m ++ "-" ++ toString (30 : Nat))
        | 2 =>
          let days : Nat :=
            if (new_y % 4 = 0 ∧ new_y % 100 ≠ 0) ∨ new_y % 400 = 0 then 29 else 28
          some (pad4 new_y ++ "-" ++ pad2 new_m ++ "-" ++ toString days)
        | _ => Option.none
    | _, _, _ => Option.none
  else Option.none

-- ── Phase 1: entity correlation (sweep.rs correlate_entities) ──

/-- sweep.rs build_grouping_key. -/
def build_grouping_key (sr : SourceRow) (is_new : Bool)
    (discovered_identity : Option Jmap) (canonical_nk : Option Jmap)
    (ctx : PlannerContext) : String :=
  if ¬ is_new then
    let id_map := discovered_identity.getD sr.identity_keys
    let key_parts := ctx.identity_columns.map (fun c =>
      match jmGet id_map c with
      | some v => json_value_to_str v
      | Option.none => "_NULL_")
    "existing_entity__" ++ String.intercalate "__" key_parts
  else if ctx.is_founding_mode then
    "new_entity__" ++ sr.causal_id
  else
    let nk :=
      match canonical_nk with
      | some m => if m.isEmpty then Option.none else some m
      | Option.none => if sr.lookup_keys.isEmpty then Option.none else some sr.lookup_keys
    match nk with
    | some nk_map =>
      let key_parts := ctx.all_lookup_cols.map (fun c =>
        match jmGet nk_map c with
        | some v => json_value_to_str v
        | Option.none => "_NULL_")
      "new_entity__" ++ String.intercalate "__" key_parts
    | Option.none =>
      let identity_all_null := ctx.identity_columns.all (fun c =>
        match jmGet sr.identity_keys c with
        | some v => v.is_null
        | Option.none => true)
      if identity_all_null then
        "new_entity__" ++ sr.causal_id
      else
        let key_parts := ctx.identity_columns.map (fun c =>
          match jmGet sr.identity_keys c with
          | some v => json_value_to_str v
          | Option.none => "_NULL_")
        "new_entity__" ++ String.intercalate "__" key_parts

/-- State of the per-source natural-key scan in correlate_entities: the
distinct matched entity keys (a BTreeSet, modelled as a duplicate-free list),
the identity maps in insertion order, and the first discovered identity. -/
structure NkState where
  entities : List String
  id_maps : List Jmap
  first : Option Jmap
  deriving Repr

/-- Targets matching one lookup key set: sweep.rs builds an index from
build_key_for_cols of each target; membership in the index bucket of nk_key
is exactly this filter (nk_key is nonempty at every use site). -/
def targetsMatchingKeySet (target_rows : List TargetRow) (key_set : List String)
    (nk_key : String) : List TargetRow :=
  target_rows.filter (fun tr => build_key_for_cols tr.lookup_keys key_set = nk_key)

/-- One iteration of the for-loop over lookup key sets in correlate_entities. -/
def nkAbsorb (st : NkState) (tr : TargetRow) : NkState :=
  let ek := json_map_to_key tr.identity_keys
  if ek ∈ st.entities then st
  else { st with entities := st.entities ++ [ek],
                 id_maps := st.id_maps ++ [tr.identity_keys] }

def nkStep (target_rows : List TargetRow) (sr : SourceRow) (st : NkState)
    (key_set : List String) : NkState :=
  let nk_key := build_key_for_cols sr.lookup_keys key_set
  if nk_key = "" then st
  else
    let targets := targetsMatchingKeySet target_rows key_set nk_key
    let st2 := targets.foldl nkAbsorb st
    let first :=
      match st2.first with
      | some f => some f
      | Option.none =>
        match targets with
        | [] => Option.none
        | tr :: _ => some tr.identity_keys
    { st2 with first := first }

/-- Body of the per-source-row loop of sweep.rs correlate_entities.  Each
row's outcome depends only on the row, the targets and the context; the
index maps built up front are pure functions of the targets. -/
def idMatchedB (target_rows : List TargetRow) (sr : SourceRow) : Bool :=
  ¬ sr.identity_keys.isEmpty ∧
    (let id_key := json_map_to_key sr.identity_keys
     target_rows.any (fun tr =>
       json_map_to_key tr.identity_keys ≠ "" ∧
       json_map_to_key tr.identity_keys = id_key))

def tryNkB (target_rows : List TargetRow) (sr : SourceRow) : Bool :=
  ¬ idMatchedB target_rows sr ∧ ¬ sr.lookup_keys.isEmpty ∧ ¬ sr.lookup_cols_are_null

def correlate_one (target_rows : List TargetRow) (ctx : PlannerContext)
    (sr : SourceRow) : MatchedSourceRow :=
  let idMatched : Bool := idMatchedB target_rows sr
  let is_new₀ := ¬ idMatched
  let discovered₀ : Option Jmap := if idMatched then some sr.identity_keys else Option.none
  let tryNk : Bool := tryNkB target_rows sr
  let st : NkState :=
    if tryNk then
      ctx.lookup_key_sets.foldl (nkStep target_rows sr) ⟨[], [], Option.none⟩
    else ⟨[], [], Option.none⟩
  let (is_new₁, discovered₁, canonical_nk, feedback₀) :
      Bool × Option Jmap × Option Jmap × Option EarlyFeedback :=
    if tryNk then
      if st.entities.length > 1 then
        let conflicting_ids := st.id_maps.map json_to_pg_text
        (false, st.first, Option.none,
          some ⟨.error,
            some ("Source row is ambiguous. It matches multiple distinct target entities: ["
              ++ String.intercalate ", " conflicting_ids ++ "]")⟩)
      else if st.entities.length = 1 then
        (false, st.first, some (strip_nulls sr.lookup_keys), Option.none)
      else (is_new₀, discovered₀, Option.none, Option.none)
    else (is_new₀, discovered₀, Option.none, Option.none)
  let feedback₁ : Option EarlyFeedback :=
    if is_new₁ ∧ ¬ sr.is_identifiable ∧ sr.lookup_cols_are_null
        ∧ ¬ ctx.is_founding_mode ∧ ctx.strategy ≠ .identityKeyOnly
        ∧ feedback₀.isNone then
      let id_cols_str := "\x7b" ++ String.intercalate ", " ctx.identity_columns ++ "\x7d"
      let key_sets_str := "[" ++
        String.intercalate ", "
          (ctx.lookup_key_sets.map (fun ks => "[" ++ String.intercalate ", " ks ++ "]"))
        ++ "]"
      some ⟨.error,
        some ("Source row is unidentifiable. It has NULL for all stable identity columns "
          ++ id_cols_str ++ " and all natural keys " ++ key_sets_str)⟩
    else feedback₀
  { source := sr
    is_new_entity := is_new₁
    grouping_key := build_grouping_key sr is_new₁ discovered₁ canonical_nk ctx
    discovered_identity := discovered₁
    canonical_nk_json := canonical_nk
    early_feedback := feedback₁
    is_eclipsed := false }

/-- sweep.rs correlate_entities. -/
def correlate_entities (source_rows : List SourceRow) (target_rows : List TargetRow)
    (ctx : PlannerContext) : List MatchedSourceRow :=
  source_rows.map (correlate_one target_rows ctx)

-- ── Phase 1.5: canonical natural-key resolution (sweep.rs) ──

/-- Union-find root lookup, fuelled by the arena size.  The Rust find uses
path compression, which changes only the internal parent array, never the
root returned; the fuelled chase is an equivalent total formulation. -/
def ufFind (parent : List Nat) : Nat → Nat → Nat
  | 0, i => i
  | fuel + 1, i =>
    let p := parent.getD i i
    if p = i then i else ufFind parent fuel p

def ufUnion (parent : List Nat) (a b : Nat) : List Nat :=
  let ra := ufFind parent parent.length a
  let rb := ufFind parent parent.length b
  if ra = rb then parent else parent.set rb ra

/-- Group the values 0..n-1 by key, keys in first-occurrence order (the
iteration order of the HashMap used in sweep.rs does not affect the final
union-find components, which are order-independent). -/
def groupStep (acc : List (String × List Nat)) (kv : Nat × Option String) :
    List (String × List Nat) :=
  match kv.2 with
  | Option.none => acc
  | some k =>
    if acc.any (fun e => e.1 = k) then
      acc.map (fun e => if e.1 = k then (e.1, e.2 ++ [kv.1]) else e)
    else acc ++ [(k, [kv.1])]

def groupIdxByKey (keys : List (Option String)) : List (String × List Nat) :=
  keys.enum.foldl groupStep []

/-- sweep.rs canonicalize_new_entity_nks. -/
def canonicalize_new_entity_nks (matched : List MatchedSourceRow)
    (ctx : PlannerContext) : List MatchedSourceRow :=
  if ctx.all_lookup_cols.isEmpty ∨ ctx.lookup_key_sets.isEmpty then matched
  else
    let new_indices : List Nat := (matched.enum.filter
      (fun mi => mi.2.is_new_entity ∧ mi.2.early_feedback.isNone)).map (·.1)
    if new_indices.isEmpty then matched
    else
      let nk_maps : List Jmap := new_indices.map (fun i =>
        strip_nulls ((matched.getD i default).source.lookup_keys))
      let n := new_indices.length
      let parent₀ : List Nat := List.range n
      let parent := ctx.lookup_key_sets.foldl
        (fun parent key_set =>
          let keys := nk_maps.map (fun m =>
            let k := build_key_for_cols m key_set
            if k = "" then Option.none else some k)
          (groupIdxByKey keys).foldl
            (fun parent e =>
              match e.2 with
              | [] => parent
              | i0 :: restIdx => restIdx.foldl (fun p i => ufUnion p i0 i) parent)
            parent)
        parent₀
      let component_canonical : List (Nat × Jmap) :=
        (List.range n).foldl
          (fun acc local_idx =>
            let root := ufFind parent parent.length local_idx
            let entry := ((acc.find? (fun e => e.1 = root)).map (·.2)).getD []
            let entry2 := (nk_maps.getD local_idx []).foldl
              (fun e kv => if jmContains e kv.1 then e else jmInsert e kv.1 kv.2)
              entry
            if acc.any (fun e => e.1 = root) then
              acc.map (fun e => if e.1 = root then (root, entry2) else e)
            else acc ++ [(root, entry2)])
          []
      let updates : List (Nat × Jmap) :=
        new_indices.enum.foldl
          (fun acc gi =>
            let local_idx := gi.1
            let global_idx := gi.2
            let root := ufFind parent parent.length local_idx
            let canonical := ((component_canonical.find? (fun e => e.1 = root)).map (·.2)).getD []
            let own := nk_maps.getD local_idx []
            if canonical.length > own.length ∨ canonical ≠ own then
              acc ++ [(global_idx, canonical)]
            else acc)
          []
      matched.enum.map (fun mi =>
        match updates.find? (fun u => u.1 = mi.1) with
        | some u =>
          { mi.2 with
            canonical_nk_json := some u.2
            grouping_key := build_grouping_key mi.2.source true
              mi.2.discovered_identity (some u.2) ctx }
        | Option.none => mi.2)

-- ── Phase 2: eclipse detection (sweep.rs detect_eclipsed) ──

/-- sweep.rs multirange_add: push, re-sort by start, merge overlapping or
adjacent intervals in one sweep. -/
def multirange_add (mr : List (String × String)) (f u : String)
    (is_numeric : Bool) : List (String × String) :=
  let sorted := insertionSortLe
    (fun a b => temporal_cmp a.1 b.1 is_numeric ≠ .gt) (mr ++ [(f, u)])
  match sorted with
  | [] => []
  | x :: rest => mergeRangesFrom is_numeric x rest
where
  /-- The linear merge pass: cur is the last interval of the merged output. -/
  mergeRangesFrom (is_numeric : Bool) (cur : String × String) :
      List (String × String) → List (String × String)
  | [] => [cur]
  | y :: rest =>
    if temporal_cmp y.1 cur.2 is_numeric ≠ .gt then
      mergeRangesFrom is_numeric
        (cur.1, if temporal_cmp y.2 cur.2 is_numeric = .gt then y.2 else cur.2) rest
    else cur :: mergeRangesFrom is_numeric y rest

/-- sweep.rs multirange_contains: after merging, a range is contained iff a
single merged block covers it. -/
def multirange_contains (mr : List (String × String)) (f u : String)
    (is_numeric : Bool) : Bool :=
  mr.any (fun i =>
    temporal_cmp i.1 f is_numeric ≠ .gt ∧ temporal_cmp i.2 u is_numeric ≠ .lt)

/-- Partition key of one matched row in sweep.rs detect_eclipsed: the sorted
non-null lookup-column values when any exist, else the causal id. -/
def eclipse_partition_key (ctx : PlannerContext) (m : MatchedSourceRow) : String :=
  if ctx.all_lookup_cols.isEmpty then "causal_" ++ m.source.causal_id
  else
    let parts := ctx.all_lookup_cols.foldr
      (fun col acc =>
        let v :=
          match jmGet m.source.lookup_keys col with
          | some v => some v
          | Option.none => jmGet m.source.identity_keys col
        match v with
        | some v => if v.is_null then acc else (col, json_value_to_str v) :: acc
        | Option.none => acc)
      []
    if parts.isEmpty then "causal_" ++ m.source.causal_id
    else
      String.intercalate "__"
        ((insertionSortLe (fun a b => strLe a.1 b.1) parts).map
          (fun kv => kv.1 ++ "=" ++ kv.2))

/-- The per-partition descending sweep of sweep.rs detect_eclipsed: returns
the indices marked eclipsed.  Rows with early feedback are skipped entirely
(neither tested nor added to the multirange). -/
def sweepStep (matched : List MatchedSourceRow) (is_numeric : Bool)
    (st : List (String × String) × List Nat) (idx : Nat) :
    List (String × String) × List Nat :=
  let m := matched.getD idx default
  if m.early_feedback.isSome then st
  else
    let covered := multirange_contains st.1 m.source.valid_from m.source.valid_until is_numeric
    let ecl := if covered then st.2 ++ [idx] else st.2
    (multirange_add st.1 m.source.valid_from m.source.valid_until is_numeric, ecl)

def eclipseSweep (matched : List MatchedSourceRow) (is_numeric : Bool)
    (sorted : List Nat) : List Nat :=
  (sorted.foldl (sweepStep matched is_numeric)
    (([] : List (String × String)), ([] : List Nat))).2

/-- One partition's sweep over its indices sorted by descending row id. -/
def groupSweep (matched : List MatchedSourceRow) (is_numeric : Bool)
    (e : String × List Nat) : List Nat :=
  eclipseSweep matched is_numeric
    (insertionSortLe (fun a b =>
      (matched.getD b default).source.row_id ≤ (matched.getD a default).source.row_id) e.2)

/-- sweep.rs detect_eclipsed. -/
def detect_eclipsed (matched : List MatchedSourceRow) (ctx : PlannerContext) :
    List MatchedSourceRow :=
  let is_numeric := ctx.era.range_subtype_category = 'N'
  let keys := matched.map (fun m => some (eclipse_partition_key ctx m))
  let by_group := groupIdxByKey keys
  let eclipsedIdxs := by_group.foldl
    (fun acc e =>
      if e.2.length ≤ 1 then acc
      else acc ++ groupSweep matched is_numeric e)
    []
  matched.enum.map (fun mi =>
    if mi.1 ∈ eclipsedIdxs then { mi.2 with is_eclipsed := true } else mi.2)

-- ── Phase 3: group by entity (sweep.rs group_by_entity) ──

/-- Adding one matched source row to the accumulated groups (first loop of
sweep.rs group_by_entity). -/
def groupAddSource (groups : List EntityGroup) (ms : MatchedSourceRow) : List EntityGroup :=
  if groups.any (fun g => g.grouping_key = ms.grouping_key) then
    groups.map (fun g =>
      if g.grouping_key = ms.grouping_key then
        { g with source_rows := g.source_rows ++ [ms] }
      else g)
  else
    groups ++ [{ grouping_key := ms.grouping_key
                 is_new_entity := ms.is_new_entity
                 identity_keys := ms.discovered_identity.getD ms.source.identity_keys
                 source_rows := [ms]
                 target_rows := [] }]

/-- Adding one target row to the accumulated groups (second loop of sweep.rs
group_by_entity): appended to its entity group, or opening a synthetic
all-target group when the delete mode deletes entities. -/
def groupAddTarget (ctx : PlannerContext) (groups : List EntityGroup) (tr : TargetRow) :
    List EntityGroup :=
  let id_key_parts := ctx.identity_columns.map (fun c =>
    match jmGet tr.identity_keys c with
    | some v => json_value_to_str v
    | Option.none => "_NULL_")
  let grouping_key := "existing_entity__" ++ String.intercalate "__" id_key_parts
  if groups.any (fun g => g.grouping_key = grouping_key) then
    groups.map (fun g =>
      if g.grouping_key = grouping_key then
        { g with target_rows := g.target_rows ++ [tr] }
      else g)
  else if ctx.delete_mode.deletes_entities then
    groups ++ [{ grouping_key := grouping_key
                 is_new_entity := false
                 identity_keys := tr.identity_keys
                 source_rows := []
                 target_rows := [tr] }]
  else groups

/-- sweep.rs group_by_entity: groups are accumulated keyed by grouping key
and finally iterated in key order (a BTreeMap); modelled by building the
groups in first-insertion order and sorting by key at the end. -/
def group_by_entity (matched_sources : List MatchedSourceRow)
    (target_rows : List TargetRow) (ctx : PlannerContext) : List EntityGroup :=
  insertionSortLe (fun a b => strLe a.grouping_key b.grouping_key)
    (target_rows.foldl (groupAddTarget ctx)
      (matched_sources.foldl groupAddSource []))

-- ── Mode filter (sweep.rs filter_by_mode) ──

def filter_by_mode (active_sources : List MatchedSourceRow)
    (ctx : PlannerContext) : List MatchedSourceRow :=
  match ctx.mode with
  | .insertNewEntities => active_sources.filter (fun s => s.is_new_entity)
  | .updateForPortionOf | .patchForPortionOf | .replaceForPortionOf
  | .deleteForPortionOf => active_sources.filter (fun s => ¬ s.is_new_entity)
  | _ => active_sources

-- ── Phase 4a: atomic segmentation (sweep.rs build_atomic_segments) ──

/-- Vec::dedup: removes consecutive equal elements. -/
def dedupConsecutive {α : Type} [DecidableEq α] : List α → List α
  | [] => []
  | [x] => [x]
  | x :: y :: rest =>
    if x = y then dedupConsecutive (y :: rest) else x :: dedupConsecutive (y :: rest)

/-- Iterator::min on strings (byte-lexicographic order). -/
def minString : List String → Option String
  | [] => Option.none
  | s :: rest =>
    match minString rest with
    | Option.none => some s
    | some m => some (if compare m s = .lt then m else s)

/-- sweep.rs build_atomic_segments. -/
def build_atomic_segments (group : EntityGroup)
    (active_sources : List MatchedSourceRow) (ctx : PlannerContext) :
    List AtomicSegment :=
  let is_numeric := ctx.era.range_subtype_category = 'N'
  let boundaries₀ :=
    (active_sources.foldr (fun sr acc => sr.source.valid_from :: sr.source.valid_until :: acc) [])
    ++ (group.target_rows.foldr (fun tr acc => tr.valid_from :: tr.valid_until :: acc) [])
  let boundaries := dedupConsecutive
    (insertionSortLe (fun a b => temporal_cmp a b is_numeric ≠ .gt) boundaries₀)
  let causal : Option String :=
    if group.is_new_entity then
      (active_sources.head?).map (fun s => s.source.causal_id)
    else
      minString (active_sources.map (fun s => s.source.causal_id))
  (boundaries.zip boundaries.tail).filterMap (fun w =>
    if temporal_cmp w.1 w.2 is_numeric ≠ .lt then Option.none
    else some
      { grouping_key := group.grouping_key
        valid_from := w.1
        valid_until := w.2
        is_new_entity := group.is_new_entity
        identity_keys := group.identity_keys
        causal_id := causal })

-- ── Phase 4b: payload resolution (sweep.rs resolve_payloads) ──

/-- sweep.rs resolve_source_payload. -/
def resolve_source_payload (covering_sources : List MatchedSourceRow)
    (covering_target : Option TargetRow) (ctx : PlannerContext) :
    Option Jmap × List Int :=
  match covering_sources with
  | [] => ((covering_target.map (fun t => t.data_payload)), [])
  | _ =>
    let merged₀ := (covering_target.map (fun t => t.data_payload)).getD []
    let merged := covering_sources.foldl
      (fun merged sr =>
        if ctx.mode.is_patch then
          (strip_nulls sr.source.data_payload).foldl
            (fun m kv => jmInsert m kv.1 kv.2) merged
        else
          sr.source.data_payload.foldl
            (fun m kv =>
              if kv.2.is_null ∧ kv.1 ∈ ctx.exclude_if_null_columns then m
              else jmInsert m kv.1 kv.2)
            merged)
      merged₀
    let row_ids :=
      if ctx.mode.is_last_writer_wins then
        match covering_sources.getLast? with
        | some last_sr => [last_sr.source.row_id]
        | Option.none => []
      else
        covering_sources.foldl
          (fun ids sr =>
            if sr.source.row_id ∈ ids then ids else ids ++ [sr.source.row_id])
          []
    (some merged, row_ids)

/-- Body of the per-segment loop of sweep.rs resolve_payloads; returns none
for segments the loop drops. -/
def resolve_one_segment (active_sources : List MatchedSourceRow)
    (target_rows : List TargetRow) (ctx : PlannerContext) (seg : AtomicSegment) :
    Option ResolvedSegment :=
  let is_numeric := ctx.era.range_subtype_category = 'N'
  let covering_sources := insertionSortLe
    (fun a b => a.source.row_id ≤ b.source.row_id)
    (active_sources.filter (fun s =>
      temporal_cmp s.source.valid_from seg.valid_from is_numeric ≠ .gt
      ∧ temporal_cmp s.source.valid_until seg.valid_until is_numeric ≠ .lt))
  let covering_target := target_rows.find? (fun t =>
    temporal_cmp t.valid_from seg.valid_from is_numeric ≠ .gt
    ∧ temporal_cmp t.valid_until seg.valid_until is_numeric ≠ .lt)
  let dp : Option Jmap × List Int :=
    if ctx.mode = .deleteForPortionOf ∧ ¬ covering_sources.isEmpty then
      (Option.none, covering_sources.map (fun s => s.source.row_id))
    else
      resolve_source_payload covering_sources covering_target ctx
  let data_payload := dp.1
  let row_ids := dp.2
  let source_from := (covering_sources.head?).map (fun s => s.source.valid_from)
  let source_until := (covering_sources.getLast?).map (fun s => s.source.valid_until)
  let target_from := covering_target.map (fun t => t.valid_from)
  let target_until := covering_target.map (fun t => t.valid_until)
  let s_t_relation :=
    match source_from, source_until, target_from, target_until with
    | some sf, some su, some tf, some tu => AllenRelation.compute sf su tf tu is_numeric
    | _, _, _, _ => Option.none
  let data_hash := data_payload.map strip_nulls
  let ephemeral_payload : Option Jmap :=
    if ¬ covering_sources.isEmpty then
      let base := (covering_target.map (fun t => t.ephemeral_payload)).getD []
      let last_eph :=
        ((covering_sources.getLast?).map (fun s => s.source.ephemeral_payload)).getD []
      some (last_eph.foldl
        (fun m kv =>
          if kv.2.is_null ∧ ctx.mode.is_patch then m
          else if kv.2.is_null ∧ kv.1 ∈ ctx.exclude_if_null_columns then m
          else jmInsert m kv.1 kv.2)
        base)
    else covering_target.map (fun t => t.ephemeral_payload)
  let target_data := covering_target.map (fun t => t.data_payload)
  if data_payload.isNone ∧ covering_target.isNone then Option.none
  else if ctx.mode.is_for_portion_of ∧ covering_target.isNone
      ∧ ¬ covering_sources.isEmpty then Option.none
  else if data_payload.isNone ∧ ctx.mode = .deleteForPortionOf
      ∧ ¬ covering_sources.isEmpty then Option.none
  else
    let prop : List Int × Option String × Option String × Option AllenRelation :=
      if covering_sources.isEmpty ∧ ¬ active_sources.isEmpty then
        let causal :=
          match active_sources.find? (fun s =>
            s.source.valid_from = seg.valid_until ∨ s.source.valid_until = seg.valid_from) with
          | some sr => some sr
          | Option.none => active_sources.head?
        match causal with
        | some sr =>
          let sf := sr.source.valid_from
          let su := sr.source.valid_until
          let propagated_st :=
            match target_from, target_until with
            | some tf, some tu =>
              if temporal_cmp sf tu is_numeric = .lt
                  ∧ temporal_cmp su tf is_numeric = .gt then
                AllenRelation.compute sf su tf tu is_numeric
              else Option.none
            | _, _ => Option.none
          ([sr.source.row_id], some sf, some su, propagated_st)
        | Option.none => (row_ids, source_from, source_until, s_t_relation)
      else (row_ids, source_from, source_until, s_t_relation)
    let segment_causal_id :=
      if seg.is_new_entity then
        match covering_sources.getLast? with
        | some s => some s.source.causal_id
        | Option.none => seg.causal_id
      else seg.causal_id
    some
      { grouping_key := seg.grouping_key
        valid_from := seg.valid_from
        valid_until := seg.valid_until
        is_new_entity := seg.is_new_entity
        identity_keys := seg.identity_keys
        causal_id := segment_causal_id
        row_ids := prop.1
        source_valid_from := prop.2.1
        source_valid_until := prop.2.2.1
        target_valid_from := target_from
        target_valid_until := target_until
        data_payload := data_payload
        ephemeral_payload := ephemeral_payload
        target_data_payload := target_data
        data_hash := data_hash
        has_source_coverage := ¬ covering_sources.isEmpty
        has_target_coverage := covering_target.isSome
        s_t_relation := prop.2.2.2 }

/-- sweep.rs resolve_payloads. -/
def resolve_payloads (segments : List AtomicSegment)
    (active_sources : List MatchedSourceRow) (target_rows : List TargetRow)
    (ctx : PlannerContext) : List ResolvedSegment :=
  segments.filterMap (resolve_one_segment active_sources target_rows ctx)

-- ── Phase 4c: coalescing (sweep.rs coalesce_segments) ──

/-- The can_merge test of sweep.rs coalesce_segments: same grouping key,
adjacent in time, same (present) content hash. -/
def canMergeSeg (c : CoalescedSegment) (seg : ResolvedSegment) : Bool :=
  c.grouping_key = seg.grouping_key ∧ c.valid_until = seg.valid_from
    ∧ c.data_hash.isSome ∧ c.data_hash = seg.data_hash

/-- Absorbing one more resolved segment into the open accumulator. -/
def extendCoalesced (c : CoalescedSegment) (seg : ResolvedSegment) : CoalescedSegment :=
  { c with
    valid_until := seg.valid_until
    row_ids := c.row_ids ++ seg.row_ids
    ephemeral_payload :=
      if seg.ephemeral_payload.isSome then seg.ephemeral_payload else c.ephemeral_payload
    has_source_coverage := c.has_source_coverage || seg.has_source_coverage
    has_target_coverage := c.has_target_coverage || seg.has_target_coverage
    ancestor_valid_from :=
      if c.ancestor_valid_from.isNone ∧ seg.target_valid_from.isSome then
        seg.target_valid_from
      else c.ancestor_valid_from
    s_t_relation :=
      if c.s_t_relation.isNone ∧ seg.s_t_relation.isSome then seg.s_t_relation
      else c.s_t_relation }

/-- Opening a fresh accumulator from a resolved segment. -/
def initCoalesced (seg : ResolvedSegment) : CoalescedSegment :=
  { grouping_key := seg.grouping_key
    valid_from := seg.valid_from
    valid_until := seg.valid_until
    is_new_entity := seg.is_new_entity
    identity_keys := seg.identity_keys
    causal_id := seg.causal_id
    row_ids := seg.row_ids
    data_payload := seg.data_payload
    ephemeral_payload := seg.ephemeral_payload
    ancestor_valid_from := seg.target_valid_from
    data_hash := seg.data_hash
    has_source_coverage := seg.has_source_coverage
    has_target_coverage := seg.has_target_coverage
    s_t_relation := seg.s_t_relation }

/-- The main loop of sweep.rs coalesce_segments with the open accumulator
made explicit. -/
def coalesceAux (cur : CoalescedSegment) : List ResolvedSegment → List CoalescedSegment
  | [] => [cur]
  | seg :: rest =>
    if canMergeSeg cur seg then coalesceAux (extendCoalesced cur seg) rest
    else cur :: coalesceAux (initCoalesced seg) rest

/-- Vec::sort plus Vec::dedup on row ids. -/
def dedupSortInts (l : List Int) : List Int :=
  dedupConsecutive (insertionSortLe (fun a b => a ≤ b) l)

/-- sweep.rs coalesce_segments. -/
def coalesce_segments (resolved : List ResolvedSegment) : List CoalescedSegment :=
  match resolved with
  | [] => []
  | s :: rest =>
    (coalesceAux (initCoalesced s) rest).map
      (fun c => { c with row_ids := dedupSortInts c.row_ids })

-- ── Phase 4d: diff computation (sweep.rs compute_diff) ──

/-- HashMap collect keyed by target valid_from keeps the last entry per key. -/
def targetByFrom (target_rows : List TargetRow) (af : String) : Option TargetRow :=
  target_rows.reverse.find? (fun tr => tr.valid_from = af)

/-- sweep.rs compute_diff. -/
def compute_diff (coalesced : List CoalescedSegment)
    (target_rows : List TargetRow) : List DiffRow :=
  let step := coalesced.foldl
    (fun (st : List DiffRow × List String) cs =>
      let target_match :=
        match cs.ancestor_valid_from with
        | some af => targetByFrom target_rows af
        | Option.none => Option.none
      match target_match with
      | some tr =>
        (st.1 ++ [{ grouping_key := cs.grouping_key
                    is_new_entity := cs.is_new_entity
                    identity_keys := cs.identity_keys
                    causal_id := cs.causal_id
                    row_ids := cs.row_ids
                    final_valid_from := some cs.valid_from
                    final_valid_until := some cs.valid_until
                    final_payload := cs.data_payload
                    target_valid_from := some tr.valid_from
                    target_valid_until := some tr.valid_until
                    target_payload := some tr.data_payload
                    ephemeral_payload := cs.ephemeral_payload
                    has_source_coverage := cs.has_source_coverage
                    s_t_relation := cs.s_t_relation
                    target_ephemeral := some tr.ephemeral_payload
                    target_lookup_keys := some tr.lookup_keys
                    target_pk_payload := some tr.pk_payload }],
         st.2 ++ [tr.valid_from])
      | Option.none =>
        (st.1 ++ [{ grouping_key := cs.grouping_key
                    is_new_entity := cs.is_new_entity
                    identity_keys := cs.identity_keys
                    causal_id := cs.causal_id
                    row_ids := cs.row_ids
                    final_valid_from := some cs.valid_from
                    final_valid_until := some cs.valid_until
                    final_payload := cs.data_payload
                    target_valid_from := Option.none
                    target_valid_until := Option.none
                    target_payload := Option.none
                    ephemeral_payload := cs.ephemeral_payload
                    has_source_coverage := cs.has_source_coverage
                    s_t_relation := cs.s_t_relation
                    target_ephemeral := Option.none
                    target_lookup_keys := Option.none
                    target_pk_payload := Option.none }],
         st.2))
    ([], [])
  let unmatched := target_rows.filterMap (fun tr =>
    if tr.valid_from ∈ step.2 then Option.none
    else some
      { grouping_key := ((coalesced.head?).map (fun c => c.grouping_key)).getD ""
        is_new_entity := false
        identity_keys := tr.identity_keys
        causal_id := Option.none
        row_ids := []
        final_valid_from := Option.none
        final_valid_until := Option.none
        final_payload := Option.none
        target_valid_from := some tr.valid_from
        target_valid_until := some tr.valid_until
        target_payload := some tr.data_payload
        ephemeral_payload := Option.none
        has_source_coverage := false
        s_t_relation := Option.none
        target_ephemeral := some tr.ephemeral_payload
        target_lookup_keys := some tr.lookup_keys
        target_pk_payload := some tr.pk_payload })
  step.1 ++ unmatched

-- ── Phase 4e: operation classification (sweep.rs classify_operations) ──

/-- sweep.rs compute_update_effect. -/
def compute_update_effect (old_from old_until new_from new_until : String)
    (is_numeric : Bool) : UpdateEffect :=
  let cmp_from := temporal_cmp new_from old_from is_numeric
  let cmp_until := temporal_cmp new_until old_until is_numeric
  if cmp_from = .eq ∧ cmp_until = .eq then .none
  else if cmp_from ≠ .lt ∧ cmp_until ≠ .gt then .shrink
  else if cmp_from ≠ .gt ∧ cmp_until ≠ .lt then .grow
  else .move

/-- sweep.rs classify_single_diff. -/
def classify_single_diff (d : DiffRow) (update_rank : Option Nat)
    (is_numeric : Bool) : PlanAction × Option UpdateEffect :=
  match d.target_valid_from, d.final_valid_from with
  | Option.none, some _ => (.insert, Option.none)
  | some _, Option.none => (.delete, Option.none)
  | some t_from, some f_from =>
    let t_until := d.target_valid_until.getD ""
    let f_until := d.final_valid_until.getD ""
    let payload_identical :=
      match merge_data_ephemeral d.final_payload d.ephemeral_payload,
            merge_data_ephemeral d.target_payload d.target_ephemeral with
      | some fp, some tp => maps_equal_ignoring_nulls fp tp
      | Option.none, Option.none => true
      | _, _ => false
    if f_from = t_from ∧ f_until = t_until ∧ payload_identical = true then
      (.skipIdentical, Option.none)
    else
      match update_rank with
      | some 1 =>
        (.update, some (compute_update_effect t_from t_until f_from f_until is_numeric))
      | some _ => (.insert, Option.none)
      | Option.none =>
        (.update, some (compute_update_effect t_from t_until f_from f_until is_numeric))
  | Option.none, Option.none => (.error, Option.none)

/-- The update_rank comparator of sweep.rs classify_operations: prefer the
segment starting where the target starts, then the one whose payload matches
the target, then ascending final bounds. -/
def updateRankCmp (is_numeric : Bool) (da db : DiffRow) : Ordering :=
  let a_starts : Bool := da.final_valid_from = da.target_valid_from
  let b_starts : Bool := db.final_valid_from = db.target_valid_from
  let samePayload := fun (d : DiffRow) =>
    match d.final_payload, d.target_payload with
    | some fp, some tp => maps_equal_ignoring_nulls fp tp
    | Option.none, Option.none => true
    | _, _ => false
  (compare b_starts a_starts).then
    ((compare (samePayload db) (samePayload da)).then
      ((temporal_cmp (da.final_valid_from.getD "") (db.final_valid_from.getD "") is_numeric).then
        (temporal_cmp (da.final_valid_until.getD "") (db.final_valid_until.getD "") is_numeric)))

/-- The update_rank table of sweep.rs classify_operations: rows sharing one
target valid_from are ranked; rank 1 keeps UPDATE, higher ranks split into
INSERTs.  Keys are grouped in first-occurrence order (per-key ranks are
independent, so the HashMap iteration order is immaterial). -/
def updateRanks (diff_rows : List DiffRow) (is_numeric : Bool) :
    List (Nat × Nat) :=
  let keys := diff_rows.map (fun d =>
    if d.target_valid_from.isSome ∧ d.final_valid_from.isSome then
      d.target_valid_from
    else Option.none)
  (groupIdxByKey keys).foldl
    (fun acc e =>
      let sorted := insertionSortLe (fun a b =>
        updateRankCmp is_numeric (diff_rows.getD a default) (diff_rows.getD b default) ≠ .gt) e.2
      acc ++ sorted.enum.map (fun ri => (ri.2, ri.1 + 1)))
    []

/-- The group_lookup_keys object of sweep.rs classify_operations. -/
def groupLookupKeys (group : EntityGroup) (ctx : PlannerContext) : Option Jmap :=
  if ctx.all_lookup_cols.isEmpty then some []
  else
    let first_tr := group.target_rows.head?
    match group.source_rows.head? with
    | some sr =>
      some (ctx.all_lookup_cols.foldl
        (fun lk_map col =>
          let val :=
            match jmGet sr.source.identity_keys col with
            | some v => v
            | Option.none =>
              match jmGet sr.source.lookup_keys col with
              | some v => v
              | Option.none => (jmGet sr.source.data_payload col).getD .null
          let val :=
            if val.is_null ∧ ¬ group.is_new_entity then
              match first_tr with
              | some tr =>
                match jmGet tr.lookup_keys col with
                | some v => v
                | Option.none => (jmGet tr.identity_keys col).getD val
              | Option.none => val
            else val
          jmInsert lk_map col val)
        [])
    | Option.none =>
      match first_tr with
      | some tr =>
        some (ctx.all_lookup_cols.foldl
          (fun lk_map col =>
            let val :=
              match jmGet tr.lookup_keys col with
              | some v => v
              | Option.none => (jmGet tr.identity_keys col).getD .null
            jmInsert lk_map col val)
          [])
      | Option.none => Option.none

/-- Body of the per-diff-row emission loop of sweep.rs classify_operations;
returns none when a target-only identical row is silently dropped. -/
def classifyEmit (ctx : PlannerContext) (group_lookup_keys : Option Jmap)
    (has_active_sources : Bool) (is_numeric : Bool) (d : DiffRow)
    (rank : Option Nat) : Option PlanRow :=
  let cls := classify_single_diff d rank is_numeric
  let step :=
    if cls.1 = .skipIdentical ∧ ¬ d.has_source_coverage then
      let should_delete :=
        (has_active_sources ∧ ctx.delete_mode.deletes_timeline)
        ∨ (¬ has_active_sources ∧ ctx.delete_mode.deletes_entities)
      if should_delete then some (PlanAction.delete, cls.2) else Option.none
    else some cls
  match step with
  | Option.none => Option.none
  | some (operation, update_effect) =>
    let old_from := d.target_valid_from
    let old_until := d.target_valid_until
    let old_valid_range :=
      match old_from, old_until with
      | some f, some u => some (format_range f u)
      | _, _ => Option.none
    let new_valid_range :=
      match d.final_valid_from, d.final_valid_until with
      | some f, some u => some (format_range f u)
      | _, _ => Option.none
    let s_t_relation := d.s_t_relation
    let b_a_relation :=
      match old_from, old_until, d.final_valid_from, d.final_valid_until with
      | some of, some ou, some nf, some nu => AllenRelation.compute of ou nf nu is_numeric
      | _, _, _, _ => Option.none
    let data : Option Jmap := d.final_payload.map (fun p =>
      let p := (d.ephemeral_payload.getD []).foldl
        (fun m kv => jmInsert m kv.1 kv.2) p
      match ctx.era.valid_to_col with
      | some vt_col =>
        match d.final_valid_until with
        | some vu =>
          match date_minus_one vu with
          | some vt => jmInsert p vt_col (.str vt)
          | Option.none => p
        | Option.none => p
      | Option.none => p)
    let entity_keys : Option Jmap :=
      let ek := d.identity_keys
      let ek := (group_lookup_keys.getD []).foldl
        (fun ek kv => if jmContains ek kv.1 then ek else jmInsert ek kv.1 kv.2) ek
      let ek := (d.target_pk_payload.getD []).foldl
        (fun ek kv => if jmContains ek kv.1 then ek else jmInsert ek kv.1 kv.2) ek
      if ek.isEmpty then Option.none else some ek
    let identity_keys : Option Jmap :=
      if d.identity_keys.isEmpty then Option.none else some d.identity_keys
    if operation = .delete then
      some
        { plan_op_seq := 0
          statement_seq := 0
          row_ids := []
          operation := operation
          update_effect := Option.none
          causal_id := Option.none
          is_new_entity := d.is_new_entity
          entity_keys := entity_keys
          identity_keys := identity_keys
          lookup_keys := group_lookup_keys
          s_t_relation := Option.none
          b_a_relation := Option.none
          old_valid_from := old_from
          old_valid_until := old_until
          new_valid_from := Option.none
          new_valid_until := Option.none
          old_valid_range := old_valid_range
          new_valid_range := Option.none
          data := Option.none
          feedback := Option.none
          trace := Option.none
          grouping_key := "" }
    else
      some
        { plan_op_seq := 0
          statement_seq := 0
          row_ids := d.row_ids
          operation := operation
          update_effect := update_effect
          causal_id := d.causal_id
          is_new_entity := d.is_new_entity
          entity_keys := entity_keys
          identity_keys := identity_keys
          lookup_keys := group_lookup_keys
          s_t_relation := s_t_relation
          b_a_relation := b_a_relation
          old_valid_from := old_from
          old_valid_until := old_until
          new_valid_from := d.final_valid_from
          new_valid_until := d.final_valid_until
          old_valid_range := old_valid_range
          new_valid_range := new_valid_range
          data := data
          feedback := Option.none
          trace := Option.none
          grouping_key := d.grouping_key }

/-- sweep.rs classify_operations.  The running seq counter of the source is
assigned to plan_op_seq but immediately overwritten by the global
renumbering in sequence_statements; emission order is what matters. -/
def classify_operations (diff_rows : List DiffRow) (group : EntityGroup)
    (ctx : PlannerContext) : List PlanRow :=
  let is_numeric := ctx.era.range_subtype_category = 'N'
  let group_lookup_keys := groupLookupKeys group ctx
  let has_active_sources := group.source_rows.any
    (fun sr => sr.early_feedback.isNone ∧ ¬ sr.is_eclipsed)
  let ranks := updateRanks diff_rows is_numeric
  (diff_rows.enum.filterMap (fun idx_d =>
    classifyEmit ctx group_lookup_keys has_active_sources is_numeric idx_d.2
      ((ranks.find? (fun r => r.1 = idx_d.1)).map (·.2)))).enum.map
    (fun ir => { ir.2 with plan_op_seq := (ir.1 : Int) + 1 })

-- ── Phase 5: statement sequencing (sweep.rs sequence_statements) ──

/-- The global ordering comparator of sweep.rs sequence_statements. -/
def sequenceCmp (is_numeric : Bool) (a b : PlanRow) : Ordering :=
  (compare (a.grouping_key.isEmpty) (b.grouping_key.isEmpty)).then
    ((compare a.grouping_key b.grouping_key).then
      ((compare (((a.entity_keys).map json_map_to_key).getD "")
                (((b.entity_keys).map json_map_to_key).getD "")).then
        (let op_ord := fun (p : PlanRow) =>
          match p.operation with
          | .delete => (1 : Nat)
          | .update => 2
          | .insert => 3
          | _ => 4
        (compare (op_ord a) (op_ord b)).then
          (let eff_ord := fun (p : PlanRow) =>
            match p.update_effect with
            | Option.none => (0 : Nat)
            | some _ => 1
          (compare (eff_ord a) (eff_ord b)).then
            (let a_is_move := a.update_effect = some .move
             let b_is_move := b.update_effect = some .move
             let a_from := ((a.old_valid_from).orElse (fun _ => a.new_valid_from)).getD ""
             let b_from := ((b.old_valid_from).orElse (fun _ => b.new_valid_from)).getD ""
             (if a_is_move ∧ b_is_move then temporal_cmp b_from a_from is_numeric
              else temporal_cmp a_from b_from is_numeric).then
               ((temporal_cmp ((a.new_valid_from).getD "") ((b.new_valid_from).getD "") is_numeric).then
                 (compare (((a.row_ids).head?).getD 0) (((b.row_ids).head?).getD 0))))))))

/-- sweep.rs statement category: DELETE 1, UPDATE none/shrink 2, UPDATE move
3, UPDATE grow 4, INSERT 5, everything else 0. -/
def op_category (p : PlanRow) : Int :=
  match p.operation with
  | .delete => 1
  | .update =>
    match p.update_effect with
    | some .none | some .shrink => 2
    | some .move => 3
    | some .grow => 4
    | Option.none => 2
  | .insert => 5
  | _ => 0

/-- One step of the statement-seq assignment walk of sweep.rs
sequence_statements: non-DML rows go after every DML category, each MOVE
bumps the move counter and takes its own statement, and categories after
MOVE are shifted by the extra MOVE statements seen so far. -/
def seqAssignStep (categories : List Int) (base_move_seq : Option Nat) (max_dml_seq : Int)
    (st : List PlanRow × Int) (row : PlanRow) : List PlanRow × Int :=
  if ¬ row.operation.is_dml then
    (st.1 ++ [{ row with statement_seq := max_dml_seq + 1 }], st.2)
  else
    let cat := op_category row
    let base_seq : Int := ((categories.findIdx? (fun c => c = cat)).getD 0 : Int) + 1
    if cat = 3 then
      let mc := st.2 + 1
      let stmt := if mc = 1 then base_seq else base_seq + mc - 1
      (st.1 ++ [{ row with statement_seq := stmt }], mc)
    else if base_move_seq.isSome ∧ cat > 3 ∧ st.2 > 1 then
      (st.1 ++ [{ row with statement_seq := base_seq + st.2 - 1 }], st.2)
    else
      (st.1 ++ [{ row with statement_seq := base_seq }], st.2)

/-- sweep.rs sequence_statements: sort globally, renumber plan_op_seq, then
assign statement_seq from the distinct DML categories present. -/
def sequence_statements (plan_rows : List PlanRow) (ctx : PlannerContext) :
    List PlanRow :=
  let is_numeric := ctx.era.range_subtype_category = 'N'
  let sortedRows := insertionSortLe (fun a b => sequenceCmp is_numeric a b ≠ .gt) plan_rows
  let renumbered := sortedRows.enum.map
    (fun ir => { ir.2 with plan_op_seq := (ir.1 : Int) + 1 })
  let categories := dedupConsecutive
    (insertionSortLe (fun a b => a ≤ b)
      ((renumbered.filter (fun r => r.operation.is_dml)).map op_category))
  let base_move_seq := categories.findIdx? (fun c => c = 3)
  let max_dml_seq : Int := categories.length
  (renumbered.foldl (seqAssignStep categories base_move_seq max_dml_seq) ([], 0)).1

-- ── Feedback plan rows (sweep.rs make_feedback_plan_row) ──

def infoFeedbackJson : Jmap :=
  [("info", .str "Source row was correctly filtered by the mode's logic and did not result in a DML operation.")]

/-- sweep.rs make_feedback_plan_row. -/
def make_feedback_plan_row (sr : MatchedSourceRow) (fb : EarlyFeedback)
    (ctx : PlannerContext) : PlanRow :=
  let feedback_json : Jmap :=
    if fb.action = .skipNoTarget ∨ fb.action = .skipFiltered then infoFeedbackJson
    else [("error", .str (fb.message.getD ""))]
  let emit_temporal :=
    fb.action ≠ .skipNoTarget ∧ fb.action ≠ .skipFiltered ∧ fb.action ≠ .error
  let display_grouping_key :=
    if sr.is_new_entity ∧ sr.source.lookup_keys.isEmpty ∧ ctx.all_lookup_cols.isEmpty then
      "new_entity__" ++ sr.source.causal_id
    else sr.grouping_key
  let overlayDiscovered := fun (m : Jmap) =>
    (sr.discovered_identity.getD []).foldl
      (fun m kv =>
        let replace :=
          match jmGet m kv.1 with
          | some sv => sv.is_null
          | Option.none => true
        if replace then jmInsert m kv.1 kv.2 else m)
      m
  let ek₀ := overlayDiscovered sr.source.identity_keys
  let ek := sr.source.lookup_keys.foldl
    (fun m kv => if jmContains m kv.1 then m else jmInsert m kv.1 kv.2) ek₀
  let ik := overlayDiscovered sr.source.identity_keys
  { plan_op_seq := 0
    statement_seq := 0
    row_ids := [sr.source.row_id]
    operation := fb.action
    update_effect := Option.none
    causal_id := some sr.source.causal_id
    is_new_entity := sr.is_new_entity
    entity_keys := some ek
    identity_keys := some ik
    lookup_keys := some sr.source.lookup_keys
    s_t_relation := Option.none
    b_a_relation := Option.none
    old_valid_from := Option.none
    old_valid_until := Option.none
    new_valid_from := if emit_temporal then some sr.source.valid_from else Option.none
    new_valid_until := if emit_temporal then some sr.source.valid_until else Option.none
    old_valid_range := Option.none
    new_valid_range :=
      if emit_temporal then some (format_range sr.source.valid_from sr.source.valid_until)
      else Option.none
    data := Option.none
    feedback := some feedback_json
    trace := Option.none
    grouping_key := display_grouping_key }

-- ── Entry point (sweep.rs sweep_line_plan) ──

/-- The plan rows contributed by one entity group, before global sequencing:
early-feedback rows, mode-filter skip rows, then the classified rows of the
group's sweep (skipped entirely when the group has neither active sources
nor targets). -/
def planGroupRows (ctx : PlannerContext) (group : EntityGroup) : List PlanRow :=
  let fbRows := group.source_rows.filterMap (fun sr =>
    match sr.early_feedback with
    | some fb => some (make_feedback_plan_row sr fb ctx)
    | Option.none =>
      if sr.is_eclipsed then
        some (make_feedback_plan_row sr ⟨.skipEclipsed, Option.none⟩ ctx)
      else Option.none)
  let active_sources := group.source_rows.filter
    (fun s => s.early_feedback.isNone ∧ ¬ s.is_eclipsed)
  let filtered_sources := filter_by_mode active_sources ctx
  let skipRows := active_sources.filterMap (fun sr =>
    if filtered_sources.any (fun f => f.source.row_id = sr.source.row_id) then
      Option.none
    else
      some (make_feedback_plan_row sr
        ⟨if sr.is_new_entity then .skipNoTarget else .skipFiltered, Option.none⟩ ctx))
  if filtered_sources.isEmpty ∧ group.target_rows.isEmpty then fbRows ++ skipRows
  else
    let segments := build_atomic_segments group filtered_sources ctx
    let resolved := resolve_payloads segments filtered_sources group.target_rows ctx
    let coalesced := coalesce_segments resolved
    let diff_rows := compute_diff coalesced group.target_rows
    fbRows ++ skipRows ++ classify_operations diff_rows group ctx

/-- sweep.rs sweep_line_plan: the full planning pipeline. -/
def sweep_line_plan (source_rows : List SourceRow) (target_rows : List TargetRow)
    (ctx : PlannerContext) : List PlanRow :=
  let matched := correlate_entities source_rows target_rows ctx
  let matched := canonicalize_new_entity_nks matched ctx
  let matched := detect_eclipsed matched ctx
  let entity_groups := group_by_entity matched target_rows ctx
  let all_plan_rows := entity_groups.foldl
    (fun acc group => acc ++ planGroupRows ctx group) []
  sequence_statements all_plan_rows ctx

-- ── Concrete fixtures for claim evaluation ──

/-- A date-subtype era (lexicographic comparisons), no synchronized valid_to. -/
def eraDate : EraMetadata :=
  { range_col := "valid", valid_from_col := "valid_from", valid_until_col := "valid_until",
    valid_to_col := Option.none, range_type := "daterange",
    multirange_type := "datemultirange", range_subtype := "date",
    range_subtype_category := 'D', ephemeral_columns := [] }

/-- MERGE_ENTITY_UPSERT over a single identity column id, no lookup keys. -/
def ctxUpsertIdentity : PlannerContext :=
  { mode := .mergeEntityUpsert, delete_mode := .none, era := eraDate,
    identity_columns := ["id"], all_lookup_cols := [], lookup_key_sets := [],
    original_entity_key_cols := [], original_entity_segment_key_cols := [],
    temporal_cols := [], pk_cols := [], strategy := .identityKeyOnly,
    ephemeral_columns := [], founding_id_column := Option.none,
    row_id_column := "row_id", log_trace := false, exclude_if_null_columns := [] }

/-- A source row for entity id equal to 1. -/
def mkSrcId (rid : Int) (causal f u : String) (p : Jmap) : SourceRow :=
  { row_id := rid, causal_id := causal, valid_from := f, valid_until := u,
    identity_keys := [("id", .num 1)], lookup_keys := [], data_payload := p,
    ephemeral_payload := [], stable_pk_payload := [], is_identifiable := true,
    lookup_cols_are_null := true }

/-- A target row for entity id equal to 1. -/
def mkTgtId (f u : String) (p : Jmap) : TargetRow :=
  { valid_from := f, valid_until := u, identity_keys := [("id", .num 1)],
    lookup_keys := [], data_payload := p, ephemeral_payload := [], pk_payload := [] }

-- ── Claim C1 ──

/-- Source batch for the statement-group scenario: two updates against a
four-row target timeline of identical payloads, producing one GROW and three
MOVE updates for the same entity. -/
def c1_sources : List SourceRow :=
  [ mkSrcId 1 "1" "2024-03-01" "2024-05-01" [("v", .str "Q")],
    mkSrcId 2 "2" "2024-07-01" "2024-09-01" [("v", .str "R")] ]

def c1_targets : List TargetRow :=
  [ mkTgtId "2024-01-01" "2024-02-01" [("v", .str "P")],
    mkTgtId "2024-02-01" "2024-04-01" [("v", .str "P")],
    mkTgtId "2024-04-01" "2024-06-01" [("v", .str "P")],
    mkTgtId "2024-06-01" "2024-08-01" [("v", .str "P")] ]

/-- Claim C1: statement groups are claimed to number the DML categories in
the order DELETE, UPDATE none or shrink, one group per MOVE, UPDATE grow,
INSERT.  The code violates this: on this input the plan holds one GROW and
three MOVE updates, and the emitted statement groups are GROW 2 and MOVEs
1, 2, 3 — the second MOVE shares statement group 2 with the GROW, and the
GROW is not in a group after every MOVE group.  The sequencer walks rows in
global sort order, where the GROW (smallest old_valid_from) precedes the
MOVEs, so the move counter is still zero when the GROW is numbered. -/
theorem C1_statement_group_collision :
    (sweep_line_plan c1_sources c1_targets ctxUpsertIdentity).map
        (fun r => (r.operation, r.update_effect, r.statement_seq)) =
      [(.update, some .grow, 2), (.update, some .move, 1),
       (.update, some .move, 2), (.update, some .move, 3)] := by
  decide

-- ── Claim C9 ──

/-- Claim C9: sweep_line_plan is a pure deterministic function of its three
inputs.  In this shallow embedding the pipeline is a Lean function, so equal
inputs give identical plans; the Rust function takes the row vectors by move
and the context by shared reference, so no input collection is mutated. -/
theorem C9_sweep_line_plan_deterministic
    (s₁ s₂ : List SourceRow) (t₁ t₂ : List TargetRow) (c₁ c₂ : PlannerContext)
    (hs : s₁ = s₂) (ht : t₁ = t₂) (hc : c₁ = c₂) :
    sweep_line_plan s₁ t₁ c₁ = sweep_line_plan s₂ t₂ c₂ := by
  subst hs; subst ht; subst hc; rfl

theorem C9_sweep_line_plan_deterministic_witness :
    sweep_line_plan c1_sources c1_targets ctxUpsertIdentity =
      sweep_line_plan c1_sources c1_targets ctxUpsertIdentity :=
  C9_sweep_line_plan_deterministic c1_sources c1_sources c1_targets c1_targets
    ctxUpsertIdentity ctxUpsertIdentity rfl rfl rfl

-- ── Claim C6 ──

/-- The update-effect rule in the specification's wording, for the
lexicographically ordered subtypes: NONE when both bounds are unchanged,
SHRINK when the new range is nested inside the old, GROW when the old range
is nested inside the new, and MOVE otherwise. -/
def update_effect_spec (old_from old_until new_from new_until : String) : UpdateEffect :=
  if new_from = old_from ∧ new_until = old_until then .none
  else if old_from ≤ new_from ∧ new_until ≤ old_until then .shrink
  else if new_from ≤ old_from ∧ old_until ≤ new_until then .grow
  else .move

/-- Source and target of the specification's SHRINK example: one source row
on the first five months of a year-long target row with identical payload. -/
def c6_sources : List SourceRow :=
  [ mkSrcId 1 "1" "2024-01-01" "2024-06-01" [("v", .str "P")] ]

def c6_targets : List TargetRow :=
  [ mkTgtId "2024-01-01" "2025-01-01" [("v", .str "P")] ]

/-- Claim C6, counterexample to the example half: on the claimed input the
plan is a single SKIP_IDENTICAL row, not one UPDATE with effect SHRINK: the
covered and uncovered parts of the target carry the same content hash, so
coalescing rebuilds the full original target interval. -/
theorem C6_example_counterexample :
    (sweep_line_plan c6_sources c6_targets ctxUpsertIdentity).map
        (fun r => (r.operation, r.update_effect)) =
      [(.skipIdentical, Option.none)] := by
  decide

/-- Claim C6: the first half is the effect rule, proved as stated against
the specification-worded rule for the lexicographically compared subtypes;
the second half is the amended example outcome: the specification's input
yields one SKIP_IDENTICAL row (old and new bounds both the full target
interval), because the identically valued covered and uncovered target
segments coalesce back into the original interval. -/
theorem C6_update_effect_rule_and_example :
    (∀ old_from old_until new_from new_until : String,
        compute_update_effect old_from old_until new_from new_until false =
          update_effect_spec old_from old_until new_from new_until) ∧
    (sweep_line_plan c6_sources c6_targets ctxUpsertIdentity).map
        (fun r => (r.operation, r.update_effect)) = [(.skipIdentical, Option.none)] ∧
    (sweep_line_plan c6_sources c6_targets ctxUpsertIdentity).map
        (fun r => (r.old_valid_from, r.old_valid_until, r.new_valid_from, r.new_valid_until)) =
      [(some "2024-01-01", some "2025-01-01", some "2024-01-01", some "2025-01-01")] := by
  constructor
  · intro of ou nf nu
    unfold compute_update_effect update_effect_spec temporal_cmp
    rcases lt_trichotomy nf of with h | h | h <;>
      rcases lt_trichotomy nu ou with h' | h' | h' <;>
      simp [compare_lt_iff_lt.mpr, compare_eq_iff_eq.mpr, compare_gt_iff_gt.mpr, h, h',
        le_of_lt, not_le_of_lt, ne_of_lt, ne_of_gt, le_refl]
  · exact ⟨by decide, by decide⟩

-- ── Claim C8 ──

/-- The upsert context with a synchronized valid_to column configured. -/
def ctxUpsertIdentityVt : PlannerContext :=
  { ctxUpsertIdentity with era := { eraDate with valid_to_col := some "valid_to" } }

def c8_sources_inf : List SourceRow :=
  [ mkSrcId 1 "1" "2024-01-01" "infinity" [("v", .str "X")] ]

/-- Claim C8, counterexample: with a synchronized valid-to column configured
and a source row valid until infinity, the emitted INSERT carries a data
object without the valid_to column at all — date_minus_one only handles
YYYY-MM-DD strings, so nothing is subtracted from the infinity bound. -/
theorem C8_counterexample :
    ctxUpsertIdentityVt.era.valid_to_col = some "valid_to" ∧
    (sweep_line_plan c8_sources_inf [] ctxUpsertIdentityVt).map
        (fun r => (r.operation, r.data, r.new_valid_until)) =
      [(.insert, some [("v", .str "X")], some "infinity")] ∧
    jmGet [("v", JsonVal.str "X")] "valid_to" = Option.none := by
  decide

-- ── Claim C5 ──

/-- Two source rows sharing a causal id, the newer one covering the older:
the older row is eclipsed. -/
def c5_sources : List SourceRow :=
  [ mkSrcId 1 "7" "2024-02-01" "2024-03-01" [("v", .str "A")],
    mkSrcId 2 "7" "2024-01-01" "2024-06-01" [("v", .str "B")] ]

/-- Claim C5, counterexample: a SKIP_ECLIPSED row — a benign skip — carries
the error shape with an empty message, not an informational object:
make_feedback_plan_row only gives the informational shape to SKIP_NO_TARGET
and SKIP_FILTERED. -/
theorem C5_counterexample :
    (sweep_line_plan c5_sources [] ctxUpsertIdentity).map
        (fun r => (r.operation, r.feedback)) =
      [(.insert, Option.none), (.skipEclipsed, some [("error", .str "")])] := by
  decide

-- ── Claim C3 ──

/-- The inverse pairing of Allen relations from the specification glossary. -/
def AllenRelation.inverse : AllenRelation → AllenRelation
  | .precedes => .precededBy | .meets => .metBy | .overlaps => .overlappedBy
  | .starts => .startedBy | .during => .contains | .finishes => .finishedBy
  | .equals => .equals | .precededBy => .precedes | .metBy => .meets
  | .overlappedBy => .overlaps | .startedBy => .starts | .contains => .during
  | .finishedBy => .finishes

/-- Two optional Allen relations are an inverse pair when both are absent or
both present with inverse values. -/
abbrev inverseAllenPair (o₁ o₂ : Option AllenRelation) : Prop :=
  o₂ = o₁.map AllenRelation.inverse

/-- AllenRelation.compute as a function of the four comparison outcomes it
branches on: o_ac compares the two starts, o_bd the two ends, o_bc the first
end against the second start, o_ad the first start against the second end. -/
def computeO (o_ac o_bd o_bc o_ad : Ordering) : Option AllenRelation :=
  if o_bc = .lt then some .precedes
  else if o_bc = .eq then some .meets
  else if o_ac = .lt ∧ o_bc = .gt ∧ o_bd = .lt then some .overlaps
  else if o_ac = .eq ∧ o_bd = .lt then some .starts
  else if o_ac = .gt ∧ o_bd = .lt then some .during
  else if o_ac = .gt ∧ o_bd = .eq then some .finishes
  else if o_ac = .eq ∧ o_bd = .eq then some .equals
  else if o_ad = .gt then some .precededBy
  else if o_ad = .eq then some .metBy
  else if o_ac = .gt ∧ o_ad = .lt ∧ o_bd = .gt then some .overlappedBy
  else if o_ac = .eq ∧ o_bd = .gt then some .startedBy
  else if o_ac = .lt ∧ o_bd = .gt then some .contains
  else if o_ac = .lt ∧ o_bd = .eq then some .finishedBy
  else Option.none

/-- Claim C3, counterexample: without restrictions the symmetry fails.  With
the inverted interval [1,0) against [2,1): compute gives precedes one way
and meets the other.  With a numeric NaN boundary, [0,NaN) against [1,2):
meets one way, finishes the other (NaN comparisons all come out Equal). -/
theorem C3_counterexample :
    (AllenRelation.compute "1" "0" "2" "1" false = some .precedes ∧
     AllenRelation.compute "2" "1" "1" "0" false = some .meets ∧
     ¬ inverseAllenPair (AllenRelation.compute "1" "0" "2" "1" false)
        (AllenRelation.compute "2" "1" "1" "0" false)) ∧
    (AllenRelation.compute "0" "NaN" "1" "2" true = some .meets ∧
     AllenRelation.compute "1" "2" "0" "NaN" true = some .finishes ∧
     ¬ inverseAllenPair (AllenRelation.compute "0" "NaN" "1" "2" true)
        (AllenRelation.compute "1" "2" "0" "NaN" true)) := by
  decide


/-- A boundary string is safe for the numeric comparison when it does not
parse to NaN; lexicographic comparisons are always safe. -/
def notNan (n : Bool) (x : String) : Prop :=
  n = true → parse_temporal_numeric x ≠ NumVal.nan

lemma cmpSwap {α : Type} [LinearOrder α] (x y : α) : compare y x = (compare x y).swap := by
  rcases lt_trichotomy x y with h | h | h
  · rw [compare_gt_iff_gt.mpr h, compare_lt_iff_lt.mpr h]; rfl
  · rw [compare_eq_iff_eq.mpr h, compare_eq_iff_eq.mpr h.symm]; rfl
  · rw [compare_lt_iff_lt.mpr h, compare_gt_iff_gt.mpr h]; rfl

lemma num_cmp_swap (u v : NumVal) (hu : u ≠ .nan) (hv : v ≠ .nan) :
    num_cmp v u = (num_cmp u v).swap := by
  cases u <;> cases v <;> simp_all [num_cmp] <;> first | decide | exact cmpSwap _ _

lemma num_cmp_eq_iff (u v : NumVal) (hu : u ≠ .nan) (hv : v ≠ .nan) :
    num_cmp u v = .eq ↔ u = v := by
  cases u <;> cases v <;> simp_all [num_cmp] <;>
    first | decide | simp [compare_eq_iff_eq]

lemma num_cmp_lt_trans (u v w : NumVal) (hu : u ≠ .nan) (hv : v ≠ .nan) (hw : w ≠ .nan) :
    num_cmp u v = .lt → num_cmp v w = .lt → num_cmp u w = .lt := by
  cases u <;> cases v <;> cases w <;> simp_all [num_cmp, compare_lt_iff_lt] <;>
    first | decide | (intro h1 h2; exact lt_trans h1 h2)

lemma nan_of_tc_lt {n : Bool} {x y : String} (h : temporal_cmp x y n = .lt) :
    notNan n x ∧ notNan n y := by
  refine ⟨fun hn hx => ?_, fun hn hy => ?_⟩ <;> subst hn
  · simp [temporal_cmp, hx, num_cmp] at h
  · simp [temporal_cmp, hy] at h
    rcases hpx : parse_temporal_numeric x <;> rw [hpx] at h <;> simp [num_cmp] at h

lemma tc_swap {n : Bool} (x y : String) (hx : notNan n x) (hy : notNan n y) :
    temporal_cmp y x n = (temporal_cmp x y n).swap := by
  cases n with
  | false => simp [temporal_cmp]; exact cmpSwap x y
  | true =>
    simp [temporal_cmp]
    exact num_cmp_swap _ _ (hx rfl) (hy rfl)

lemma tc_lt_trans {n : Bool} {x y z : String} (hx : notNan n x) (hy : notNan n y)
    (hz : notNan n z) (h1 : temporal_cmp x y n = .lt) (h2 : temporal_cmp y z n = .lt) :
    temporal_cmp x z n = .lt := by
  cases n with
  | false =>
    simp [temporal_cmp] at *
    exact compare_lt_iff_lt.mpr (lt_trans (compare_lt_iff_lt.mp h1) (compare_lt_iff_lt.mp h2))
  | true =>
    simp [temporal_cmp] at *
    exact num_cmp_lt_trans _ _ _ (hx rfl) (hy rfl) (hz rfl) h1 h2

lemma tc_eq_lt {n : Bool} {x y z : String} (hx : notNan n x) (hy : notNan n y)
    (h1 : temporal_cmp x y n = .eq) (h2 : temporal_cmp y z n = .lt) :
    temporal_cmp x z n = .lt := by
  cases n with
  | false =>
    simp [temporal_cmp] at *
    rw [compare_eq_iff_eq.mp h1]; exact h2
  | true =>
    simp [temporal_cmp] at *
    rw [(num_cmp_eq_iff _ _ (hx rfl) (hy rfl)).mp h1]; exact h2

lemma tc_lt_eq {n : Bool} {x y z : String} (hy : notNan n y) (hz : notNan n z)
    (h1 : temporal_cmp x y n = .lt) (h2 : temporal_cmp y z n = .eq) :
    temporal_cmp x z n = .lt := by
  cases n with
  | false =>
    simp [temporal_cmp] at *
    rw [← compare_eq_iff_eq.mp h2]; exact h1
  | true =>
    simp [temporal_cmp] at *
    rw [← (num_cmp_eq_iff _ _ (hy rfl) (hz rfl)).mp h2]; exact h1

lemma computeO_symm_constrained (o1 o2 o3 o4 : Ordering) :
    ((o1 = .lt → o4 = .lt) ∧ (o1 = .eq → o4 = .lt ∧ o3 = .gt) ∧ (o1 = .gt → o3 = .gt)
      ∧ (o2 = .lt → o4 = .lt) ∧ (o2 = .eq → o4 = .lt ∧ o3 = .gt) ∧ (o2 = .gt → o3 = .gt)
      ∧ (o3 = .lt → o1 = .lt ∧ o2 = .lt ∧ o4 = .lt)
      ∧ (o3 = .eq → o1 = .lt ∧ o2 = .lt ∧ o4 = .lt)
      ∧ (o4 = .gt → o1 = .gt ∧ o2 = .gt ∧ o3 = .gt)
      ∧ (o4 = .eq → o1 = .gt ∧ o2 = .gt ∧ o3 = .gt)) →
    inverseAllenPair (computeO o1 o2 o3 o4) (computeO o1.swap o2.swap o4.swap o3.swap) := by
  rcases o1 <;> rcases o2 <;> rcases o3 <;> rcases o4 <;> decide



lemma swap_eq_lt {o : Ordering} : o.swap = .lt ↔ o = .gt := by
  rcases o <;> simp [Ordering.swap]

lemma swap_eq_gt {o : Ordering} : o.swap = .gt ↔ o = .lt := by
  rcases o <;> simp [Ordering.swap]

lemma swap_eq_eq {o : Ordering} : o.swap = .eq ↔ o = .eq := by
  rcases o <;> simp [Ordering.swap]

lemma compute_eq_computeO (a b c d : String) (n : Bool)
    (e1 : temporal_cmp c a n = (temporal_cmp a c n).swap)
    (e2 : temporal_cmp d b n = (temporal_cmp b d n).swap)
    (e3 : temporal_cmp c b n = (temporal_cmp b c n).swap)
    (e4 : temporal_cmp d a n = (temporal_cmp a d n).swap) :
    AllenRelation.compute a b c d n =
      computeO (temporal_cmp a c n) (temporal_cmp b d n)
        (temporal_cmp b c n) (temporal_cmp a d n) := by
  rcases h1 : temporal_cmp a c n <;> rcases h2 : temporal_cmp b d n <;>
    rcases h3 : temporal_cmp b c n <;> rcases h4 : temporal_cmp a d n <;>
    simp [AllenRelation.compute, computeO, e1, e2, e3, e4, h1, h2, h3, h4, Ordering.swap]

theorem C3_allen_symmetry_on_proper_intervals
    (a b c d : String) (n : Bool)
    (hab : temporal_cmp a b n = .lt) (hcd : temporal_cmp c d n = .lt) :
    inverseAllenPair (AllenRelation.compute a b c d n)
      (AllenRelation.compute c d a b n) := by
  obtain ⟨nna, nnb⟩ := nan_of_tc_lt hab
  obtain ⟨nnc, nnd⟩ := nan_of_tc_lt hcd
  have e_ac := @tc_swap n a c nna nnc
  have e_bd := @tc_swap n b d nnb nnd
  have e_bc := @tc_swap n b c nnb nnc
  have e_ad := @tc_swap n a d nna nnd
  have e_ac' : temporal_cmp a c n = (temporal_cmp c a n).swap := by
    rw [e_ac, Ordering.swap_swap]
  have e_bd' : temporal_cmp b d n = (temporal_cmp d b n).swap := by
    rw [e_bd, Ordering.swap_swap]
  have e_bc' : temporal_cmp b c n = (temporal_cmp c b n).swap := by
    rw [e_bc, Ordering.swap_swap]
  have e_ad' : temporal_cmp a d n = (temporal_cmp d a n).swap := by
    rw [e_ad, Ordering.swap_swap]
  have h1 := compute_eq_computeO a b c d n e_ac e_bd e_bc e_ad
  have h2 := compute_eq_computeO c d a b n e_ac' e_bd' e_ad' e_bc'
  rw [h1, h2, e_ac, e_bd, e_bc, e_ad]
  apply computeO_symm_constrained
  refine ⟨?_, ?_, ?_, ?_, ?_, ?_, ?_, ?_, ?_, ?_⟩
  · intro h; exact tc_lt_trans nna nnc nnd h hcd
  · intro h
    have hca : temporal_cmp c a n = .eq := by rw [e_ac, h]; rfl
    have hcb : temporal_cmp c b n = .lt := tc_eq_lt nnc nna hca hab
    refine ⟨tc_eq_lt nna nnc h hcd, ?_⟩
    rw [hcb] at e_bc; exact swap_eq_lt.mp e_bc.symm
  · intro h
    have hca : temporal_cmp c a n = .lt := by rw [e_ac, h]; rfl
    have hcb : temporal_cmp c b n = .lt := tc_lt_trans nnc nna nnb hca hab
    rw [hcb] at e_bc; exact swap_eq_lt.mp e_bc.symm
  · intro h; exact tc_lt_trans nna nnb nnd hab h
  · intro h
    have hdb : temporal_cmp d b n = .eq := by rw [e_bd, h]; rfl
    have hcb : temporal_cmp c b n = .lt := tc_lt_eq nnd nnb hcd hdb
    refine ⟨tc_lt_eq nnb nnd hab h, ?_⟩
    rw [hcb] at e_bc; exact swap_eq_lt.mp e_bc.symm
  · intro h
    have hdb : temporal_cmp d b n = .lt := by rw [e_bd, h]; rfl
    have hcb : temporal_cmp c b n = .lt := tc_lt_trans nnc nnd nnb hcd hdb
    rw [hcb] at e_bc; exact swap_eq_lt.mp e_bc.symm
  · intro h
    have ho1 : temporal_cmp a c n = .lt := tc_lt_trans nna nnb nnc hab h
    exact ⟨ho1, tc_lt_trans nnb nnc nnd h hcd, tc_lt_trans nna nnc nnd ho1 hcd⟩
  · intro h
    have ho1 : temporal_cmp a c n = .lt := tc_lt_eq nnb nnc hab h
    exact ⟨ho1, tc_eq_lt nnb nnc h hcd, tc_lt_trans nna nnc nnd ho1 hcd⟩
  · intro h
    have hda : temporal_cmp d a n = .lt := by rw [e_ad, h]; rfl
    have hca : temporal_cmp c a n = .lt := tc_lt_trans nnc nnd nna hcd hda
    have hdb : temporal_cmp d b n = .lt := tc_lt_trans nnd nna nnb hda hab
    have hcb : temporal_cmp c b n = .lt := tc_lt_trans nnc nna nnb hca hab
    rw [hca] at e_ac; rw [hdb] at e_bd; rw [hcb] at e_bc
    exact ⟨swap_eq_lt.mp e_ac.symm, swap_eq_lt.mp e_bd.symm, swap_eq_lt.mp e_bc.symm⟩
  · intro h
    have hda : temporal_cmp d a n = .eq := by rw [e_ad, h]; rfl
    have hca : temporal_cmp c a n = .lt := tc_lt_eq nnd nna hcd hda
    have hdb : temporal_cmp d b n = .lt := tc_eq_lt nnd nna hda hab
    have hcb : temporal_cmp c b n = .lt := tc_lt_trans nnc nna nnb hca hab
    rw [hca] at e_ac; rw [hdb] at e_bd; rw [hcb] at e_bc
    exact ⟨swap_eq_lt.mp e_ac.symm, swap_eq_lt.mp e_bd.symm, swap_eq_lt.mp e_bc.symm⟩

theorem C3_allen_symmetry_witness :
    temporal_cmp "2024-01-01" "2024-03-01" false = .lt ∧
    temporal_cmp "2024-02-01" "2024-05-01" false = .lt ∧
    inverseAllenPair
      (AllenRelation.compute "2024-01-01" "2024-03-01" "2024-02-01" "2024-05-01" false)
      (AllenRelation.compute "2024-02-01" "2024-05-01" "2024-01-01" "2024-03-01" false) :=
  ⟨by decide, by decide,
    C3_allen_symmetry_on_proper_intervals "2024-01-01" "2024-03-01" "2024-02-01"
      "2024-05-01" false (by decide) (by decide)⟩


end SqlSaga

namespace SqlSaga

lemma mem_insertLe {α : Type} (le : α → α → Bool) (x : α) (l : List α) (y : α) :
    y ∈ insertLe le x l ↔ y = x ∨ y ∈ l := by
  induction l with
  | nil => simp [insertLe]
  | cons z zs ih =>
    by_cases h : le x z = true <;> simp [insertLe, h, ih] <;> tauto

lemma mem_insertionSortLe {α : Type} (le : α → α → Bool) (l : List α) (y : α) :
    y ∈ insertionSortLe le l ↔ y ∈ l := by
  induction l with
  | nil => simp [insertionSortLe]
  | cons z zs ih => simp [insertionSortLe, mem_insertLe, ih]

lemma snd_mem_of_mem_enumFrom {α : Type} {p : Nat × α} :
    ∀ {n : Nat} {l : List α}, p ∈ List.enumFrom n l → p.2 ∈ l := by
  intro n l
  induction l generalizing n with
  | nil => simp
  | cons z zs ih =>
    intro h
    rcases List.mem_cons.mp h with h | h
    · subst h; simp
    · exact List.mem_cons_of_mem _ (ih h)

lemma snd_mem_of_mem_enum {α : Type} {p : Nat × α} {l : List α}
    (h : p ∈ l.enum) : p.2 ∈ l :=
  snd_mem_of_mem_enumFrom h

lemma mem_foldl_append {α β : Type} (f : β → List α) :
    ∀ (l : List β) (acc : List α) (x : α),
      x ∈ l.foldl (fun a b => a ++ f b) acc ↔ x ∈ acc ∨ ∃ b ∈ l, x ∈ f b := by
  intro l
  induction l with
  | nil => simp
  | cons z zs ih =>
    intro acc x
    simp only [List.foldl_cons, ih, List.mem_append, List.mem_cons]
    constructor
    · rintro ((h | h) | ⟨b, hb, hx⟩)
      · exact Or.inl h
      · exact Or.inr ⟨z, Or.inl rfl, h⟩
      · exact Or.inr ⟨b, Or.inr hb, hx⟩
    · rintro (h | ⟨b, hb | hb, hx⟩)
      · exact Or.inl (Or.inl h)
      · subst hb; exact Or.inl (Or.inr hx)
      · exact Or.inr ⟨b, hb, hx⟩

def coreOf (r : PlanRow) : PlanRow :=
  { r with plan_op_seq := 0, statement_seq := 0 }

lemma seqAssignStep_shape (cs : List Int) (bm : Option Nat) (mx : Int)
    (acc : List PlanRow) (s : Int) (row : PlanRow) :
    ∃ n s', seqAssignStep cs bm mx (acc, s) row =
      (acc ++ [{ row with statement_seq := n }], s') := by
  by_cases h1 : row.operation.is_dml = true
  · by_cases h2 : op_category row = 3
    · exact ⟨(if s + 1 = 1 then (((cs.findIdx? (fun c => c = op_category row)).getD 0 : Int) + 1)
        else (((cs.findIdx? (fun c => c = op_category row)).getD 0 : Int) + 1) + (s + 1) - 1),
        s + 1, by simp [seqAssignStep, h1, h2]⟩
    · by_cases h3 : bm.isSome ∧ op_category row > 3 ∧ s > 1
      · exact ⟨(((cs.findIdx? (fun c => c = op_category row)).getD 0 : Int) + 1) + s - 1, s,
          by simp [seqAssignStep, h1, h2, h3]⟩
      · exact ⟨(((cs.findIdx? (fun c => c = op_category row)).getD 0 : Int) + 1), s,
          by simp [seqAssignStep, h1, h2, h3]⟩
  · exact ⟨mx + 1, s, by simp [seqAssignStep, h1]⟩

lemma mem_seq_assign_fold (cs : List Int) (bm : Option Nat) (mx : Int) :
    ∀ (l : List PlanRow) (acc : List PlanRow) (s : Int) (x : PlanRow),
      x ∈ (List.foldl (seqAssignStep cs bm mx) (acc, s) l).1 →
        x ∈ acc ∨ ∃ b ∈ l, ∃ n, x = { b with statement_seq := n } := by
  intro l
  induction l with
  | nil => simp
  | cons z zs ih =>
    intro acc s x hx
    obtain ⟨n, s', hz⟩ := seqAssignStep_shape cs bm mx acc s z
    rw [List.foldl_cons, hz] at hx
    rcases ih _ _ x hx with h | ⟨b, hb, m, hbm⟩
    · rcases List.mem_append.mp h with h | h
      · exact Or.inl h
      · exact Or.inr ⟨z, List.mem_cons_self _ _, n, List.mem_singleton.mp h⟩
    · exact Or.inr ⟨b, List.mem_cons_of_mem _ hb, m, hbm⟩

lemma mem_sequence_statements {rows : List PlanRow} {ctx : PlannerContext} {r : PlanRow}
    (h : r ∈ sequence_statements rows ctx) :
    ∃ r₀ ∈ rows, coreOf r = coreOf r₀ := by
  unfold sequence_statements at h
  rcases mem_seq_assign_fold _ _ _ _ [] 0 r h with h' | ⟨b, hb, n, rfl⟩
  · simp at h'
  · rcases List.mem_map.mp hb with ⟨p, hp, rfl⟩
    refine ⟨p.2, (mem_insertionSortLe _ _ _).mp (snd_mem_of_mem_enum hp), ?_⟩
    simp [coreOf]

-- membership into groups and row origins

lemma mem_sweep_line_plan {s : List SourceRow} {t : List TargetRow}
    {ctx : PlannerContext} {r : PlanRow} (h : r ∈ sweep_line_plan s t ctx) :
    ∃ g ∈ group_by_entity
        (detect_eclipsed (canonicalize_new_entity_nks (correlate_entities s t ctx) ctx) ctx)
        t ctx,
      ∃ r₀ ∈ planGroupRows ctx g, coreOf r = coreOf r₀ := by
  unfold sweep_line_plan at h
  rcases mem_sequence_statements h with ⟨r₀, hr₀, hcore⟩
  rcases (mem_foldl_append (planGroupRows ctx) _ [] r₀).mp hr₀ with h' | ⟨g, hg, hrg⟩
  · simp at h'
  · exact ⟨g, hg, r₀, hrg, hcore⟩

/-- Where a group's plan rows come from: a feedback row built by
make_feedback_plan_row for one of the group's source rows, or a classified
row of the group's diff. -/
lemma mem_planGroupRows {ctx : PlannerContext} {g : EntityGroup} {r : PlanRow}
    (h : r ∈ planGroupRows ctx g) :
    (∃ sr ∈ g.source_rows, ∃ fb : EarlyFeedback,
        r = make_feedback_plan_row sr fb ctx ∧
        (sr.early_feedback = some fb
          ∨ (fb.action = .skipEclipsed ∧ fb.message = Option.none)
          ∨ fb.action = .skipNoTarget ∨ fb.action = .skipFiltered))
    ∨ r ∈ classify_operations
        (compute_diff
          (coalesce_segments (resolve_payloads
            (build_atomic_segments g
              (filter_by_mode
                (g.source_rows.filter (fun s => s.early_feedback.isNone ∧ ¬ s.is_eclipsed)) ctx)
              ctx)
            (filter_by_mode
              (g.source_rows.filter (fun s => s.early_feedback.isNone ∧ ¬ s.is_eclipsed)) ctx)
            g.target_rows ctx))
          g.target_rows) g ctx := by
  simp only [planGroupRows] at h
  have hfb : ∀ r', r' ∈ g.source_rows.filterMap (fun sr =>
      match sr.early_feedback with
      | some fb => some (make_feedback_plan_row sr fb ctx)
      | Option.none =>
        if sr.is_eclipsed then
          some (make_feedback_plan_row sr ⟨.skipEclipsed, Option.none⟩ ctx)
        else Option.none) →
      ∃ sr ∈ g.source_rows, ∃ fb : EarlyFeedback,
        r' = make_feedback_plan_row sr fb ctx ∧
        (sr.early_feedback = some fb
          ∨ (fb.action = .skipEclipsed ∧ fb.message = Option.none)
          ∨ fb.action = .skipNoTarget ∨ fb.action = .skipFiltered) := by
    intro r' hr'
    rcases List.mem_filterMap.mp hr' with ⟨sr, hsr, hout⟩
    rcases hfb_case : sr.early_feedback with _ | fb
    · rw [hfb_case] at hout
      by_cases he : sr.is_eclipsed = true
      · rw [if_pos he] at hout
        exact ⟨sr, hsr, _, (Option.some_inj.mp hout).symm, Or.inr (Or.inl ⟨rfl, rfl⟩)⟩
      · rw [if_neg he] at hout; cases hout
    · rw [hfb_case] at hout
      exact ⟨sr, hsr, fb, (Option.some_inj.mp hout).symm, Or.inl hfb_case⟩
  have hskip : ∀ r', r' ∈ (g.source_rows.filter
        (fun s => s.early_feedback.isNone ∧ ¬ s.is_eclipsed)).filterMap (fun sr =>
      if (filter_by_mode (g.source_rows.filter
            (fun s => s.early_feedback.isNone ∧ ¬ s.is_eclipsed)) ctx).any
          (fun f => f.source.row_id = sr.source.row_id) then
        Option.none
      else
        some (make_feedback_plan_row sr
          ⟨if sr.is_new_entity then .skipNoTarget else .skipFiltered, Option.none⟩ ctx)) →
      ∃ sr ∈ g.source_rows, ∃ fb : EarlyFeedback,
        r' = make_feedback_plan_row sr fb ctx ∧
        (sr.early_feedback = some fb
          ∨ (fb.action = .skipEclipsed ∧ fb.message = Option.none)
          ∨ fb.action = .skipNoTarget ∨ fb.action = .skipFiltered) := by
    intro r' hr'
    rcases List.mem_filterMap.mp hr' with ⟨sr, hsr, hout⟩
    by_cases hc : (filter_by_mode (g.source_rows.filter
        (fun s => s.early_feedback.isNone ∧ ¬ s.is_eclipsed)) ctx).any
          (fun f => f.source.row_id = sr.source.row_id) = true
    · rw [if_pos hc] at hout; cases hout
    · rw [if_neg hc] at hout
      refine ⟨sr, List.mem_of_mem_filter hsr, _, (Option.some_inj.mp hout).symm, ?_⟩
      by_cases hn : sr.is_new_entity = true <;> simp [hn]
  split at h
  · rcases List.mem_append.mp h with h | h
    · exact Or.inl (hfb _ h)
    · exact Or.inl (hskip _ h)
  · rcases List.mem_append.mp h with h | h
    · rcases List.mem_append.mp h with h | h
      · exact Or.inl (hfb _ h)
      · exact Or.inl (hskip _ h)
    · exact Or.inr h

end SqlSaga

namespace SqlSaga

lemma mem_classify_operations {diff_rows : List DiffRow} {g : EntityGroup}
    {ctx : PlannerContext} {r : PlanRow} (h : r ∈ classify_operations diff_rows g ctx) :
    ∃ d ∈ diff_rows, ∃ rank r₁ n,
      classifyEmit ctx (groupLookupKeys g ctx)
        (g.source_rows.any (fun sr => sr.early_feedback.isNone ∧ ¬ sr.is_eclipsed))
        (ctx.era.range_subtype_category = 'N') d rank = some r₁ ∧
      r = { r₁ with plan_op_seq := n } := by
  simp only [classify_operations] at h
  rcases List.mem_map.mp h with ⟨p, hp, rfl⟩
  rcases List.mem_filterMap.mp (snd_mem_of_mem_enum hp) with ⟨idx_d, hidx, hemit⟩
  exact ⟨idx_d.2, snd_mem_of_mem_enum hidx, _, p.2, _, hemit, rfl⟩

lemma classifyEmit_feedback_none {ctx : PlannerContext} {glk : Option Jmap}
    {has : Bool} {isnum : Bool} {d : DiffRow} {rank : Option Nat} {r : PlanRow}
    (h : classifyEmit ctx glk has isnum d rank = some r) :
    r.feedback = Option.none ∧ r.trace = Option.none := by
  simp only [classifyEmit] at h
  split at h
  · cases h
  · split at h <;> (cases h; exact ⟨rfl, rfl⟩)

lemma classify_single_diff_target_isSome {d : DiffRow} {rank : Option Nat} {b : Bool} :
    ((classify_single_diff d rank b).1 = .delete
      ∨ (classify_single_diff d rank b).1 = .skipIdentical) →
    d.target_valid_from.isSome := by
  intro h
  unfold classify_single_diff at h
  rcases ht : d.target_valid_from with _ | tf <;> rcases hf : d.final_valid_from with _ | ff <;>
    rw [ht, hf] at h <;> simp_all

lemma classifyEmit_delete_shape {ctx : PlannerContext} {glk : Option Jmap}
    {has : Bool} {isnum : Bool} {d : DiffRow} {rank : Option Nat} {r : PlanRow}
    (h : classifyEmit ctx glk has isnum d rank = some r) (hop : r.operation = .delete) :
    r.row_ids = [] ∧ r.update_effect = Option.none ∧ r.causal_id = Option.none
      ∧ r.s_t_relation = Option.none ∧ r.b_a_relation = Option.none
      ∧ r.new_valid_from = Option.none ∧ r.new_valid_until = Option.none
      ∧ r.new_valid_range = Option.none ∧ r.data = Option.none
      ∧ r.feedback = Option.none ∧ r.trace = Option.none
      ∧ r.old_valid_from = d.target_valid_from ∧ r.old_valid_until = d.target_valid_until
      ∧ r.old_valid_range = (match d.target_valid_from, d.target_valid_until with
          | some f, some u => some (format_range f u)
          | _, _ => Option.none)
      ∧ d.target_valid_from.isSome := by
  simp only [classifyEmit] at h
  split at h
  · cases h
  next op eff heq =>
    have hsome : d.target_valid_from.isSome := by
      split at heq
      next hcond =>
        split at heq
        · exact classify_single_diff_target_isSome (Or.inr hcond.1)
        · cases heq
      next hcond =>
        have hcls := Option.some.inj heq
        apply classify_single_diff_target_isSome
        left
        rw [hcls]
        split at h
        next hdel => exact hdel
        next hne =>
          obtain rfl := (Option.some.inj h)
          exact absurd hop hne
    split at h
    next hdel =>
      obtain rfl := (Option.some.inj h)
      exact ⟨rfl, rfl, rfl, rfl, rfl, rfl, rfl, rfl, rfl, rfl, rfl, rfl, rfl, rfl, hsome⟩
    next hne =>
      obtain rfl := (Option.some.inj h)
      exact absurd hop hne

/-- Fold with extra state that only appends to its list component. -/
lemma mem_foldl_state {α β σ : Type} (step : (List α × σ) → β → (List α × σ))
    (P : α → Prop)
    (hstep : ∀ st b x, x ∈ (step st b).1 → x ∈ st.1 ∨ P x) :
    ∀ (l : List β) (st : List α × σ) (x : α),
      x ∈ (List.foldl step st l).1 → x ∈ st.1 ∨ P x := by
  intro l
  induction l with
  | nil => intro st x hx; exact Or.inl hx
  | cons b bs ih =>
    intro st x hx
    rcases ih (step st b) x hx with h | h
    · exact hstep st b x h
    · exact Or.inr h

/-- compute_diff invariant: target bounds are present or absent together. -/
lemma compute_diff_target_bounds {cs : List CoalescedSegment} {trs : List TargetRow}
    {d : DiffRow} (h : d ∈ compute_diff cs trs) :
    d.target_valid_from.isSome ↔ d.target_valid_until.isSome := by
  simp only [compute_diff] at h
  rcases List.mem_append.mp h with h | h
  · have := mem_foldl_state _
      (fun x : DiffRow => x.target_valid_from.isSome ↔ x.target_valid_until.isSome)
      (fun st b x hx => by
        split at hx
        · rcases List.mem_append.mp hx with hx | hx
          · exact Or.inl hx
          · obtain rfl := List.mem_singleton.mp hx
            exact Or.inr (by simp)
        · rcases List.mem_append.mp hx with hx | hx
          · exact Or.inl hx
          · obtain rfl := List.mem_singleton.mp hx
            exact Or.inr (by simp))
      cs ([], []) d h
    rcases this with h' | h'
    · simp at h'
    · exact h'
  · rcases List.mem_filterMap.mp h with ⟨tr, htr, hout⟩
    split at hout
    · cases hout
    · obtain rfl := (Option.some.inj hout)
      simp

end SqlSaga

namespace SqlSaga

lemma make_feedback_plan_row_fields (sr : MatchedSourceRow) (fb : EarlyFeedback)
    (ctx : PlannerContext) :
    (make_feedback_plan_row sr fb ctx).operation = fb.action ∧
    (make_feedback_plan_row sr fb ctx).data = Option.none ∧
    (make_feedback_plan_row sr fb ctx).old_valid_from = Option.none ∧
    (make_feedback_plan_row sr fb ctx).feedback = some
      (if fb.action = .skipNoTarget ∨ fb.action = .skipFiltered then infoFeedbackJson
       else [("error", .str (fb.message.getD ""))]) :=
  ⟨rfl, rfl, rfl, rfl⟩

lemma correlate_one_feedback_action {t : List TargetRow} {ctx : PlannerContext}
    {sr : SourceRow} {fb : EarlyFeedback}
    (h : (correlate_one t ctx sr).early_feedback = some fb) :
    fb.action = .error := by
  simp only [correlate_one] at h
  repeat' split at h
  all_goals try cases h
  all_goals try (obtain rfl := Option.some.inj h)
  all_goals try rfl
  all_goals simp_all

end SqlSaga

namespace SqlSaga

/-- The canonical natural-key pass only rewrites canonical_nk_json and the
grouping key; everything else of each matched row is preserved. -/
lemma mem_canonicalize_new_entity_nks {matched : List MatchedSourceRow}
    {ctx : PlannerContext} {m' : MatchedSourceRow}
    (h : m' ∈ canonicalize_new_entity_nks matched ctx) :
    ∃ m ∈ matched, m'.early_feedback = m.early_feedback
      ∧ m'.is_eclipsed = m.is_eclipsed ∧ m'.source = m.source
      ∧ m'.is_new_entity = m.is_new_entity := by
  simp only [canonicalize_new_entity_nks] at h
  split at h
  · exact ⟨m', h, rfl, rfl, rfl, rfl⟩
  · split at h
    · exact ⟨m', h, rfl, rfl, rfl, rfl⟩
    · rcases List.mem_map.mp h with ⟨p, hp, rfl⟩
      refine ⟨p.2, snd_mem_of_mem_enum hp, ?_⟩
      split <;> exact ⟨rfl, rfl, rfl, rfl⟩

/-- Eclipse detection only flips the is_eclipsed flag. -/
lemma mem_detect_eclipsed {matched : List MatchedSourceRow} {ctx : PlannerContext}
    {m' : MatchedSourceRow} (h : m' ∈ detect_eclipsed matched ctx) :
    ∃ m ∈ matched, m'.early_feedback = m.early_feedback ∧ m'.source = m.source
      ∧ m'.is_new_entity = m.is_new_entity := by
  simp only [detect_eclipsed] at h
  rcases List.mem_map.mp h with ⟨p, hp, rfl⟩
  refine ⟨p.2, snd_mem_of_mem_enum hp, ?_⟩
  split <;> exact ⟨rfl, rfl, rfl⟩

/-- Every source row inside a built entity group is one of the matched rows. -/
lemma group_source_rows_mem {ms : List MatchedSourceRow} {t : List TargetRow}
    {ctx : PlannerContext} {g : EntityGroup} {srow : MatchedSourceRow}
    (hg : g ∈ group_by_entity ms t ctx) (hs : srow ∈ g.source_rows) : srow ∈ ms := by
  have hg' := (mem_insertionSortLe _ _ _).mp hg
  -- invariant through the target fold: source_rows content untouched or empty
  have htgt : ∀ (l : List TargetRow) (acc : List EntityGroup),
      (∀ g₀ ∈ acc, ∀ s ∈ g₀.source_rows, s ∈ ms) →
      ∀ g₀ ∈ List.foldl (groupAddTarget ctx) acc l, ∀ s ∈ g₀.source_rows, s ∈ ms := by
    intro l
    induction l with
    | nil => intro acc hacc; exact hacc
    | cons tr trs ih =>
      intro acc hacc
      apply ih
      intro g₀ hg₀ s hsg
      simp only [groupAddTarget] at hg₀
      split at hg₀
      · rcases List.mem_map.mp hg₀ with ⟨g₁, hg₁, rfl⟩
        split at hsg
        · exact hacc g₁ hg₁ s hsg
        · exact hacc g₁ hg₁ s hsg
      · split at hg₀
        · rcases List.mem_append.mp hg₀ with hg₀ | hg₀
          · exact hacc g₀ hg₀ s hsg
          · obtain rfl := List.mem_singleton.mp hg₀
            simp at hsg
        · exact hacc g₀ hg₀ s hsg
  -- invariant through the source fold: appended rows come from the fold list
  have hsrc : ∀ (l : List MatchedSourceRow) (acc : List EntityGroup),
      (∀ g₀ ∈ acc, ∀ s ∈ g₀.source_rows, s ∈ ms) → (∀ x ∈ l, x ∈ ms) →
      ∀ g₀ ∈ List.foldl groupAddSource acc l, ∀ s ∈ g₀.source_rows, s ∈ ms := by
    intro l
    induction l with
    | nil => intro acc hacc _; exact hacc
    | cons m mrest ih =>
      intro acc hacc hl
      apply ih
      · intro g₀ hg₀ s hsg
        simp only [groupAddSource] at hg₀
        split at hg₀
        · rcases List.mem_map.mp hg₀ with ⟨g₁, hg₁, rfl⟩
          split at hsg
          · rcases List.mem_append.mp hsg with hsg | hsg
            · exact hacc g₁ hg₁ s hsg
            · obtain rfl := List.mem_singleton.mp hsg
              exact hl _ (List.mem_cons_self _ _)
          · exact hacc g₁ hg₁ s hsg
        · rcases List.mem_append.mp hg₀ with hg₀ | hg₀
          · exact hacc g₀ hg₀ s hsg
          · obtain rfl := List.mem_singleton.mp hg₀
            obtain rfl := List.mem_singleton.mp hsg
            exact hl _ (List.mem_cons_self _ _)
      · intro x hx; exact hl x (List.mem_cons_of_mem _ hx)
  exact htgt t _ (hsrc ms [] (by simp) (fun x hx => hx)) g hg' srow hs

end SqlSaga

namespace SqlSaga

lemma compare_gt_ne {k k' : String} (h : compare k k' = .gt) : k' ≠ k := by
  intro he
  subst he
  rw [compare_eq_iff_eq.mpr rfl] at h
  cases h

lemma jmGet_jmInsert_self (l : Jmap) (k : String) (v : JsonVal) :
    jmGet (jmInsert l k v) k = some v := by
  induction l with
  | nil => simp [jmInsert, jmGet]
  | cons kv rest ih =>
    rcases hc : compare k kv.1 with _ | _ | _
    · simp [jmInsert, hc, jmGet]
    · simp [jmInsert, hc, jmGet]
    · simp [jmInsert, hc, jmGet, compare_gt_ne hc, ih]

/-- Fields preserved by the renumbering of sequence_statements. -/
lemma coreOf_fields {r r₀ : PlanRow} (h : coreOf r = coreOf r₀) :
    r.operation = r₀.operation ∧ r.feedback = r₀.feedback ∧ r.data = r₀.data
      ∧ r.row_ids = r₀.row_ids ∧ r.update_effect = r₀.update_effect
      ∧ r.causal_id = r₀.causal_id ∧ r.s_t_relation = r₀.s_t_relation
      ∧ r.b_a_relation = r₀.b_a_relation ∧ r.old_valid_from = r₀.old_valid_from
      ∧ r.old_valid_until = r₀.old_valid_until ∧ r.old_valid_range = r₀.old_valid_range
      ∧ r.new_valid_from = r₀.new_valid_from ∧ r.new_valid_until = r₀.new_valid_until
      ∧ r.new_valid_range = r₀.new_valid_range ∧ r.trace = r₀.trace := by
  cases r; cases r₀
  simp only [coreOf, PlanRow.mk.injEq] at h
  simp_all

lemma pipeline_feedback_action {s : List SourceRow} {t : List TargetRow}
    {ctx : PlannerContext} {sr : MatchedSourceRow}
    (hsr : sr ∈ detect_eclipsed
      (canonicalize_new_entity_nks (correlate_entities s t ctx) ctx) ctx)
    {fb : EarlyFeedback} (hfb : sr.early_feedback = some fb) : fb.action = .error := by
  rcases mem_detect_eclipsed hsr with ⟨m₁, hm₁, he₁, _, _⟩
  rcases mem_canonicalize_new_entity_nks hm₁ with ⟨m₂, hm₂, he₂, _, _, _⟩
  rcases List.mem_map.mp hm₂ with ⟨src, _, rfl⟩
  apply @correlate_one_feedback_action t ctx src
  rw [← he₂, ← he₁]
  exact hfb

/-- Claim C5 (amended): every feedback object emitted by the planner has one
of exactly two shapes, keyed by the row's operation: ERROR and SKIP_ECLIPSED
rows carry the error object (an empty message for eclipsed rows), while the
mode-filter skips SKIP_NO_TARGET and SKIP_FILTERED carry the informational
object. -/
theorem C5_feedback_shapes (s : List SourceRow) (t : List TargetRow)
    (ctx : PlannerContext) (r : PlanRow) (j : Jmap)
    (hr : r ∈ sweep_line_plan s t ctx) (hj : r.feedback = some j) :
    ((r.operation = .error ∨ r.operation = .skipEclipsed)
        ∧ ∃ msg, j = [("error", .str msg)])
    ∨ ((r.operation = .skipNoTarget ∨ r.operation = .skipFiltered)
        ∧ j = infoFeedbackJson) := by
  rcases mem_sweep_line_plan hr with ⟨g, hg, r₀, hr₀, hcore⟩
  have hop := (coreOf_fields hcore).1
  have hfb := (coreOf_fields hcore).2.1
  rcases mem_planGroupRows hr₀ with ⟨sr, hsr, fb, rfl, horigin⟩ | hclass
  · obtain ⟨hopf, _, _, hfbf⟩ := make_feedback_plan_row_fields sr fb ctx
    have hj' : (if fb.action = .skipNoTarget ∨ fb.action = .skipFiltered then infoFeedbackJson
        else [("error", .str (fb.message.getD ""))]) = j := by
      apply Option.some.inj
      rw [← hfbf, ← hfb]
      exact hj
    by_cases hcase : fb.action = .skipNoTarget ∨ fb.action = .skipFiltered
    · right
      refine ⟨?_, by rw [← hj']; simp [hcase]⟩
      rw [hop, hopf]
      exact hcase
    · left
      refine ⟨?_, ⟨fb.message.getD "", by rw [← hj']; simp [hcase]⟩⟩
      rcases horigin with horigin | horigin | horigin | horigin
      · left
        rw [hop, hopf]
        exact pipeline_feedback_action (group_source_rows_mem hg hsr) horigin
      · right
        rw [hop, hopf]
        exact horigin.1
      · exact absurd (Or.inl horigin) hcase
      · exact absurd (Or.inr horigin) hcase
  · rcases mem_classify_operations hclass with ⟨d, hd, rank, r₁, n, hemit, rfl⟩
    have hnone := (classifyEmit_feedback_none hemit).1
    rw [hfb] at hj
    simp only [hnone] at hj
    cases hj

/-- Claim C10: a DELETE plan row carries no contributing row ids, no update
effect, no causal id, no Allen relations, no new bounds or range, no data
object and no feedback or trace; its old bounds and old range string are
populated from the matched target row. -/
theorem C10_delete_row_shape (s : List SourceRow) (t : List TargetRow)
    (ctx : PlannerContext) (r : PlanRow)
    (hr : r ∈ sweep_line_plan s t ctx) (hop : r.operation = .delete) :
    r.row_ids = [] ∧ r.update_effect = Option.none ∧ r.causal_id = Option.none
      ∧ r.s_t_relation = Option.none ∧ r.b_a_relation = Option.none
      ∧ r.new_valid_from = Option.none ∧ r.new_valid_until = Option.none
      ∧ r.new_valid_range = Option.none ∧ r.data = Option.none
      ∧ r.feedback = Option.none ∧ r.trace = Option.none
      ∧ r.old_valid_from.isSome ∧ r.old_valid_until.isSome
      ∧ r.old_valid_range.isSome := by
  rcases mem_sweep_line_plan hr with ⟨g, hg, r₀, hr₀, hcore⟩
  have hopc := (coreOf_fields hcore).1
  rcases mem_planGroupRows hr₀ with ⟨sr, hsr, fb, rfl, horigin⟩ | hclass
  · obtain ⟨hopf, _, _, _⟩ := make_feedback_plan_row_fields sr fb ctx
    exfalso
    have hact : fb.action = .delete := by rw [← hopf, ← hopc]; exact hop
    rcases horigin with horigin | horigin | horigin | horigin
    · have := pipeline_feedback_action (group_source_rows_mem hg hsr) horigin
      rw [hact] at this; cases this
    · rw [hact] at horigin; cases horigin.1
    · rw [hact] at horigin; cases horigin
    · rw [hact] at horigin; cases horigin
  · rcases mem_classify_operations hclass with ⟨d, hd, rank, r₁, n, hemit, rfl⟩
    have hbounds := compute_diff_target_bounds hd
    have hop₁ : r₁.operation = .delete := by rw [← hop, hopc]
    obtain ⟨h1, h2, h3, h4, h5, h6, h7, h8, h9, h10, h11, h12, h13, h14, h15⟩ :=
      classifyEmit_delete_shape hemit hop₁
    have huntil : d.target_valid_until.isSome := hbounds.mp h15
    rcases Option.isSome_iff_exists.mp h15 with ⟨tf, htf⟩
    rcases Option.isSome_iff_exists.mp huntil with ⟨tu, htu⟩
    refine ⟨?_, ?_, ?_, ?_, ?_, ?_, ?_, ?_, ?_, ?_, ?_, ?_, ?_, ?_⟩ <;>
      simp_all [coreOf]

lemma classifyEmit_valid_to {ctx : PlannerContext} {glk : Option Jmap}
    {has : Bool} {isnum : Bool} {d : DiffRow} {rank : Option Nat} {r : PlanRow}
    (h : classifyEmit ctx glk has isnum d rank = some r)
    {vt_col : String} (hvt : ctx.era.valid_to_col = some vt_col)
    {m : Jmap} (hm : r.data = some m)
    {u : String} (hu : r.new_valid_until = some u)
    {dm : String} (hdm : date_minus_one u = some dm) :
    jmGet m vt_col = some (.str dm) := by
  simp only [classifyEmit] at h
  split at h
  · cases h
  next op eff heq =>
    split at h
    next hdel =>
      obtain rfl := Option.some.inj h
      cases hm
    next hne =>
      obtain rfl := Option.some.inj h
      have hu' : d.final_valid_until = some u := hu
      rcases hp : d.final_payload with _ | p
      · simp [hp] at hm
      · simp [hp, hvt, hu', hdm] at hm
        rw [← hm]
        exact jmGet_jmInsert_self _ _ _

/-- Claim C8 (amended): when a synchronized valid-to column is configured,
every plan row carrying a data object whose new valid-until parses as a
YYYY-MM-DD date has that column present in the data object with the value
one day before the new valid-until; a non-date bound such as infinity leaves
the column out. -/
theorem C8_valid_to_column (s : List SourceRow) (t : List TargetRow)
    (ctx : PlannerContext) (r : PlanRow)
    (hr : r ∈ sweep_line_plan s t ctx)
    (vt_col : String) (hvt : ctx.era.valid_to_col = some vt_col)
    (m : Jmap) (hm : r.data = some m)
    (u : String) (hu : r.new_valid_until = some u)
    (dm : String) (hdm : date_minus_one u = some dm) :
    jmGet m vt_col = some (.str dm) := by
  rcases mem_sweep_line_plan hr with ⟨g, hg, r₀, hr₀, hcore⟩
  obtain ⟨_, _, hdata, _, _, _, _, _, _, _, _, _, hnvu, _, _⟩ := coreOf_fields hcore
  rw [hdata] at hm
  rw [hnvu] at hu
  rcases mem_planGroupRows hr₀ with ⟨sr, hsr, fb, rfl, _⟩ | hclass
  · obtain ⟨_, hdnone, _, _⟩ := make_feedback_plan_row_fields sr fb ctx
    rw [hdnone] at hm
    cases hm
  · rcases mem_classify_operations hclass with ⟨d, hd, rank, r₁, n, hemit, rfl⟩
    exact classifyEmit_valid_to hemit hvt hm hu hdm

/-- A single finite-bound source row for the valid-to witness. -/
def c8_sources_fin : List SourceRow :=
  [ mkSrcId 1 "1" "2024-01-01" "2024-06-01" [("v", .str "X")] ]

theorem C8_valid_to_column_witness :
    jmGet [("v", JsonVal.str "X"), ("valid_to", JsonVal.str "2024-05-31")] "valid_to"
      = some (JsonVal.str "2024-05-31") :=
  C8_valid_to_column c8_sources_fin [] ctxUpsertIdentityVt
    ((sweep_line_plan c8_sources_fin [] ctxUpsertIdentityVt).headD default)
    (by decide) "valid_to" (by decide)
    [("v", JsonVal.str "X"), ("valid_to", JsonVal.str "2024-05-31")] (by decide)
    "2024-06-01" (by decide) "2024-05-31" (by decide)

theorem C5_feedback_shapes_witness :
    ((((sweep_line_plan c5_sources [] ctxUpsertIdentity).getD 1 default).operation = PlanAction.error
        ∨ ((sweep_line_plan c5_sources [] ctxUpsertIdentity).getD 1 default).operation = PlanAction.skipEclipsed)
      ∧ ∃ msg, ([("error", JsonVal.str "")] : Jmap) = [("error", JsonVal.str msg)])
    ∨ ((((sweep_line_plan c5_sources [] ctxUpsertIdentity).getD 1 default).operation = PlanAction.skipNoTarget
        ∨ ((sweep_line_plan c5_sources [] ctxUpsertIdentity).getD 1 default).operation = PlanAction.skipFiltered)
      ∧ ([("error", JsonVal.str "")] : Jmap) = infoFeedbackJson) :=
  C5_feedback_shapes c5_sources [] ctxUpsertIdentity
    ((sweep_line_plan c5_sources [] ctxUpsertIdentity).getD 1 default) [("error", JsonVal.str "")] (by decide) (by decide)

/-- Context deleting entities missing from the source batch. -/
def ctxDeleteEnt : PlannerContext :=
  { ctxUpsertIdentity with delete_mode := .deleteMissingEntities }

/-- One target row with no matching source, to be deleted. -/
def c10_targets : List TargetRow :=
  [ mkTgtId "2024-01-01" "2024-06-01" [("v", .str "T")] ]

theorem C10_delete_row_shape_witness :
    ((sweep_line_plan [] c10_targets ctxDeleteEnt).headD default).row_ids = []
      ∧ ((sweep_line_plan [] c10_targets ctxDeleteEnt).headD default).update_effect = Option.none
      ∧ ((sweep_line_plan [] c10_targets ctxDeleteEnt).headD default).causal_id = Option.none
      ∧ ((sweep_line_plan [] c10_targets ctxDeleteEnt).headD default).s_t_relation = Option.none
      ∧ ((sweep_line_plan [] c10_targets ctxDeleteEnt).headD default).b_a_relation = Option.none
      ∧ ((sweep_line_plan [] c10_targets ctxDeleteEnt).headD default).new_valid_from = Option.none
      ∧ ((sweep_line_plan [] c10_targets ctxDeleteEnt).headD default).new_valid_until = Option.none
      ∧ ((sweep_line_plan [] c10_targets ctxDeleteEnt).headD default).new_valid_range = Option.none
      ∧ ((sweep_line_plan [] c10_targets ctxDeleteEnt).headD default).data = Option.none
      ∧ ((sweep_line_plan [] c10_targets ctxDeleteEnt).headD default).feedback = Option.none
      ∧ ((sweep_line_plan [] c10_targets ctxDeleteEnt).headD default).trace = Option.none
      ∧ ((sweep_line_plan [] c10_targets ctxDeleteEnt).headD default).old_valid_from.isSome
      ∧ ((sweep_line_plan [] c10_targets ctxDeleteEnt).headD default).old_valid_until.isSome
      ∧ ((sweep_line_plan [] c10_targets ctxDeleteEnt).headD default).old_valid_range.isSome :=
  C10_delete_row_shape [] c10_targets ctxDeleteEnt
    ((sweep_line_plan [] c10_targets ctxDeleteEnt).headD default) (by decide) (by decide)

end SqlSaga

namespace SqlSaga

/-- Two consecutive resolved segments a coalescer keeps merging across: same
grouping key, touching half-open intervals, identical present content hash. -/
def linkRR (a b : ResolvedSegment) : Bool :=
  a.grouping_key = b.grouping_key ∧ a.valid_until = b.valid_from
    ∧ a.data_hash.isSome ∧ a.data_hash = b.data_hash

/-- The same mergeability test on two output segments. -/
def coalescedTouching (a b : CoalescedSegment) : Bool :=
  a.grouping_key = b.grouping_key ∧ a.valid_until = b.valid_from
    ∧ a.data_hash.isSome ∧ a.data_hash = b.data_hash

/-- Each segment starts where the previous one (or the given bound) ended. -/
def contiguousFrom (u : String) : List ResolvedSegment → Bool
  | [] => true
  | s :: rest => if s.valid_from = u then contiguousFrom s.valid_until rest else false

/-- The open accumulator agrees with the last segment it absorbed on the
fields the merge test reads. -/
def accMatches (cur : CoalescedSegment) (s : ResolvedSegment) : Prop :=
  cur.valid_until = s.valid_until ∧ cur.grouping_key = s.grouping_key
    ∧ cur.data_hash = s.data_hash

/-- The row-id normalization applied to every closed accumulator. -/
def dedupRows (c : CoalescedSegment) : CoalescedSegment :=
  { c with row_ids := dedupSortInts c.row_ids }

lemma canMergeSeg_of_accMatches {cur : CoalescedSegment} {lp b : ResolvedSegment}
    (hacc : accMatches cur lp) : canMergeSeg cur b = linkRR lp b := by
  obtain ⟨h1, h2, h3⟩ := hacc
  simp [canMergeSeg, linkRR, h1, h2, h3]

lemma accMatches_init (s : ResolvedSegment) : accMatches (initCoalesced s) s :=
  ⟨rfl, rfl, rfl⟩

lemma accMatches_extend {cur : CoalescedSegment} {seg : ResolvedSegment}
    (h : canMergeSeg cur seg = true) : accMatches (extendCoalesced cur seg) seg := by
  simp only [canMergeSeg, decide_eq_true_eq] at h
  exact ⟨rfl, h.1, h.2.2.2⟩

/-- What the coalescer makes of a stream with no open accumulator. -/
def coalesceTail : List ResolvedSegment → List CoalescedSegment
  | [] => []
  | b :: rest => coalesceAux (initCoalesced b) rest

/-- Processing splits at a non-mergeable boundary: the accumulator and the
first list are coalesced on their own, then the second list from scratch. -/
lemma coalesceAux_boundary :
    ∀ (l₁ l₂ : List ResolvedSegment) (cur : CoalescedSegment) (lp : ResolvedSegment),
      accMatches cur lp →
      (∀ b, l₂.head? = some b → linkRR (l₁.getLastD lp) b = false) →
      coalesceAux cur (l₁ ++ l₂) = coalesceAux cur l₁ ++ coalesceTail l₂ := by
  intro l₁
  induction l₁ with
  | nil =>
    intro l₂ cur lp hacc hbreak
    cases l₂ with
    | nil => simp [coalesceAux, coalesceTail]
    | cons b rest =>
      have hcm : canMergeSeg cur b = false := by
        rw [canMergeSeg_of_accMatches hacc]
        exact hbreak b rfl
      simp [coalesceAux, coalesceTail, hcm]
  | cons a as ih =>
    intro l₂ cur lp hacc hbreak
    by_cases hcm : canMergeSeg cur a = true
    · rw [List.cons_append,
        show coalesceAux cur (a :: (as ++ l₂))
            = coalesceAux (extendCoalesced cur a) (as ++ l₂) from by
          simp [coalesceAux, hcm],
        show coalesceAux cur (a :: as) = coalesceAux (extendCoalesced cur a) as from by
          simp [coalesceAux, hcm]]
      refine ih l₂ (extendCoalesced cur a) a (accMatches_extend hcm) ?_
      intro b hb
      have := hbreak b hb
      rwa [List.getLastD_cons] at this
    · have hcm' : canMergeSeg cur a = false := by
        revert hcm
        cases canMergeSeg cur a <;> simp
      rw [List.cons_append,
        show coalesceAux cur (a :: (as ++ l₂))
            = cur :: coalesceAux (initCoalesced a) (as ++ l₂) from by
          simp [coalesceAux, hcm'],
        show coalesceAux cur (a :: as) = cur :: coalesceAux (initCoalesced a) as from by
          simp [coalesceAux, hcm']]
      rw [List.cons_append]
      refine congrArg (cur :: ·) ?_
      refine ih l₂ (initCoalesced a) a (accMatches_init a) ?_
      intro b hb
      have := hbreak b hb
      rwa [List.getLastD_cons] at this

/-- A uniform contiguous run is absorbed whole into the accumulator. -/
lemma coalesceAux_run_merge :
    ∀ (run : List ResolvedSegment) (post : List ResolvedSegment) (cur : CoalescedSegment),
      (∀ s ∈ run, s.grouping_key = cur.grouping_key ∧ s.data_hash = cur.data_hash) →
      cur.data_hash.isSome = true →
      contiguousFrom cur.valid_until run = true →
      coalesceAux cur (run ++ post) = coalesceAux (run.foldl extendCoalesced cur) post := by
  intro run
  induction run with
  | nil => intro post cur _ _ _; rfl
  | cons s rest ih =>
    intro post cur hkeys hsome hcont
    simp only [contiguousFrom] at hcont
    split at hcont
    case isFalse => cases hcont
    case isTrue hvf =>
    have hk := hkeys s (List.mem_cons_self s rest)
    have hcm : canMergeSeg cur s = true := by
      simp only [canMergeSeg, decide_eq_true_eq]
      exact ⟨hk.1.symm, hvf.symm, hsome, hk.2.symm⟩
    rw [List.cons_append,
      show coalesceAux cur (s :: (rest ++ post))
          = coalesceAux (extendCoalesced cur s) (rest ++ post) from by
        simp [coalesceAux, hcm],
      List.foldl_cons]
    refine ih post (extendCoalesced cur s) ?_ ?_ ?_
    · intro x hx
      exact hkeys x (List.mem_cons_of_mem s hx)
    · exact hsome
    · exact hcont

/-- The absorbed run keeps the accumulator head fields and extends the end. -/
lemma foldl_extend_key :
    ∀ (run : List ResolvedSegment) (cur : CoalescedSegment),
      (run.foldl extendCoalesced cur).grouping_key = cur.grouping_key
        ∧ (run.foldl extendCoalesced cur).valid_from = cur.valid_from
        ∧ (run.foldl extendCoalesced cur).data_hash = cur.data_hash := by
  intro run
  induction run with
  | nil => intro cur; exact ⟨rfl, rfl, rfl⟩
  | cons s rest ih => intro cur; exact ih (extendCoalesced cur s)

lemma foldl_extend_until :
    ∀ (run : List ResolvedSegment) (cur : CoalescedSegment),
      (run.foldl extendCoalesced cur).valid_until
        = (run.map (fun s => s.valid_until)).getLastD cur.valid_until := by
  intro run
  induction run with
  | nil => intro cur; rfl
  | cons s rest ih =>
    intro cur
    rw [List.foldl_cons, ih (extendCoalesced cur s), List.map_cons, List.getLastD_cons]
    rfl

lemma getLastD_map_until (l : List ResolvedSegment) (d : ResolvedSegment) :
    (l.map (fun s => s.valid_until)).getLastD d.valid_until = (l.getLastD d).valid_until := by
  induction l generalizing d with
  | nil => rfl
  | cons s rest ih => rw [List.map_cons, List.getLastD_cons, List.getLastD_cons, ih s]

lemma getLastD_mem (l : List ResolvedSegment) (d : ResolvedSegment) :
    l.getLastD d = d ∨ l.getLastD d ∈ l := by
  induction l generalizing d with
  | nil => exact Or.inl rfl
  | cons s rest ih =>
    rw [List.getLastD_cons]
    rcases ih s with h | h
    · exact Or.inr (by rw [h]; exact List.mem_cons_self s rest)
    · exact Or.inr (List.mem_cons_of_mem s h)

/-- The head of the coalescer output keeps the accumulator head fields. -/
lemma coalesceAux_head :
    ∀ (l : List ResolvedSegment) (cur : CoalescedSegment),
      ∃ c out, coalesceAux cur l = c :: out
        ∧ c.grouping_key = cur.grouping_key ∧ c.valid_from = cur.valid_from
        ∧ c.data_hash = cur.data_hash := by
  intro l
  induction l with
  | nil => intro cur; exact ⟨cur, [], rfl, rfl, rfl, rfl⟩
  | cons s rest ih =>
    intro cur
    by_cases hcm : canMergeSeg cur s = true
    · obtain ⟨c, out, he, h1, h2, h3⟩ := ih (extendCoalesced cur s)
      exact ⟨c, out, by simp [coalesceAux, hcm, he], h1, h2, h3⟩
    · have hcm' : canMergeSeg cur s = false := by
        revert hcm
        cases canMergeSeg cur s <;> simp
      exact ⟨cur, coalesceAux (initCoalesced s) rest, by simp [coalesceAux, hcm'],
        rfl, rfl, rfl⟩

/-- No two adjacent coalescer outputs are still mergeable. -/
lemma coalesceAux_chain :
    ∀ (l : List ResolvedSegment) (cur : CoalescedSegment) (lp : ResolvedSegment),
      accMatches cur lp →
      List.Chain' (fun a b => coalescedTouching a b = false) (coalesceAux cur l) := by
  intro l
  induction l with
  | nil => intro cur lp _; simp [coalesceAux]
  | cons s rest ih =>
    intro cur lp hacc
    by_cases hcm : canMergeSeg cur s = true
    · rw [show coalesceAux cur (s :: rest) = coalesceAux (extendCoalesced cur s) rest from by
        simp [coalesceAux, hcm]]
      exact ih (extendCoalesced cur s) s (accMatches_extend hcm)
    · have hcm' : canMergeSeg cur s = false := by
        revert hcm
        cases canMergeSeg cur s <;> simp
      rw [show coalesceAux cur (s :: rest) = cur :: coalesceAux (initCoalesced s) rest from by
        simp [coalesceAux, hcm']]
      obtain ⟨c, out, he, h1, h2, h3⟩ := coalesceAux_head rest (initCoalesced s)
      rw [he]
      refine List.Chain'.cons ?_ (he ▸ ih (initCoalesced s) s (accMatches_init s))
      have : coalescedTouching cur c = canMergeSeg cur s := by
        simp [coalescedTouching, canMergeSeg, h1, h2, h3, initCoalesced]
      rw [this]
      exact hcm'

/-- Mergeability of outputs is unchanged by the row-id normalization. -/
lemma coalescedTouching_dedupRows (a b : CoalescedSegment) :
    coalescedTouching (dedupRows a) (dedupRows b) = coalescedTouching a b := by
  simp [coalescedTouching, dedupRows]

/-- Adjacent coalesce_segments outputs are never equal-content and touching. -/
lemma coalesce_segments_chain (resolved : List ResolvedSegment) :
    List.Chain' (fun a b => coalescedTouching a b = false) (coalesce_segments resolved) := by
  rcases resolved with _ | ⟨s, rest⟩
  · simp [coalesce_segments]
  · show List.Chain' _ ((coalesceAux (initCoalesced s) rest).map _)
    rw [List.chain'_map]
    refine (coalesceAux_chain rest (initCoalesced s) s (accMatches_init s)).imp ?_
    intro a b h
    rw [← h]
    exact coalescedTouching_dedupRows a b

lemma coalesce_segments_cons (b : ResolvedSegment) (rest : List ResolvedSegment) :
    coalesce_segments (b :: rest) = (coalesceAux (initCoalesced b) rest).map dedupRows := rfl

lemma coalesceTail_map (post : List ResolvedSegment) :
    (coalesceTail post).map dedupRows = coalesce_segments post := by
  cases post <;> rfl

lemma coalesceAux_inner_split (s0 : ResolvedSegment) (run post : List ResolvedSegment)
    (hkey : ∀ s ∈ run, s.grouping_key = s0.grouping_key ∧ s.data_hash = s0.data_hash)
    (hsome : s0.data_hash.isSome = true)
    (hcont : contiguousFrom s0.valid_until run = true)
    (hright : post = [] ∨ linkRR (run.getLastD s0) (post.headD s0) = false) :
    coalesceAux (initCoalesced s0) (run ++ post)
      = run.foldl extendCoalesced (initCoalesced s0) :: coalesceTail post := by
  have step1 : coalesceAux (initCoalesced s0) (run ++ post)
      = coalesceAux (run.foldl extendCoalesced (initCoalesced s0)) post :=
    coalesceAux_run_merge run post (initCoalesced s0) hkey hsome hcont
  have hacc : accMatches (run.foldl extendCoalesced (initCoalesced s0)) (run.getLastD s0) := by
    refine ⟨?_, ?_, ?_⟩
    · rw [foldl_extend_until]
      exact getLastD_map_until run s0
    · rw [(foldl_extend_key run (initCoalesced s0)).1]
      rcases getLastD_mem run s0 with h | h
      · rw [h]
        rfl
      · exact ((hkey _ h).1).symm
    · rw [(foldl_extend_key run (initCoalesced s0)).2.2]
      rcases getLastD_mem run s0 with h | h
      · rw [h]
        rfl
      · exact ((hkey _ h).2).symm
  have step2 := coalesceAux_boundary [] post
      (run.foldl extendCoalesced (initCoalesced s0)) (run.getLastD s0) hacc ?_
  · rw [step1]
    rw [List.nil_append] at step2
    rw [step2]
    rfl
  · intro b hb
    rcases hright with h | h
    · rw [h] at hb
      cases hb
    · rcases post with _ | ⟨p, ps⟩
      · cases hb
      · obtain rfl := Option.some.inj hb
        exact h

/-- Claim C7: a maximal run of same-key, contiguous, identical-hash resolved
segments coalesces to exactly one output segment spanning the run, the rest
of the stream coalescing independently on either side; and no two adjacent
output segments are still mergeable (same key, touching, identical present
hash). -/
theorem C7_coalescing (resolved pre run post : List ResolvedSegment) (s0 : ResolvedSegment)
    (hres : resolved = pre ++ (s0 :: run) ++ post)
    (hkey : ∀ s ∈ run, s.grouping_key = s0.grouping_key ∧ s.data_hash = s0.data_hash)
    (hsome : s0.data_hash.isSome = true)
    (hcont : contiguousFrom s0.valid_until run = true)
    (hleft : pre = [] ∨ linkRR (pre.getLastD s0) s0 = false)
    (hright : post = [] ∨ linkRR (run.getLastD s0) (post.headD s0) = false) :
    (coalesce_segments resolved
        = coalesce_segments pre
            ++ dedupRows (run.foldl extendCoalesced (initCoalesced s0))
              :: coalesce_segments post
      ∧ (dedupRows (run.foldl extendCoalesced (initCoalesced s0))).grouping_key
          = s0.grouping_key
      ∧ (dedupRows (run.foldl extendCoalesced (initCoalesced s0))).valid_from
          = s0.valid_from
      ∧ (dedupRows (run.foldl extendCoalesced (initCoalesced s0))).valid_until
          = (run.getLastD s0).valid_until)
    ∧ List.Chain' (fun a b => coalescedTouching a b = false) (coalesce_segments resolved) := by
  subst hres
  refine ⟨⟨?_, ?_, ?_, ?_⟩, coalesce_segments_chain _⟩
  · have hinner := coalesceAux_inner_split s0 run post hkey hsome hcont hright
    cases pre with
    | nil =>
      rw [List.nil_append, List.cons_append, coalesce_segments_cons, hinner]
      rw [List.map_cons, coalesceTail_map]
      rfl
    | cons p0 ps =>
      have hbreak : ∀ b, (s0 :: (run ++ post)).head? = some b →
          linkRR (ps.getLastD p0) b = false := by
        intro b hb
        obtain rfl := Option.some.inj hb
        rcases hleft with h | h
        · cases h
        · rwa [List.getLastD_cons] at h
      have hsplit := coalesceAux_boundary ps (s0 :: (run ++ post)) (initCoalesced p0) p0
          (accMatches_init p0) hbreak
      rw [show (p0 :: ps) ++ (s0 :: run) ++ post = p0 :: (ps ++ (s0 :: (run ++ post))) from by
        simp, coalesce_segments_cons, hsplit]
      rw [List.map_append, coalesce_segments_cons]
      rw [show coalesceTail (s0 :: (run ++ post))
          = coalesceAux (initCoalesced s0) (run ++ post) from rfl]
      rw [hinner, List.map_cons, coalesceTail_map]
  · rw [show (dedupRows (run.foldl extendCoalesced (initCoalesced s0))).grouping_key
        = (run.foldl extendCoalesced (initCoalesced s0)).grouping_key from rfl]
    exact (foldl_extend_key run (initCoalesced s0)).1
  · rw [show (dedupRows (run.foldl extendCoalesced (initCoalesced s0))).valid_from
        = (run.foldl extendCoalesced (initCoalesced s0)).valid_from from rfl]
    exact (foldl_extend_key run (initCoalesced s0)).2.1
  · rw [show (dedupRows (run.foldl extendCoalesced (initCoalesced s0))).valid_until
        = (run.foldl extendCoalesced (initCoalesced s0)).valid_until from rfl]
    rw [foldl_extend_until]
    exact getLastD_map_until run s0

/-- A resolved segment fixture with the fields the coalescer reads. -/
def rseg (gk f u : String) (rid : Int) (h : Option Jmap) : ResolvedSegment :=
  { grouping_key := gk, valid_from := f, valid_until := u, is_new_entity := true,
    identity_keys := [("id", .num 1)], causal_id := some "1", row_ids := [rid],
    source_valid_from := some f, source_valid_until := some u,
    target_valid_from := Option.none, target_valid_until := Option.none,
    data_payload := some [("v", .str "A")], ephemeral_payload := Option.none,
    target_data_payload := Option.none, data_hash := h,
    has_source_coverage := true, has_target_coverage := false,
    s_t_relation := Option.none }

def c7_pre : List ResolvedSegment :=
  [ rseg "k" "2023-12-01" "2024-01-01" 0 (some [("v", .str "Z")]) ]

def c7_s0 : ResolvedSegment :=
  rseg "k" "2024-01-01" "2024-02-01" 1 (some [("v", .str "A")])

def c7_run : List ResolvedSegment :=
  [ rseg "k" "2024-02-01" "2024-03-01" 2 (some [("v", .str "A")]) ]

def c7_post : List ResolvedSegment :=
  [ rseg "k" "2024-03-01" "2024-04-01" 3 (some [("v", .str "B")]) ]

def c7_resolved : List ResolvedSegment := c7_pre ++ (c7_s0 :: c7_run) ++ c7_post

theorem C7_coalescing_witness :
    (coalesce_segments c7_resolved
        = coalesce_segments c7_pre
            ++ dedupRows (c7_run.foldl extendCoalesced (initCoalesced c7_s0))
              :: coalesce_segments c7_post
      ∧ (dedupRows (c7_run.foldl extendCoalesced (initCoalesced c7_s0))).grouping_key
          = c7_s0.grouping_key
      ∧ (dedupRows (c7_run.foldl extendCoalesced (initCoalesced c7_s0))).valid_from
          = c7_s0.valid_from
      ∧ (dedupRows (c7_run.foldl extendCoalesced (initCoalesced c7_s0))).valid_until
          = (c7_run.getLastD c7_s0).valid_until)
    ∧ List.Chain' (fun a b => coalescedTouching a b = false)
        (coalesce_segments c7_resolved) :=
  C7_coalescing c7_resolved c7_pre c7_run c7_post c7_s0 rfl
    (by decide) (by decide) (by decide) (by decide) (by decide)

end SqlSaga

namespace SqlSaga

/-- The spec-side reading of one lookup key-set: the targets it matches,
none when the source row has no usable key for these columns. -/
def nkCandidates (target_rows : List TargetRow) (sr : SourceRow)
    (key_set : List String) : List TargetRow :=
  let nk_key := build_key_for_cols sr.lookup_keys key_set
  if nk_key = "" then [] else targetsMatchingKeySet target_rows key_set nk_key

/-- Entity keys of every target matched by any lookup key-set. -/
def matchedEntities (target_rows : List TargetRow) (sr : SourceRow)
    (ctx : PlannerContext) : List String :=
  (ctx.lookup_key_sets.flatMap (fun ks => nkCandidates target_rows sr ks)).map
    (fun tr => json_map_to_key tr.identity_keys)

/-- The spec-side identity-key match of correlate_entities. -/
def identityMatches (target_rows : List TargetRow) (sr : SourceRow) : Prop :=
  ¬ sr.identity_keys.isEmpty = true ∧ ∃ tr ∈ target_rows,
    json_map_to_key tr.identity_keys ≠ ""
      ∧ json_map_to_key tr.identity_keys = json_map_to_key sr.identity_keys

instance (t : List TargetRow) (sr : SourceRow) : Decidable (identityMatches t sr) := by
  unfold identityMatches
  infer_instance

lemma build_key_for_cols_nil (cols : List String) : build_key_for_cols [] cols = "" := by
  induction cols with
  | nil => rfl
  | cons c cs ih =>
    show String.intercalate "__" _ = ""
    simp only [build_key_for_cols] at ih ⊢
    simp only [List.foldr_cons, jmGet]
    exact ih

lemma idMatchedB_eq_false {t : List TargetRow} {sr : SourceRow}
    (h : ¬ identityMatches t sr) : idMatchedB t sr = false := by
  rw [Bool.eq_false_iff]
  intro hb
  apply h
  simp only [idMatchedB, Bool.and_eq_true, decide_eq_true_eq, List.any_eq_true] at hb
  obtain ⟨h1, tr, htr, h2⟩ := hb
  exact ⟨by simpa using h1, tr, htr, by simpa using h2⟩

lemma nkAbsorb_mono {st : NkState} {tr : TargetRow} {e : String}
    (h : e ∈ st.entities) : e ∈ (nkAbsorb st tr).entities := by
  simp only [nkAbsorb]
  split
  · exact h
  · exact List.mem_append_left _ h

lemma nkAbsorb_adds (st : NkState) (tr : TargetRow) :
    json_map_to_key tr.identity_keys ∈ (nkAbsorb st tr).entities := by
  simp only [nkAbsorb]
  split
  next h => exact h
  next h => exact List.mem_append_right _ (List.mem_singleton.mpr rfl)

lemma nkAbsorb_first (st : NkState) (tr : TargetRow) :
    (nkAbsorb st tr).first = st.first := by
  simp only [nkAbsorb]
  split <;> rfl

lemma foldAbsorb_mono :
    ∀ (targets : List TargetRow) (st : NkState) (e : String),
      e ∈ st.entities → e ∈ (targets.foldl nkAbsorb st).entities := by
  intro targets
  induction targets with
  | nil => intro st e h; exact h
  | cons tr rest ih => intro st e h; exact ih (nkAbsorb st tr) e (nkAbsorb_mono h)

lemma foldAbsorb_mem :
    ∀ (targets : List TargetRow) (st : NkState) (tr : TargetRow), tr ∈ targets →
      json_map_to_key tr.identity_keys ∈ (targets.foldl nkAbsorb st).entities := by
  intro targets
  induction targets with
  | nil => intro st tr h; cases h
  | cons t0 rest ih =>
    intro st tr h
    rcases List.mem_cons.mp h with rfl | h
    · exact foldAbsorb_mono rest (nkAbsorb st tr) _ (nkAbsorb_adds st tr)
    · exact ih (nkAbsorb st t0) tr h

lemma foldAbsorb_first :
    ∀ (targets : List TargetRow) (st : NkState),
      (targets.foldl nkAbsorb st).first = st.first := by
  intro targets
  induction targets with
  | nil => intro st; rfl
  | cons tr rest ih => intro st; rw [List.foldl_cons, ih, nkAbsorb_first]

lemma nkStep_entities_mono {t : List TargetRow} {sr : SourceRow} {st : NkState}
    {ks : List String} {e : String} (h : e ∈ st.entities) :
    e ∈ (nkStep t sr st ks).entities := by
  simp only [nkStep]
  split
  · exact h
  · exact foldAbsorb_mono _ st e h

lemma nkStep_mem_candidates {t : List TargetRow} {sr : SourceRow} {st : NkState}
    {ks : List String} {tr : TargetRow} (h : tr ∈ nkCandidates t sr ks) :
    json_map_to_key tr.identity_keys ∈ (nkStep t sr st ks).entities := by
  simp only [nkCandidates] at h
  simp only [nkStep]
  split
  next hnk =>
    rw [if_pos hnk] at h
    cases h
  next hnk =>
    rw [if_neg hnk] at h
    exact foldAbsorb_mem _ st tr h

lemma nkStep_first (t : List TargetRow) (sr : SourceRow) (st : NkState)
    (ks : List String) :
    (nkStep t sr st ks).first =
      match st.first with
      | some f => some f
      | Option.none => (nkCandidates t sr ks).head?.map (fun tr => tr.identity_keys) := by
  simp only [nkStep, nkCandidates]
  split
  next hnk =>
    cases h : st.first <;> rfl
  next hnk =>
    show (match (targetsMatchingKeySet t ks _).foldl nkAbsorb st |>.first with
      | some f => some f
      | Option.none => _) = _
    rw [foldAbsorb_first]
    cases h : st.first with
    | none =>
      cases targetsMatchingKeySet t ks (build_key_for_cols sr.lookup_keys ks) <;> rfl
    | some f => rfl

lemma foldNk_entities {t : List TargetRow} {sr : SourceRow} :
    ∀ (ksl : List (List String)) (st : NkState) (e : String),
      (e ∈ st.entities ∨ ∃ ks ∈ ksl, ∃ tr ∈ nkCandidates t sr ks,
          json_map_to_key tr.identity_keys = e) →
      e ∈ (ksl.foldl (nkStep t sr) st).entities := by
  intro ksl
  induction ksl with
  | nil =>
    intro st e h
    rcases h with h | ⟨ks, hks, _⟩
    · exact h
    · cases hks
  | cons ks0 rest ih =>
    intro st e h
    rw [List.foldl_cons]
    rcases h with h | ⟨ks, hks, tr, htr, rfl⟩
    · exact ih (nkStep t sr st ks0) e (Or.inl (nkStep_entities_mono h))
    · rcases List.mem_cons.mp hks with rfl | hks
      · exact ih (nkStep t sr st ks) _ (Or.inl (nkStep_mem_candidates htr))
      · exact ih (nkStep t sr st ks0) _ (Or.inr ⟨ks, hks, tr, htr, rfl⟩)

lemma foldNk_first {t : List TargetRow} {sr : SourceRow} :
    ∀ (ksl : List (List String)) (st : NkState),
      (ksl.foldl (nkStep t sr) st).first =
        match st.first with
        | some f => some f
        | Option.none =>
          (ksl.flatMap (fun ks => nkCandidates t sr ks)).head?.map
            (fun tr => tr.identity_keys) := by
  intro ksl
  induction ksl with
  | nil =>
    intro st
    rw [List.foldl_nil]
    cases h : st.first <;> rfl
  | cons ks0 rest ih =>
    intro st
    rw [List.foldl_cons, ih (nkStep t sr st ks0), nkStep_first]
    cases hf : st.first with
    | some f => rfl
    | none =>
      rw [List.flatMap_cons]
      cases hc : nkCandidates t sr ks0 with
      | nil => simp
      | cons c cs => simp

lemma two_mem_one_lt_length {α : Type} {l : List α} {a b : α}
    (ha : a ∈ l) (hb : b ∈ l) (hne : a ≠ b) : 1 < l.length := by
  match l with
  | [] => cases ha
  | [x] =>
    rcases List.mem_singleton.mp ha with rfl
    rcases List.mem_singleton.mp hb with rfl
    exact absurd rfl hne
  | x :: y :: rest => simp [List.length_cons]

/-- Claim C4: a source row with no identity-key match whose lookup key-sets
match two distinct target entities gets ERROR feedback reporting the
ambiguous multi-entity match, is treated as an existing entity
(is_new_entity = false), and takes the identity of the first matched
target. -/
theorem C4_ambiguous_lookup_match (t : List TargetRow) (ctx : PlannerContext)
    (sr : SourceRow)
    (hid : ¬ identityMatches t sr)
    (hnull : sr.lookup_cols_are_null = false)
    (hamb : ∃ e₁ ∈ matchedEntities t sr ctx, ∃ e₂ ∈ matchedEntities t sr ctx, e₁ ≠ e₂) :
    (∃ msg, (correlate_one t ctx sr).early_feedback = some ⟨.error, some msg⟩
      ∧ ∃ ids, msg =
          "Source row is ambiguous. It matches multiple distinct target entities: ["
            ++ ids ++ "]")
    ∧ (correlate_one t ctx sr).is_new_entity = false
    ∧ (correlate_one t ctx sr).discovered_identity
        = ((ctx.lookup_key_sets.flatMap (fun ks => nkCandidates t sr ks)).head?).map
            (fun tr => tr.identity_keys) := by
  have hidm : idMatchedB t sr = false := idMatchedB_eq_false hid
  obtain ⟨e₁, he₁, e₂, he₂, hne⟩ := hamb
  have hlk : sr.lookup_keys.isEmpty = false := by
    rw [Bool.eq_false_iff]
    intro hempty
    have hnil : sr.lookup_keys = [] := List.isEmpty_iff.mp hempty
    rcases List.mem_map.mp he₁ with ⟨tr, htr, rfl⟩
    rcases List.mem_flatMap.mp htr with ⟨ks, hks, htrc⟩
    simp only [nkCandidates, hnil, build_key_for_cols_nil] at htrc
    rw [if_pos trivial] at htrc
    cases htrc
  have htry : tryNkB t sr = true := by
    simp [tryNkB, hidm, hlk, hnull]
  have hm₁ : e₁ ∈ (ctx.lookup_key_sets.foldl (nkStep t sr)
      ⟨[], [], Option.none⟩).entities := by
    rcases List.mem_map.mp he₁ with ⟨tr, htr, rfl⟩
    rcases List.mem_flatMap.mp htr with ⟨ks, hks, htrc⟩
    exact foldNk_entities _ _ _ (Or.inr ⟨ks, hks, tr, htrc, rfl⟩)
  have hm₂ : e₂ ∈ (ctx.lookup_key_sets.foldl (nkStep t sr)
      ⟨[], [], Option.none⟩).entities := by
    rcases List.mem_map.mp he₂ with ⟨tr, htr, rfl⟩
    rcases List.mem_flatMap.mp htr with ⟨ks, hks, htrc⟩
    exact foldNk_entities _ _ _ (Or.inr ⟨ks, hks, tr, htrc, rfl⟩)
  have hlen : 1 < (ctx.lookup_key_sets.foldl (nkStep t sr)
      ⟨[], [], Option.none⟩).entities.length :=
    two_mem_one_lt_length hm₁ hm₂ hne
  have hfirst : (ctx.lookup_key_sets.foldl (nkStep t sr)
      ⟨[], [], Option.none⟩).first =
      ((ctx.lookup_key_sets.flatMap (fun ks => nkCandidates t sr ks)).head?).map
        (fun tr => tr.identity_keys) := by
    rw [foldNk_first]
  refine ⟨⟨"Source row is ambiguous. It matches multiple distinct target entities: ["
      ++ String.intercalate ", " (((ctx.lookup_key_sets.foldl (nkStep t sr)
          ⟨[], [], Option.none⟩).id_maps).map json_to_pg_text) ++ "]", ?_,
      ⟨String.intercalate ", " (((ctx.lookup_key_sets.foldl (nkStep t sr)
          ⟨[], [], Option.none⟩).id_maps).map json_to_pg_text), rfl⟩⟩, ?_, ?_⟩
  · simp only [correlate_one, htry, hidm, hlen, if_true, Bool.false_eq_true, if_false,
      gt_iff_lt, Bool.not_false, Bool.false_and, Bool.and_self]
    all_goals simp [hlen]
  · simp only [correlate_one, htry, hidm, hlen, if_true, Bool.false_eq_true, if_false,
      gt_iff_lt, Bool.not_false, Bool.false_and, Bool.and_self]
    all_goals simp [hlen]
  · rw [← hfirst]
    simp only [correlate_one, htry, hidm, hlen, if_true, Bool.false_eq_true, if_false,
      gt_iff_lt, Bool.not_false, Bool.false_and, Bool.and_self]
    all_goals simp [hlen]

/-- Context with two independent one-column lookup key sets. -/
def c4_ctx : PlannerContext :=
  { ctxUpsertIdentity with
    all_lookup_cols := ["emp", "ssn"],
    lookup_key_sets := [["ssn"], ["emp"]] }

/-- Source row with no identity keys whose ssn matches one target and whose
emp matches another. -/
def c4_src : SourceRow :=
  { row_id := 1, causal_id := "1", valid_from := "2024-01-01",
    valid_until := "2024-06-01", identity_keys := [],
    lookup_keys := [("emp", .str "E1"), ("ssn", .str "S1")],
    data_payload := [("v", .str "X")], ephemeral_payload := [],
    stable_pk_payload := [], is_identifiable := false,
    lookup_cols_are_null := false }

def c4_targets : List TargetRow :=
  [ { valid_from := "2024-01-01", valid_until := "2025-01-01",
      identity_keys := [("id", .num 1)],
      lookup_keys := [("emp", .str "E9"), ("ssn", .str "S1")],
      data_payload := [("v", .str "A")], ephemeral_payload := [], pk_payload := [] },
    { valid_from := "2024-01-01", valid_until := "2025-01-01",
      identity_keys := [("id", .num 2)],
      lookup_keys := [("emp", .str "E1"), ("ssn", .str "S9")],
      data_payload := [("v", .str "B")], ephemeral_payload := [], pk_payload := [] } ]

theorem C4_ambiguous_lookup_match_witness :
    (∃ msg, (correlate_one c4_targets c4_ctx c4_src).early_feedback
        = some ⟨.error, some msg⟩
      ∧ ∃ ids, msg =
          "Source row is ambiguous. It matches multiple distinct target entities: ["
            ++ ids ++ "]")
    ∧ (correlate_one c4_targets c4_ctx c4_src).is_new_entity = false
    ∧ (correlate_one c4_targets c4_ctx c4_src).discovered_identity
        = ((c4_ctx.lookup_key_sets.flatMap
              (fun ks => nkCandidates c4_targets c4_src ks)).head?).map
            (fun tr => tr.identity_keys) :=
  C4_ambiguous_lookup_match c4_targets c4_ctx c4_src
    (by decide) (by decide)
    ⟨"id=1", by decide, "id=2", by decide, by decide⟩

end SqlSaga

namespace SqlSaga

-- ── Claim C2: order infrastructure over temporal_cmp ──

/-- Non-strict temporal order (the ≠ gt test used throughout sweep.rs). -/
def tcLe (n : Bool) (x y : String) : Prop := temporal_cmp x y n ≠ .gt

/-- Strict temporal order. -/
def tcLt (n : Bool) (x y : String) : Prop := temporal_cmp x y n = .lt

instance (n : Bool) (x y : String) : Decidable (tcLe n x y) := by
  unfold tcLe
  infer_instance

instance (n : Bool) (x y : String) : Decidable (tcLt n x y) := by
  unfold tcLt
  infer_instance

lemma num_cmp_refl (v : NumVal) : num_cmp v v = .eq := by
  cases v <;> simp [num_cmp, compare_eq_iff_eq]

lemma tc_refl (n : Bool) (x : String) : temporal_cmp x x n = .eq := by
  cases n with
  | false => simp [temporal_cmp, compare_eq_iff_eq]
  | true => simp [temporal_cmp, num_cmp_refl]

lemma tcLe_refl (n : Bool) (x : String) : tcLe n x x := by
  simp [tcLe, tc_refl]

lemma tcLt_irrefl {n : Bool} {x : String} (h : tcLt n x x) : False := by
  rw [tcLt, tc_refl] at h
  cases h

lemma tc_le_lt_trans {n : Bool} {x y z : String} (hx : notNan n x) (hy : notNan n y)
    (hz : notNan n z) (h1 : tcLe n x y) (h2 : tcLt n y z) : tcLt n x z := by
  rcases hc : temporal_cmp x y n with _ | _ | _
  · exact tc_lt_trans hx hy hz hc h2
  · exact tc_eq_lt hx hy hc h2
  · exact absurd hc h1

lemma tc_lt_le_trans {n : Bool} {x y z : String} (hx : notNan n x) (hy : notNan n y)
    (hz : notNan n z) (h1 : tcLt n x y) (h2 : tcLe n y z) : tcLt n x z := by
  rcases hc : temporal_cmp y z n with _ | _ | _
  · exact tc_lt_trans hx hy hz h1 hc
  · exact tc_lt_eq hy hz h1 hc
  · exact absurd hc h2

lemma tc_le_trans {n : Bool} {x y z : String} (hx : notNan n x) (hy : notNan n y)
    (hz : notNan n z) (h1 : tcLe n x y) (h2 : tcLe n y z) : tcLe n x z := by
  rcases hc : temporal_cmp x y n with _ | _ | _
  · rw [tcLe]
    rw [tc_lt_le_trans hx hy hz hc h2]
    simp
  · rcases hd : temporal_cmp y z n with _ | _ | _
    · rw [tcLe, tc_eq_lt hx hy hc hd]
      simp
    · rw [tcLe]
      cases n with
      | false =>
        simp [temporal_cmp] at *
        rw [compare_eq_iff_eq.mp hc, hd]
        simp
      | true =>
        simp [temporal_cmp] at *
        rw [(num_cmp_eq_iff _ _ (hx rfl) (hy rfl)).mp hc, hd]
        simp
    · exact absurd hd h2
  · exact absurd hc h1

lemma tc_le_total {n : Bool} {x y : String} (hx : notNan n x) (hy : notNan n y) :
    tcLe n x y ∨ tcLe n y x := by
  rcases hc : temporal_cmp x y n with _ | _ | _
  · left; simp [tcLe, hc]
  · left; simp [tcLe, hc]
  · right
    rw [tcLe, tc_swap x y hx hy, hc]
    simp [Ordering.swap]

lemma tc_le_of_not_lt {n : Bool} {x y : String} (hx : notNan n x) (hy : notNan n y)
    (h : ¬ tcLt n x y) : tcLe n y x := by
  rw [tcLe, tc_swap x y hx hy]
  rcases hc : temporal_cmp x y n with _ | _ | _
  · exact absurd hc h
  · simp [Ordering.swap]
  · simp [Ordering.swap]

lemma tc_lt_of_not_le {n : Bool} {x y : String} (hx : notNan n x) (hy : notNan n y)
    (h : ¬ tcLe n x y) : tcLt n y x := by
  rcases hc : temporal_cmp x y n with _ | _ | _
  · exact absurd (by simp [tcLe, hc]) h
  · exact absurd (by simp [tcLe, hc]) h
  · rw [tcLt, tc_swap x y hx hy, hc]
    rfl

lemma tc_lt_le {n : Bool} {x y : String} (hx : notNan n x) (hy : notNan n y)
    (h : tcLt n x y) : tcLe n x y := by
  rw [tcLe, h]
  simp

lemma tc_lt_asymm {n : Bool} {x y : String} (hx : notNan n x) (hy : notNan n y)
    (h1 : tcLt n x y) (h2 : tcLt n y x) : False :=
  tcLt_irrefl (tc_lt_trans hx hy hx h1 h2)

-- ── Generic sortedness of the insertion sort ──

lemma pairwise_insertLe {α : Type} (le : α → α → Bool) (P : α → Prop)
    (htot : ∀ a b, P a → P b → le a b = true ∨ le b a = true)
    (htrans : ∀ a b c, P a → P b → P c → le a b = true → le b c = true → le a c = true) :
    ∀ (l : List α) (x : α), P x → (∀ y ∈ l, P y) →
      List.Pairwise (fun a b => le a b = true) l →
      List.Pairwise (fun a b => le a b = true) (insertLe le x l) := by
  intro l
  induction l with
  | nil => intro x _ _ _; simp [insertLe]
  | cons y ys ih =>
    intro x hx hl hp
    simp only [insertLe]
    split
    next hxy =>
      refine List.Pairwise.cons ?_ hp
      intro z hz
      rcases List.mem_cons.mp hz with rfl | hz
      · exact hxy
      · exact htrans x y z hx (hl y (List.mem_cons_self y ys))
          (hl z (List.mem_cons_of_mem y hz)) hxy
          (List.rel_of_pairwise_cons hp hz)
    next hxy =>
      have hyx : le y x = true := by
        rcases htot x y hx (hl y (List.mem_cons_self y ys)) with h | h
        · exact absurd h hxy
        · exact h
      refine List.Pairwise.cons ?_
        (ih x hx (fun z hz => hl z (List.mem_cons_of_mem y hz)) hp.of_cons)
      intro z hz
      rcases (mem_insertLe le x ys z).mp hz with rfl | hz
      · exact hyx
      · exact List.rel_of_pairwise_cons hp hz

lemma pairwise_insertionSortLe {α : Type} (le : α → α → Bool) (P : α → Prop)
    (htot : ∀ a b, P a → P b → le a b = true ∨ le b a = true)
    (htrans : ∀ a b c, P a → P b → P c → le a b = true → le b c = true → le a c = true) :
    ∀ (l : List α), (∀ y ∈ l, P y) →
      List.Pairwise (fun a b => le a b = true) (insertionSortLe le l) := by
  intro l
  induction l with
  | nil => intro _; simp [insertionSortLe]
  | cons x xs ih =>
    intro hl
    show List.Pairwise _ (insertLe le x (insertionSortLe le xs))
    refine pairwise_insertLe le P htot htrans _ x (hl x (List.mem_cons_self x xs))
      (fun y hy => hl y (List.mem_cons_of_mem x ((mem_insertionSortLe le xs y).mp hy)))
      (ih (fun y hy => hl y (List.mem_cons_of_mem x hy)))

end SqlSaga

namespace SqlSaga

-- ── Claim C2: multirange semantics ──

/-- A well-formed half-open interval: non-NaN bounds, strictly ordered. -/
def goodIv (n : Bool) (i : String × String) : Prop :=
  notNan n i.1 ∧ notNan n i.2 ∧ tcLt n i.1 i.2

/-- A point lies in some interval of the list. -/
def memPt (n : Bool) (mr : List (String × String)) (x : String) : Prop :=
  ∃ i ∈ mr, tcLe n i.1 x ∧ tcLt n x i.2

/-- Strict separation of two blocks (a gap lies between them). -/
def sepIv (n : Bool) (a b : String × String) : Prop := tcLt n a.2 b.1

/-- The maintained-multirange invariant: well-formed separated blocks. -/
def mrInv (n : Bool) (mr : List (String × String)) : Prop :=
  (∀ i ∈ mr, goodIv n i) ∧ List.Pairwise (sepIv n) mr

lemma memPt_nil {n : Bool} {x : String} : ¬ memPt n [] x := by
  simp [memPt]

lemma memPt_cons {n : Bool} {i : String × String} {l : List (String × String)}
    {x : String} :
    memPt n (i :: l) x ↔ (tcLe n i.1 x ∧ tcLt n x i.2) ∨ memPt n l x := by
  simp [memPt, List.mem_cons]

lemma memPt_append {n : Bool} {l₁ l₂ : List (String × String)} {x : String} :
    memPt n (l₁ ++ l₂) x ↔ memPt n l₁ x ∨ memPt n l₂ x := by
  simp only [memPt, List.mem_append]
  constructor
  · rintro ⟨j, hj | hj, h⟩
    · exact Or.inl ⟨j, hj, h⟩
    · exact Or.inr ⟨j, hj, h⟩
  · rintro (⟨j, hj, h⟩ | ⟨j, hj, h⟩)
    · exact ⟨j, Or.inl hj, h⟩
    · exact ⟨j, Or.inr hj, h⟩

lemma memPt_congr {n : Bool} {l₁ l₂ : List (String × String)}
    (h : ∀ i, i ∈ l₁ ↔ i ∈ l₂) {x : String} : memPt n l₁ x ↔ memPt n l₂ x := by
  simp only [memPt]
  constructor
  · rintro ⟨j, hj, hx⟩; exact ⟨j, (h j).mp hj, hx⟩
  · rintro ⟨j, hj, hx⟩; exact ⟨j, (h j).mpr hj, hx⟩

/-- Everything the linear merge pass guarantees: well-formed separated
output blocks whose starts come from the input, covering exactly the union
of the accumulator and the remaining input. -/
lemma mergeRangesFrom_spec (n : Bool) :
    ∀ (rest : List (String × String)) (cur : String × String),
      goodIv n cur →
      (∀ i ∈ rest, goodIv n i) →
      (∀ i ∈ rest, tcLe n cur.1 i.1) →
      List.Pairwise (fun a b => tcLe n a.1 b.1) rest →
      (∀ i ∈ multirange_add.mergeRangesFrom n cur rest, goodIv n i)
      ∧ List.Pairwise (sepIv n) (multirange_add.mergeRangesFrom n cur rest)
      ∧ (∀ i ∈ multirange_add.mergeRangesFrom n cur rest, ∃ j ∈ cur :: rest, i.1 = j.1)
      ∧ (∀ x, notNan n x →
          (memPt n (multirange_add.mergeRangesFrom n cur rest) x ↔
            (tcLe n cur.1 x ∧ tcLt n x cur.2) ∨ memPt n rest x)) := by
  intro rest
  induction rest with
  | nil =>
    intro cur hcur _ _ _
    refine ⟨?_, ?_, ?_, ?_⟩
    · intro i hi
      rcases List.mem_singleton.mp hi with rfl
      exact hcur
    · simp [multirange_add.mergeRangesFrom]
    · intro i hi
      rcases List.mem_singleton.mp hi with rfl
      exact ⟨i, List.mem_cons_self i [], rfl⟩
    · intro x _
      show memPt n [cur] x ↔ _
      rw [memPt_cons]
  | cons y rest' ih =>
    intro cur hcur hgoods hstarts hp
    have hy : goodIv n y := hgoods y (List.mem_cons_self y rest')
    have hgoods' : ∀ i ∈ rest', goodIv n i :=
      fun i hi => hgoods i (List.mem_cons_of_mem y hi)
    have hcury : tcLe n cur.1 y.1 := hstarts y (List.mem_cons_self y rest')
    show _ ∧ List.Pairwise _ (multirange_add.mergeRangesFrom n cur (y :: rest')) ∧ _ ∧ _
    rw [show multirange_add.mergeRangesFrom n cur (y :: rest')
        = if temporal_cmp y.1 cur.2 n ≠ .gt then
            multirange_add.mergeRangesFrom n
              (cur.1, if temporal_cmp y.2 cur.2 n = .gt then y.2 else cur.2) rest'
          else cur :: multirange_add.mergeRangesFrom n y rest' from rfl]
    by_cases hyc : temporal_cmp y.1 cur.2 n ≠ .gt
    · rw [if_pos hyc]
      have hyc' : tcLe n y.1 cur.2 := hyc
      set m2 := if temporal_cmp y.2 cur.2 n = .gt then y.2 else cur.2 with hm2
      have hm2nan : notNan n m2 := by
        rw [hm2]
        split
        · exact hy.2.1
        · exact hcur.2.1
      have hcur' : goodIv n (cur.1, m2) := by
        refine ⟨hcur.1, hm2nan, ?_⟩
        rw [hm2]
        split
        next hgt =>
          have h22 : tcLt n cur.2 y.2 := by
            rw [tcLt, tc_swap y.2 cur.2 hy.2.1 hcur.2.1, hgt]
            rfl
          exact tc_lt_trans hcur.1 hcur.2.1 hy.2.1 hcur.2.2 h22
        next hgt => exact hcur.2.2
      have hstarts' : ∀ i ∈ rest', tcLe n (cur.1, m2).1 i.1 :=
        fun i hi => hstarts i (List.mem_cons_of_mem y hi)
      obtain ⟨hg, hsep, hst, hpt⟩ := ih (cur.1, m2) hcur' hgoods' hstarts' hp.of_cons
      refine ⟨hg, hsep, ?_, ?_⟩
      · intro i hi
        rcases hst i hi with ⟨j, hj, hij⟩
        rcases List.mem_cons.mp hj with rfl | hj
        · exact ⟨cur, List.mem_cons_self cur _, hij⟩
        · exact ⟨j, List.mem_cons_of_mem cur (List.mem_cons_of_mem y hj), hij⟩
      · intro x hx
        rw [hpt x hx, memPt_cons]
        have hiff : (tcLe n (cur.1, m2).1 x ∧ tcLt n x (cur.1, m2).2) ↔
            ((tcLe n cur.1 x ∧ tcLt n x cur.2) ∨ (tcLe n y.1 x ∧ tcLt n x y.2)) := by
          show (tcLe n cur.1 x ∧ tcLt n x m2) ↔ _
          rw [hm2]
          split
          next hgt =>
            have h22 : tcLt n cur.2 y.2 := by
              rw [tcLt, tc_swap y.2 cur.2 hy.2.1 hcur.2.1, hgt]
              rfl
            constructor
            · rintro ⟨h1, h2⟩
              by_cases hx2 : tcLt n x cur.2
              · exact Or.inl ⟨h1, hx2⟩
              · refine Or.inr ⟨?_, h2⟩
                exact tc_le_trans hy.1 hcur.2.1 hx hyc'
                  (tc_le_of_not_lt hx hcur.2.1 hx2)
            · rintro (⟨h1, h2⟩ | ⟨h1, h2⟩)
              · exact ⟨h1, tc_lt_trans hx hcur.2.1 hy.2.1 h2 h22⟩
              · exact ⟨tc_le_trans hcur.1 hy.1 hx hcury h1, h2⟩
          next hgt =>
            have h22 : tcLe n y.2 cur.2 := hgt
            constructor
            · rintro ⟨h1, h2⟩
              exact Or.inl ⟨h1, h2⟩
            · rintro (⟨h1, h2⟩ | ⟨h1, h2⟩)
              · exact ⟨h1, h2⟩
              · exact ⟨tc_le_trans hcur.1 hy.1 hx hcury h1,
                  tc_lt_le_trans hx hy.2.1 hcur.2.1 h2 h22⟩
        rw [hiff]
        tauto
    · rw [if_neg hyc]
      have hcy : tcLt n cur.2 y.1 := tc_lt_of_not_le hy.1 hcur.2.1 hyc
      have hystarts : ∀ i ∈ rest', tcLe n y.1 i.1 := by
        intro i hi
        exact List.rel_of_pairwise_cons hp hi
      obtain ⟨hg, hsep, hst, hpt⟩ := ih y hy hgoods' hystarts hp.of_cons
      refine ⟨?_, ?_, ?_, ?_⟩
      · intro i hi
        rcases List.mem_cons.mp hi with rfl | hi
        · exact hcur
        · exact hg i hi
      · refine List.Pairwise.cons ?_ hsep
        intro z hz
        rcases hst z hz with ⟨j, hj, hzj⟩
        show tcLt n cur.2 z.1
        rw [hzj]
        rcases List.mem_cons.mp hj with rfl | hj
        · exact hcy
        · exact tc_lt_le_trans hcur.2.1 hy.1 (hgoods' j hj).1 hcy (hystarts j hj)
      · intro i hi
        rcases List.mem_cons.mp hi with rfl | hi
        · exact ⟨i, List.mem_cons_self i _, rfl⟩
        · rcases hst i hi with ⟨j, hj, hij⟩
          rcases List.mem_cons.mp hj with rfl | hj
          · exact ⟨j, List.mem_cons_of_mem cur (List.mem_cons_self j rest'), hij⟩
          · exact ⟨j, List.mem_cons_of_mem cur (List.mem_cons_of_mem y hj), hij⟩
      · intro x hx
        rw [memPt_cons, hpt x hx, memPt_cons]

end SqlSaga

namespace SqlSaga

lemma pairwise_forall_ne {α : Type} {R : α → α → Prop} {l : List α}
    (hp : List.Pairwise R l) {a b : α} (ha : a ∈ l) (hb : b ∈ l) (hne : a ≠ b) :
    R a b ∨ R b a := by
  induction l with
  | nil => cases ha
  | cons x xs ih =>
    rcases List.mem_cons.mp ha with rfl | ha' <;> rcases List.mem_cons.mp hb with rfl | hb'
    · exact absurd rfl hne
    · exact Or.inl (List.rel_of_pairwise_cons hp hb')
    · exact Or.inr (List.rel_of_pairwise_cons hp ha')
    · exact ih hp.of_cons ha' hb'

/-- multirange_add keeps the invariant and adds exactly the new interval's
points. -/
lemma multirange_add_spec (n : Bool) (mr : List (String × String)) (f u : String)
    (hinv : mrInv n mr) (hgood : goodIv n (f, u)) :
    mrInv n (multirange_add mr f u n)
    ∧ ∀ x, notNan n x →
        (memPt n (multirange_add mr f u n) x ↔
          memPt n mr x ∨ (tcLe n f x ∧ tcLt n x u)) := by
  have hall : ∀ i ∈ mr ++ [(f, u)], goodIv n i := by
    intro i hi
    rcases List.mem_append.mp hi with hi | hi
    · exact hinv.1 i hi
    · rcases List.mem_singleton.mp hi with rfl
      exact hgood
  have hpwB := pairwise_insertionSortLe
      (fun a b => decide (temporal_cmp a.1 b.1 n ≠ .gt)) (fun i => notNan n i.1)
      (by
        intro a b ha hb
        rcases tc_le_total ha hb with h | h
        · exact Or.inl (decide_eq_true h)
        · exact Or.inr (decide_eq_true h))
      (by
        intro a b c ha hb hc h1 h2
        exact decide_eq_true (tc_le_trans ha hb hc (of_decide_eq_true h1)
          (of_decide_eq_true h2)))
      (mr ++ [(f, u)]) (fun i hi => (hall i hi).1)
  have hpw : List.Pairwise (fun a b => tcLe n a.1 b.1)
      (insertionSortLe (fun a b => decide (temporal_cmp a.1 b.1 n ≠ .gt))
        (mr ++ [(f, u)])) :=
    hpwB.imp (fun h => of_decide_eq_true h)
  have hmem := fun i => mem_insertionSortLe
    (fun a b => decide (temporal_cmp a.1 b.1 n ≠ .gt)) (mr ++ [(f, u)]) i
  have hadd : multirange_add mr f u n =
      match insertionSortLe (fun a b => decide (temporal_cmp a.1 b.1 n ≠ .gt))
          (mr ++ [(f, u)]) with
      | [] => []
      | x :: rest => multirange_add.mergeRangesFrom n x rest := rfl
  rcases hL : insertionSortLe (fun a b => decide (temporal_cmp a.1 b.1 n ≠ .gt))
      (mr ++ [(f, u)]) with _ | ⟨x0, rest⟩
  · exfalso
    have : (f, u) ∈ ([] : List (String × String)) := by
      rw [← hL]
      exact (hmem (f, u)).mpr (List.mem_append_right mr (List.mem_singleton.mpr rfl))
    cases this
  · rw [hL] at hadd hpw
    have hgoodL : ∀ i ∈ x0 :: rest, goodIv n i := by
      intro i hi
      refine hall i ?_
      rw [← hL] at hi
      exact (hmem i).mp hi
    obtain ⟨hg, hsep, _, hpt⟩ := mergeRangesFrom_spec n rest x0
      (hgoodL x0 (List.mem_cons_self x0 rest))
      (fun i hi => hgoodL i (List.mem_cons_of_mem x0 hi))
      (fun i hi => List.rel_of_pairwise_cons hpw hi)
      hpw.of_cons
    refine ⟨⟨by rw [hadd]; exact hg, by rw [hadd]; exact hsep⟩, ?_⟩
    intro x hx
    rw [hadd, hpt x hx, ← memPt_cons]
    have := @memPt_congr n (x0 :: rest) (mr ++ [(f, u)])
      (fun i => by rw [← hL]; exact hmem i) x
    rw [this, memPt_append]
    have hsing : memPt n [(f, u)] x ↔ (tcLe n f x ∧ tcLt n x u) := by
      rw [memPt_cons]
      simp [memPt_nil]
    rw [hsing]

/-- multirange_contains answers exactly pointwise coverage, for well-formed
inputs. -/
lemma multirange_contains_iff (n : Bool) (mr : List (String × String)) (f u : String)
    (hinv : mrInv n mr) (hgood : goodIv n (f, u)) :
    multirange_contains mr f u n = true ↔
      ∀ x, notNan n x → tcLe n f x → tcLt n x u → memPt n mr x := by
  constructor
  · intro h x hx h1 h2
    rcases List.any_eq_true.mp h with ⟨i, hi, hcond⟩
    rw [decide_eq_true_eq] at hcond
    obtain ⟨hif, hiu⟩ := hcond
    have hgi := hinv.1 i hi
    have hfle : tcLe n i.1 x := tc_le_trans hgi.1 hgood.1 hx hif h1
    have hule : tcLe n u i.2 := tc_le_of_not_lt hgi.2.1 hgood.2.1 hiu
    exact ⟨i, hi, hfle, tc_lt_le_trans hx hgood.2.1 hgi.2.1 h2 hule⟩
  · intro hcov
    obtain ⟨i, hi, hf1, hf2⟩ := hcov f hgood.1 (tcLe_refl n f) hgood.2.2
    have hgi := hinv.1 i hi
    rw [multirange_contains]
    refine List.any_eq_true.mpr ⟨i, hi, ?_⟩
    rw [decide_eq_true_eq]
    refine ⟨hf1, ?_⟩
    intro hlt
    obtain ⟨j, hj, hj1, hj2⟩ := hcov i.2 hgi.2.1
      (tc_lt_le hgood.1 hgi.2.1 hf2) hlt
    have hgj := hinv.1 j hj
    by_cases hij : i = j
    · subst hij
      exact tcLt_irrefl hj2
    · rcases pairwise_forall_ne hinv.2 hi hj hij with hsep | hsep
      · exact tcLt_irrefl (tc_lt_le_trans hgi.2.1 hgj.1 hgi.2.1 hsep hj1)
      · exact tc_lt_asymm hgi.1 hgi.2.1 hgi.2.2
          (tc_lt_trans hgi.2.1 hgj.2.1 hgi.1 hj2 hsep)

end SqlSaga

namespace SqlSaga

lemma groupIdx_snoc (xs : List String) (x : String) :
    groupIdxByKey ((xs ++ [x]).map some)
      = groupStep (groupIdxByKey (xs.map some)) (xs.length, some x) := by
  rw [groupIdxByKey, groupIdxByKey, List.map_append, List.enum_append]
  rw [List.foldl_append]
  simp [List.enumFrom]

/-- groupIdxByKey partitions the indices: each group member carries the
group's key, every index appears in a group keyed by its own key, group
keys are pairwise distinct and each index list is strictly ascending. -/
lemma groupIdx_props (ks : List String) :
    (∀ e ∈ groupIdxByKey (ks.map some), ∀ i ∈ e.2,
        i < ks.length ∧ ks.getD i "" = e.1)
    ∧ (∀ i, i < ks.length →
        ∃ e ∈ groupIdxByKey (ks.map some), e.1 = ks.getD i "" ∧ i ∈ e.2)
    ∧ List.Pairwise (fun a b => a.1 ≠ b.1) (groupIdxByKey (ks.map some))
    ∧ (∀ e ∈ groupIdxByKey (ks.map some), List.Pairwise (fun a b => a < b) e.2) := by
  induction ks using List.reverseRecOn with
  | nil =>
    refine ⟨?_, ?_, ?_, ?_⟩ <;> simp [groupIdxByKey]
  | append_singleton xs x ih =>
    obtain ⟨ih1, ih2, ih3, ih4⟩ := ih
    rw [groupIdx_snoc]
    simp only [groupStep]
    have hlen : (xs ++ [x]).length = xs.length + 1 := by simp
    have hgetold : ∀ i, i < xs.length → (xs ++ [x]).getD i "" = xs.getD i "" := by
      intro i hi
      rw [List.getD_eq_getElem?_getD, List.getD_eq_getElem?_getD,
        List.getElem?_append_left hi]
    have hgetnew : (xs ++ [x]).getD xs.length "" = x := by
      rw [List.getD_eq_getElem?_getD, List.getElem?_append_right (le_refl _)]
      simp
    by_cases hany : (groupIdxByKey (xs.map some)).any (fun e => e.1 = x) = true
    · rw [if_pos hany]
      refine ⟨?_, ?_, ?_, ?_⟩
      · intro e' he' i hi
        rcases List.mem_map.mp he' with ⟨e, he, rfl⟩
        by_cases hex : e.1 = x
        · rw [if_pos hex] at hi ⊢
          rcases List.mem_append.mp hi with hi | hi
          · obtain ⟨h1, h2⟩ := ih1 e he i hi
            exact ⟨by omega, by rw [hgetold i h1, h2]⟩
          · rcases List.mem_singleton.mp hi with rfl
            exact ⟨by omega, by rw [hgetnew]; exact hex.symm⟩
        · rw [if_neg hex] at hi ⊢
          obtain ⟨h1, h2⟩ := ih1 e he i hi
          exact ⟨by omega, by rw [hgetold i h1, h2]⟩
      · intro i hi
        rw [hlen] at hi
        rcases Nat.lt_succ_iff_lt_or_eq.mp hi with hi | rfl
        · obtain ⟨e, he, hk, hm⟩ := ih2 i hi
          refine ⟨(if e.1 = x then (e.1, e.2 ++ [xs.length]) else e),
            List.mem_map.mpr ⟨e, he, rfl⟩, ?_, ?_⟩
          · split
            · rw [hgetold i hi, ← hk]
            · rw [hgetold i hi, ← hk]
          · split
            · exact List.mem_append_left _ hm
            · exact hm
        · rcases List.any_eq_true.mp hany with ⟨e, he, hex⟩
          rw [decide_eq_true_eq] at hex
          refine ⟨(e.1, e.2 ++ [xs.length]), ?_, ?_, ?_⟩
          · refine List.mem_map.mpr ⟨e, he, ?_⟩
            rw [if_pos hex]
          · rw [hgetnew, hex]
          · exact List.mem_append_right _ (List.mem_singleton.mpr rfl)
      · rw [List.pairwise_map]
        refine ih3.imp ?_
        intro a b hab
        split <;> split <;> exact hab
      · intro e' he'
        rcases List.mem_map.mp he' with ⟨e, he, rfl⟩
        by_cases hex : e.1 = x
        · rw [if_pos hex]
          show List.Pairwise _ (e.2 ++ [xs.length])
          rw [List.pairwise_append]
          refine ⟨ih4 e he, by simp, ?_⟩
          intro i hi j hj
          rcases List.mem_singleton.mp hj with rfl
          exact (ih1 e he i hi).1
        · rw [if_neg hex]
          exact ih4 e he
    · rw [if_neg hany]
      have hnot : ∀ e ∈ groupIdxByKey (xs.map some), e.1 ≠ x := by
        intro e he hex
        exact hany (List.any_eq_true.mpr ⟨e, he, decide_eq_true hex⟩)
      refine ⟨?_, ?_, ?_, ?_⟩
      · intro e' he' i hi
        rcases List.mem_append.mp he' with he' | he'
        · obtain ⟨h1, h2⟩ := ih1 e' he' i hi
          exact ⟨by omega, by rw [hgetold i h1, h2]⟩
        · rcases List.mem_singleton.mp he' with rfl
          rcases List.mem_singleton.mp hi with rfl
          exact ⟨by omega, by rw [hgetnew]⟩
      · intro i hi
        rw [hlen] at hi
        rcases Nat.lt_succ_iff_lt_or_eq.mp hi with hi | rfl
        · obtain ⟨e, he, hk, hm⟩ := ih2 i hi
          exact ⟨e, List.mem_append_left _ he, by rw [hgetold i hi, ← hk], hm⟩
        · exact ⟨(x, [xs.length]), List.mem_append_right _ (List.mem_singleton.mpr rfl),
            by rw [hgetnew], List.mem_singleton.mpr rfl⟩
      · rw [List.pairwise_append]
        refine ⟨ih3, by simp, ?_⟩
        intro e he e' he'
        rcases List.mem_singleton.mp he' with rfl
        exact hnot e he
      · intro e' he'
        rcases List.mem_append.mp he' with he' | he'
        · exact ih4 e' he'
        · rcases List.mem_singleton.mp he' with rfl
          simp

end SqlSaga

namespace SqlSaga

/-- One matched row's half-open validity interval, by index. -/
def rowIv (matched : List MatchedSourceRow) (j : Nat) : String × String :=
  ((matched.getD j default).source.valid_from, (matched.getD j default).source.valid_until)

/-- Whether the row at an index carries no early feedback. -/
def rowFb (matched : List MatchedSourceRow) (j : Nat) : Bool :=
  (matched.getD j default).early_feedback.isNone

/-- A row's row id, by index. -/
def rowRid (matched : List MatchedSourceRow) (j : Nat) : Int :=
  (matched.getD j default).source.row_id

/-- Full characterization of the per-partition descending sweep: an index is
marked eclipsed exactly when its row has no early feedback and its interval
is pointwise covered by the carried-in coverage plus the intervals of the
no-feedback rows processed before it (those of strictly higher row id). -/
lemma sweep_spec (matched : List MatchedSourceRow) (n : Bool) :
    ∀ (idxs : List Nat) (mr : List (String × String)) (acc : List Nat)
      (seen : List (String × String)),
      mrInv n mr →
      (∀ p ∈ seen, goodIv n p) →
      (∀ x, notNan n x → (memPt n mr x ↔ memPt n seen x)) →
      (∀ j ∈ idxs, goodIv n (rowIv matched j)) →
      List.Pairwise (fun a b => rowRid matched b < rowRid matched a) idxs →
      (∀ i ∈ acc, i ∉ idxs) →
      ∀ i, (i ∈ (idxs.foldl (sweepStep matched n) (mr, acc)).2 ↔
        (i ∈ acc ∨ (i ∈ idxs ∧ rowFb matched i = true ∧
          ∀ x, notNan n x → tcLe n (rowIv matched i).1 x → tcLt n x (rowIv matched i).2 →
            memPt n (seen ++ (idxs.filter (fun j => rowFb matched j
                ∧ rowRid matched i < rowRid matched j)).map (rowIv matched)) x))) := by
  intro idxs
  induction idxs with
  | nil =>
    intro mr acc seen _ _ _ _ _ _ i
    simp
  | cons j rest ih =>
    intro mr acc seen hinv hseeng hpt hgoods hpw hdisj i
    have hjq : j ∉ rest := by
      intro hj
      exact absurd (List.rel_of_pairwise_cons hpw hj) (lt_irrefl _)
    have hgj : goodIv n (rowIv matched j) := hgoods j (List.mem_cons_self j rest)
    rw [List.foldl_cons]
    by_cases hfb : (matched.getD j default).early_feedback.isSome = true
    · have hstep : sweepStep matched n (mr, acc) j = (mr, acc) := by
        simp only [sweepStep]
        rw [if_pos hfb]
      rw [hstep]
      have hfbj : rowFb matched j = false := by
        rw [rowFb]
        rcases ho : (matched.getD j default).early_feedback with _ | v
        · rw [ho] at hfb
          simp at hfb
        · rfl
      have hfilter : (j :: rest).filter (fun k => rowFb matched k
          ∧ rowRid matched i < rowRid matched k)
          = rest.filter (fun k => rowFb matched k ∧ rowRid matched i < rowRid matched k) := by
        rw [List.filter_cons]
        rw [if_neg]
        simp [hfbj]
      rw [hfilter]
      rw [ih mr acc seen hinv hseeng hpt
        (fun k hk => hgoods k (List.mem_cons_of_mem j hk)) hpw.of_cons
        (fun a ha hra => hdisj a ha (List.mem_cons_of_mem j hra)) i]
      constructor
      · rintro (h | ⟨h1, h2, h3⟩)
        · exact Or.inl h
        · exact Or.inr ⟨List.mem_cons_of_mem j h1, h2, h3⟩
      · rintro (h | ⟨h1, h2, h3⟩)
        · exact Or.inl h
        · rcases List.mem_cons.mp h1 with rfl | h1
          · rw [hfbj] at h2
            cases h2
          · exact Or.inr ⟨h1, h2, h3⟩
    · have hfbj : rowFb matched j = true := by
        rw [rowFb, Option.isNone_iff_eq_none]
        rcases ho : (matched.getD j default).early_feedback with _ | v
        · rfl
        · rw [ho] at hfb
          simp at hfb
      have hstep : sweepStep matched n (mr, acc) j =
          (multirange_add mr (rowIv matched j).1 (rowIv matched j).2 n,
            if multirange_contains mr (rowIv matched j).1 (rowIv matched j).2 n
            then acc ++ [j] else acc) := by
        simp only [sweepStep]
        rw [if_neg hfb]
        rfl
      rw [hstep]
      obtain ⟨hinv', hpt'⟩ := multirange_add_spec n mr (rowIv matched j).1
        (rowIv matched j).2 hinv hgj
      have hseeng' : ∀ p ∈ seen ++ [rowIv matched j], goodIv n p := by
        intro p hp
        rcases List.mem_append.mp hp with hp | hp
        · exact hseeng p hp
        · rcases List.mem_singleton.mp hp with rfl
          exact hgj
      have hptnew : ∀ x, notNan n x →
          (memPt n (multirange_add mr (rowIv matched j).1 (rowIv matched j).2 n) x
            ↔ memPt n (seen ++ [rowIv matched j]) x) := by
        intro x hx
        rw [hpt' x hx, memPt_append, hpt x hx]
        have : memPt n [rowIv matched j] x ↔
            (tcLe n (rowIv matched j).1 x ∧ tcLt n x (rowIv matched j).2) := by
          rw [memPt_cons]
          simp [memPt_nil]
        rw [this]
      have hdisj' : ∀ a ∈ (if multirange_contains mr (rowIv matched j).1
          (rowIv matched j).2 n then acc ++ [j] else acc), a ∉ rest := by
        intro a ha
        split at ha
        · rcases List.mem_append.mp ha with ha | ha
          · exact fun hr => hdisj a ha (List.mem_cons_of_mem j hr)
          · rcases List.mem_singleton.mp ha with rfl
            exact hjq
        · exact fun hr => hdisj a ha (List.mem_cons_of_mem j hr)
      rw [ih _ _ _ hinv' hseeng' hptnew
        (fun k hk => hgoods k (List.mem_cons_of_mem j hk)) hpw.of_cons hdisj' i]
      by_cases hij : i = j
      · subst hij
        have hia : i ∉ acc := fun ha => hdisj i ha (List.mem_cons_self i rest)
        have hfilter : (i :: rest).filter (fun k => rowFb matched k
            ∧ rowRid matched i < rowRid matched k) = [] := by
          rw [List.filter_cons, if_neg (by simp)]
          rw [List.filter_eq_nil_iff]
          intro k hk
          have := List.rel_of_pairwise_cons hpw hk
          simp only [decide_eq_true_eq, Bool.and_eq_true]
          rintro ⟨_, hlt⟩
          exact absurd hlt (not_lt_of_gt this)
        rw [hfilter]
        have hcontains := multirange_contains_iff n mr (rowIv matched i).1
          (rowIv matched i).2 hinv hgj
        by_cases hcov : multirange_contains mr (rowIv matched i).1
            (rowIv matched i).2 n = true
        · rw [if_pos hcov]
          constructor
          · rintro (h | ⟨h1, _, _⟩)
            · rcases List.mem_append.mp h with h | h
              · exact absurd h hia
              · refine Or.inr ⟨List.mem_cons_self i rest, hfbj, ?_⟩
                intro x hx h1 h2
                rw [List.map_nil, List.append_nil]
                exact (hpt x hx).mp ((hcontains.mp hcov) x hx h1 h2)
            · exact absurd h1 hjq
          · rintro _
            exact Or.inl (List.mem_append_right _ (List.mem_singleton.mpr rfl))
        · rw [if_neg hcov]
          constructor
          · rintro (h | ⟨h1, _, _⟩)
            · exact absurd h hia
            · exact absurd h1 hjq
          · rintro (h | ⟨_, _, hc⟩)
            · exact absurd h hia
            · exfalso
              apply hcov
              rw [hcontains]
              intro x hx h1 h2
              rw [hpt x hx]
              have := hc x hx h1 h2
              rw [List.map_nil, List.append_nil] at this
              exact this
      · have hacc' : i ∈ (if multirange_contains mr (rowIv matched j).1
            (rowIv matched j).2 n then acc ++ [j] else acc) ↔ i ∈ acc := by
          split
          · rw [List.mem_append]
            simp [hij]
          · exact Iff.rfl
        rw [hacc']
        constructor
        · rintro (h | ⟨h1, h2, h3⟩)
          · exact Or.inl h
          · refine Or.inr ⟨List.mem_cons_of_mem j h1, h2, ?_⟩
            intro x hx hx1 hx2
            have := h3 x hx hx1 hx2
            have hfilter : (j :: rest).filter (fun k => rowFb matched k
                ∧ rowRid matched i < rowRid matched k)
                = j :: rest.filter (fun k => rowFb matched k
                    ∧ rowRid matched i < rowRid matched k) := by
              rw [List.filter_cons, if_pos]
              simp only [Bool.and_eq_true, decide_eq_true_eq]
              exact ⟨hfbj, List.rel_of_pairwise_cons hpw h1⟩
            rw [hfilter, List.map_cons]
            rw [show seen ++ (rowIv matched j ::
                (rest.filter (fun k => rowFb matched k
                  ∧ rowRid matched i < rowRid matched k)).map (rowIv matched))
              = (seen ++ [rowIv matched j]) ++
                (rest.filter (fun k => rowFb matched k
                  ∧ rowRid matched i < rowRid matched k)).map (rowIv matched) from by
              rw [List.append_assoc]
              rfl]
            exact this
        · rintro (h | ⟨h1, h2, h3⟩)
          · exact Or.inl h
          · rcases List.mem_cons.mp h1 with rfl | h1
            · exact absurd rfl hij
            · refine Or.inr ⟨h1, h2, ?_⟩
              intro x hx hx1 hx2
              have := h3 x hx hx1 hx2
              have hfilter : (j :: rest).filter (fun k => rowFb matched k
                  ∧ rowRid matched i < rowRid matched k)
                  = j :: rest.filter (fun k => rowFb matched k
                      ∧ rowRid matched i < rowRid matched k) := by
                rw [List.filter_cons, if_pos]
                simp only [Bool.and_eq_true, decide_eq_true_eq]
                exact ⟨hfbj, List.rel_of_pairwise_cons hpw h1⟩
              rw [hfilter, List.map_cons] at this
              rw [show seen ++ (rowIv matched j ::
                  (rest.filter (fun k => rowFb matched k
                    ∧ rowRid matched i < rowRid matched k)).map (rowIv matched))
                = (seen ++ [rowIv matched j]) ++
                  (rest.filter (fun k => rowFb matched k
                    ∧ rowRid matched i < rowRid matched k)).map (rowIv matched) from by
                rw [List.append_assoc]
                rfl] at this
              exact this

end SqlSaga

namespace SqlSaga

lemma nodup_insertLe {α : Type} (le : α → α → Bool) (x : α) (l : List α)
    (hx : x ∉ l) (hl : l.Nodup) : (insertLe le x l).Nodup := by
  induction l with
  | nil => simp [insertLe]
  | cons y ys ih =>
    simp only [insertLe]
    split
    · exact List.Nodup.cons (by simpa using hx) hl
    · refine List.Nodup.cons ?_ (ih (fun h => hx (List.mem_cons_of_mem y h))
        hl.of_cons)
      intro hy
      rcases (mem_insertLe le x ys y).mp hy with rfl | hy
      · exact hx (List.mem_cons_self y ys)
      · exact (List.nodup_cons.mp hl).1 hy

lemma nodup_insertionSortLe {α : Type} (le : α → α → Bool) (l : List α)
    (hl : l.Nodup) : (insertionSortLe le l).Nodup := by
  induction l with
  | nil => simp [insertionSortLe]
  | cons x xs ih =>
    show (insertLe le x (insertionSortLe le xs)).Nodup
    refine nodup_insertLe le x _ ?_ (ih hl.of_cons)
    intro hx
    exact (List.nodup_cons.mp hl).1 ((mem_insertionSortLe le xs x).mp hx)

/-- Membership in the across-groups accumulation of sweeps. -/
lemma mem_sweepFold (matched : List MatchedSourceRow) (n : Bool) :
    ∀ (gs : List (String × List Nat)) (acc : List Nat) (x : Nat),
      x ∈ gs.foldl (fun acc e => if e.2.length ≤ 1 then acc
          else acc ++ groupSweep matched n e) acc ↔
        x ∈ acc ∨ ∃ e ∈ gs, ¬ e.2.length ≤ 1 ∧ x ∈ groupSweep matched n e := by
  intro gs
  induction gs with
  | nil =>
    intro acc x
    simp
  | cons e0 rest ih =>
    intro acc x
    rw [List.foldl_cons]
    by_cases hc : e0.2.length ≤ 1
    · rw [if_pos hc, ih]
      constructor
      · rintro (h | ⟨e, he, hl, hs⟩)
        · exact Or.inl h
        · exact Or.inr ⟨e, List.mem_cons_of_mem e0 he, hl, hs⟩
      · rintro (h | ⟨e, he, hl, hs⟩)
        · exact Or.inl h
        · rcases List.mem_cons.mp he with rfl | he
          · exact absurd hc hl
          · exact Or.inr ⟨e, he, hl, hs⟩
    · rw [if_neg hc, ih]
      constructor
      · rintro (h | ⟨e, he, hl, hs⟩)
        · rcases List.mem_append.mp h with h | h
          · exact Or.inl h
          · exact Or.inr ⟨e0, List.mem_cons_self e0 rest, hc, h⟩
        · exact Or.inr ⟨e, List.mem_cons_of_mem e0 he, hl, hs⟩
      · rintro (h | ⟨e, he, hl, hs⟩)
        · exact Or.inl (List.mem_append_left _ h)
        · rcases List.mem_cons.mp he with rfl | he
          · exact Or.inl (List.mem_append_right _ hs)
          · exact Or.inr ⟨e, he, hl, hs⟩

/-- An index belongs to a group exactly when the group's key is its key. -/
lemma groupIdx_mem_iff (ks : List String) {e : String × List Nat}
    (he : e ∈ groupIdxByKey (ks.map some)) (j : Nat) :
    j ∈ e.2 ↔ (j < ks.length ∧ ks.getD j "" = e.1) := by
  obtain ⟨p1, p2, p3, _⟩ := groupIdx_props ks
  constructor
  · exact p1 e he j
  · rintro ⟨hj, hk⟩
    obtain ⟨e', he', hk', hm⟩ := p2 j hj
    have heq : e = e' := by
      by_contra hne
      have hkeys : e.1 = e'.1 := by rw [← hk, hk']
      rcases pairwise_forall_ne p3 he he' hne with h | h
      · exact h hkeys
      · exact h hkeys.symm
    rw [heq]
    exact hm

end SqlSaga

namespace SqlSaga

/-- The spec-side covering set of a row: the intervals of the rows in the
same eclipse partition with a strictly higher row id and no early feedback. -/
def higherRows (matched : List MatchedSourceRow) (ctx : PlannerContext)
    (m : MatchedSourceRow) : List (String × String) :=
  (matched.filter (fun m' =>
      eclipse_partition_key ctx m' = eclipse_partition_key ctx m
      ∧ m.source.row_id < m'.source.row_id
      ∧ m'.early_feedback = Option.none)).map
    (fun m' => (m'.source.valid_from, m'.source.valid_until))

lemma eclipse_core (matched : List MatchedSourceRow) (ctx : PlannerContext)
    (hids : List.Pairwise (fun a b => a.source.row_id ≠ b.source.row_id) matched)
    (hgood : ∀ m ∈ matched,
        notNan (decide (ctx.era.range_subtype_category = 'N')) m.source.valid_from
      ∧ notNan (decide (ctx.era.range_subtype_category = 'N')) m.source.valid_until
      ∧ tcLt (decide (ctx.era.range_subtype_category = 'N'))
          m.source.valid_from m.source.valid_until)
    (i : Nat) (hi : i < matched.length)
    (hfb : (matched.getD i default).early_feedback = Option.none) :
    i ∈ (groupIdxByKey ((matched.map (eclipse_partition_key ctx)).map some)).foldl
        (fun acc e => if e.2.length ≤ 1 then acc
          else acc ++ groupSweep matched
            (decide (ctx.era.range_subtype_category = 'N')) e) []
      ↔ ∀ x, notNan (decide (ctx.era.range_subtype_category = 'N')) x →
          tcLe (decide (ctx.era.range_subtype_category = 'N'))
            (matched.getD i default).source.valid_from x →
          tcLt (decide (ctx.era.range_subtype_category = 'N'))
            x (matched.getD i default).source.valid_until →
          memPt (decide (ctx.era.range_subtype_category = 'N'))
            (higherRows matched ctx (matched.getD i default)) x := by
  set n := decide (ctx.era.range_subtype_category = 'N') with hn
  set ks := matched.map (eclipse_partition_key ctx) with hks
  obtain ⟨p1, p2, p3, p4⟩ := groupIdx_props ks
  have hkslen : ks.length = matched.length := by
    rw [hks, List.length_map]
  have hksget : ∀ j, j < matched.length →
      ks.getD j "" = eclipse_partition_key ctx (matched.getD j default) := by
    intro j hj
    rw [List.getD_eq_getElem _ _ (by rw [hkslen]; exact hj), List.getD_eq_getElem _ _ hj]
    exact List.getElem_map _
  have hridne : ∀ a b, a < matched.length → b < matched.length → a ≠ b →
      rowRid matched a ≠ rowRid matched b := by
    intro a b ha hb hne
    rw [rowRid, rowRid, List.getD_eq_getElem _ _ ha, List.getD_eq_getElem _ _ hb]
    rcases Nat.lt_or_ge a b with h | h
    · exact (List.pairwise_iff_getElem.mp hids) a b ha hb h
    · have hba : b < a := Nat.lt_of_le_of_ne h (fun hh => hne hh.symm)
      exact ((List.pairwise_iff_getElem.mp hids) b a hb ha hba).symm
  have hgoodIdx : ∀ j, j < matched.length → goodIv n (rowIv matched j) := by
    intro j hj
    have hm := hgood (matched.getD j default)
      (by rw [List.getD_eq_getElem _ _ hj]; exact List.getElem_mem hj)
    exact ⟨hm.1, hm.2.1, hm.2.2⟩
  have hfbrow : rowFb matched i = true := by
    rw [rowFb, hfb]
    rfl
  -- facts about any group and its sorted index list
  have hsortmem : ∀ (e : String × List Nat) (j : Nat),
      j ∈ insertionSortLe (fun a b =>
        decide ((matched.getD b default).source.row_id
          ≤ (matched.getD a default).source.row_id)) e.2 ↔ j ∈ e.2 := by
    intro e j
    exact mem_insertionSortLe _ e.2 j
  have hsweepIff : ∀ e, e ∈ groupIdxByKey (ks.map some) →
      (i ∈ groupSweep matched n e ↔
        (i ∈ e.2 ∧
          ∀ x, notNan n x → tcLe n (rowIv matched i).1 x → tcLt n x (rowIv matched i).2 →
            memPt n (((insertionSortLe (fun a b =>
                decide ((matched.getD b default).source.row_id
                  ≤ (matched.getD a default).source.row_id)) e.2).filter
              (fun j => rowFb matched j ∧ rowRid matched i < rowRid matched j)).map
                (rowIv matched)) x)) := by
    intro e he
    have hmemlen : ∀ j ∈ e.2, j < matched.length := by
      intro j hj
      have := (p1 e he j hj).1
      rw [hkslen] at this
      exact this
    have hnodup : e.2.Nodup := (p4 e he).imp (fun h => Nat.ne_of_lt h)
    have hsortle : List.Pairwise (fun a b =>
        decide ((matched.getD b default).source.row_id
          ≤ (matched.getD a default).source.row_id) = true)
        (insertionSortLe (fun a b =>
          decide ((matched.getD b default).source.row_id
            ≤ (matched.getD a default).source.row_id)) e.2) :=
      pairwise_insertionSortLe _ (fun _ => True)
        (by
          intro a b _ _
          rcases le_total ((matched.getD b default).source.row_id)
              ((matched.getD a default).source.row_id) with h | h
          · exact Or.inl (decide_eq_true h)
          · exact Or.inr (decide_eq_true h))
        (by
          intro a b c _ _ _ h1 h2
          exact decide_eq_true (le_trans (of_decide_eq_true h2) (of_decide_eq_true h1)))
        e.2 (fun _ _ => trivial)
    have hsortnd : (insertionSortLe (fun a b =>
        decide ((matched.getD b default).source.row_id
          ≤ (matched.getD a default).source.row_id)) e.2).Nodup :=
      nodup_insertionSortLe _ e.2 hnodup
    have hstrict : List.Pairwise (fun a b => rowRid matched b < rowRid matched a)
        (insertionSortLe (fun a b =>
          decide ((matched.getD b default).source.row_id
            ≤ (matched.getD a default).source.row_id)) e.2) := by
      refine (hsortle.and hsortnd).imp_of_mem ?_
      intro a b ha hb hab
      have ha' := hmemlen a ((hsortmem e a).mp ha)
      have hb' := hmemlen b ((hsortmem e b).mp hb)
      have hle : rowRid matched b ≤ rowRid matched a := by
        have := of_decide_eq_true hab.1
        rw [rowRid, rowRid]
        exact this
      exact lt_of_le_of_ne hle (hridne b a hb' ha' (fun h => hab.2 h.symm))
    have hswspec := sweep_spec matched n (insertionSortLe (fun a b =>
        decide ((matched.getD b default).source.row_id
          ≤ (matched.getD a default).source.row_id)) e.2) [] [] []
      ⟨fun p hp => absurd hp (List.not_mem_nil p), List.Pairwise.nil⟩
      (fun p hp => absurd hp (List.not_mem_nil p))
      (fun x _ => Iff.rfl)
      (fun j hj => hgoodIdx j (hmemlen j ((hsortmem e j).mp hj)))
      hstrict
      (fun a ha => absurd ha (List.not_mem_nil a))
      i
    rw [groupSweep, eclipseSweep]
    rw [hswspec]
    simp only [List.not_mem_nil, false_or, List.nil_append]
    rw [hsortmem e i]
    constructor
    · rintro ⟨h1, _, h3⟩
      exact ⟨h1, h3⟩
    · rintro ⟨h1, h3⟩
      exact ⟨h1, hfbrow, h3⟩
  -- translating the sorted-filtered coverage list to the spec-side one
  have hcovList : ∀ e, e ∈ groupIdxByKey (ks.map some) → i ∈ e.2 →
      ∀ p, p ∈ ((insertionSortLe (fun a b =>
            decide ((matched.getD b default).source.row_id
              ≤ (matched.getD a default).source.row_id)) e.2).filter
          (fun j => rowFb matched j ∧ rowRid matched i < rowRid matched j)).map
            (rowIv matched)
        ↔ p ∈ higherRows matched ctx (matched.getD i default) := by
    intro e he hie p
    have hkey : ks.getD i "" = e.1 := (p1 e he i hie).2
    constructor
    · intro hp
      rcases List.mem_map.mp hp with ⟨j, hjf, rfl⟩
      rcases List.mem_filter.mp hjf with ⟨hjs, hjp⟩
      rw [decide_eq_true_eq] at hjp
      obtain ⟨hjfb, hjrid⟩ := hjp
      have hje := (hsortmem e j).mp hjs
      have hjlen := by
        have := (p1 e he j hje).1
        rw [hkslen] at this
        exact this
      have hjkey : ks.getD j "" = e.1 := (p1 e he j hje).2
      rw [higherRows]
      refine List.mem_map.mpr ⟨matched.getD j default, ?_, rfl⟩
      refine List.mem_filter.mpr ⟨?_, ?_⟩
      · rw [List.getD_eq_getElem _ _ hjlen]
        exact List.getElem_mem hjlen
      · rw [decide_eq_true_eq]
        refine ⟨?_, ?_, ?_⟩
        · rw [← hksget j hjlen, ← hksget i hi, hjkey, hkey]
        · exact hjrid
        · rw [rowFb] at hjfb
          exact Option.isNone_iff_eq_none.mp hjfb
    · intro hp
      rw [higherRows] at hp
      rcases List.mem_map.mp hp with ⟨m', hm'f, rfl⟩
      rcases List.mem_filter.mp hm'f with ⟨hm'm, hm'p⟩
      rw [decide_eq_true_eq] at hm'p
      obtain ⟨hm'k, hm'r, hm'fb⟩ := hm'p
      rcases List.mem_iff_getElem.mp hm'm with ⟨j, hjlen, rfl⟩
      have hjget : matched.getD j default = matched[j] := List.getD_eq_getElem _ _ hjlen
      have hje : j ∈ e.2 := by
        rw [groupIdx_mem_iff ks he j]
        refine ⟨by rw [hkslen]; exact hjlen, ?_⟩
        rw [hksget j hjlen, hjget, hm'k, ← hksget i hi, hkey]
      refine List.mem_map.mpr ⟨j, ?_, by rw [rowIv, hjget]⟩
      refine List.mem_filter.mpr ⟨(hsortmem e j).mpr hje, ?_⟩
      rw [decide_eq_true_eq]
      refine ⟨?_, ?_⟩
      · rw [rowFb, hjget, hm'fb]
        rfl
      · rw [rowRid, rowRid, hjget]
        exact hm'r
  rw [mem_sweepFold]
  simp only [List.not_mem_nil, false_or]
  constructor
  · rintro ⟨e, he, _, hsw⟩
    obtain ⟨hie, hcov⟩ := (hsweepIff e he).mp hsw
    intro x hx h1 h2
    have := hcov x hx h1 h2
    rw [memPt_congr (hcovList e he hie)] at this
    exact this
  · intro hcov
    obtain ⟨e, he, hkey, hie⟩ := p2 i (by rw [hkslen]; exact hi)
    -- the covering set is nonempty: apply coverage at the row's own start
    have hgi := hgoodIdx i hi
    have hne : higherRows matched ctx (matched.getD i default) ≠ [] := by
      intro hnil
      have := hcov (rowIv matched i).1 hgi.1 (tcLe_refl n _) hgi.2.2
      rw [hnil] at this
      exact memPt_nil this
    have hj : ∃ j, j < matched.length ∧ j ≠ i ∧ j ∈ e.2 := by
      rcases hex : higherRows matched ctx (matched.getD i default) with _ | ⟨p, ps⟩
      · exact absurd hex hne
      · have hp : p ∈ higherRows matched ctx (matched.getD i default) := by
          rw [hex]
          exact List.mem_cons_self p ps
        rw [higherRows] at hp
        rcases List.mem_map.mp hp with ⟨m', hm'f, rfl⟩
        rcases List.mem_filter.mp hm'f with ⟨hm'm, hm'p⟩
        rw [decide_eq_true_eq] at hm'p
        obtain ⟨hm'k, hm'r, _⟩ := hm'p
        rcases List.mem_iff_getElem.mp hm'm with ⟨j, hjlen, rfl⟩
        have hjget : matched.getD j default = matched[j] := List.getD_eq_getElem _ _ hjlen
        refine ⟨j, hjlen, ?_, ?_⟩
        · intro hji
          subst hji
          rw [← hjget] at hm'r
          exact lt_irrefl _ hm'r
        · rw [groupIdx_mem_iff ks he j]
          refine ⟨by rw [hkslen]; exact hjlen, ?_⟩
          rw [hksget j hjlen, hjget, hm'k, ← hksget i hi, ← hkey]
    obtain ⟨j, hjlen, hji, hje⟩ := hj
    refine ⟨e, he, ?_, ?_⟩
    · rw [Nat.not_le]
      exact two_mem_one_lt_length hie hje (fun h => hji h.symm)
    · rw [hsweepIff e he]
      refine ⟨hie, ?_⟩
      intro x hx h1 h2
      rw [memPt_congr (hcovList e he hie)]
      exact hcov x hx h1 h2

end SqlSaga

namespace SqlSaga

/-- Claim C2 (amended): with pairwise-distinct row ids and well-formed
proper intervals, a row without early feedback is marked eclipsed exactly
when its half-open interval is pointwise covered by the union of the
intervals of its partition's higher-row-id no-feedback rows — including
rows that are themselves eclipsed, which the sweep still adds to the
accumulated multirange. -/
theorem C2_eclipse_detection (matched : List MatchedSourceRow) (ctx : PlannerContext)
    (hids : List.Pairwise (fun a b => a.source.row_id ≠ b.source.row_id) matched)
    (hgood : ∀ m ∈ matched,
        notNan (decide (ctx.era.range_subtype_category = 'N')) m.source.valid_from
      ∧ notNan (decide (ctx.era.range_subtype_category = 'N')) m.source.valid_until
      ∧ tcLt (decide (ctx.era.range_subtype_category = 'N'))
          m.source.valid_from m.source.valid_until)
    (hecl : ∀ m ∈ matched, m.is_eclipsed = false)
    (i : Nat) (hi : i < matched.length)
    (hfb : (matched.getD i default).early_feedback = Option.none) :
    ((detect_eclipsed matched ctx).getD i default).is_eclipsed = true ↔
      ∀ x, notNan (decide (ctx.era.range_subtype_category = 'N')) x →
        tcLe (decide (ctx.era.range_subtype_category = 'N'))
          (matched.getD i default).source.valid_from x →
        tcLt (decide (ctx.era.range_subtype_category = 'N'))
          x (matched.getD i default).source.valid_until →
        memPt (decide (ctx.era.range_subtype_category = 'N'))
          (higherRows matched ctx (matched.getD i default)) x := by
  have hcore := eclipse_core matched ctx hids hgood i hi hfb
  have hget : matched.getD i default = matched[i] := List.getD_eq_getElem _ _ hi
  simp only [detect_eclipsed]
  rw [show matched.map (fun m => some (eclipse_partition_key ctx m))
      = (matched.map (eclipse_partition_key ctx)).map some from by
    rw [List.map_map]
    rfl]
  rw [List.getD_eq_getElem _ _ (by
    rw [List.length_map, List.enum_length]
    exact hi)]
  rw [List.getElem_map, List.getElem_enum]
  by_cases hm : i ∈ (groupIdxByKey ((matched.map (eclipse_partition_key ctx)).map some)).foldl
      (fun acc e => if e.2.length ≤ 1 then acc
        else acc ++ groupSweep matched
          (decide (ctx.era.range_subtype_category = 'N')) e) []
  · rw [if_pos hm]
    exact iff_of_true rfl (hcore.mp hm)
  · rw [if_neg hm]
    refine iff_of_false ?_ (fun hcov => hm (hcore.mpr hcov))
    rw [hecl matched[i] (List.getElem_mem hi)]
    exact Bool.false_ne_true

end SqlSaga

namespace SqlSaga

instance (n : Bool) (x : String) : Decidable (notNan n x) := by
  unfold notNan
  infer_instance

/-- A matched row fixture for the eclipse scenarios. -/
def mkMatched (rid : Int) (causal f u : String) : MatchedSourceRow :=
  { source :=
      { row_id := rid, causal_id := causal, valid_from := f, valid_until := u,
        identity_keys := [("id", .num 1)], lookup_keys := [],
        data_payload := [("v", .str "A")], ephemeral_payload := [],
        stable_pk_payload := [], is_identifiable := true,
        lookup_cols_are_null := true },
    is_new_entity := false, grouping_key := "g",
    discovered_identity := Option.none, canonical_nk_json := Option.none,
    early_feedback := Option.none, is_eclipsed := false }

/-- Row 1 has the empty interval, row 2 a higher row id in the same
partition. -/
def c2_matched : List MatchedSourceRow :=
  [ mkMatched 1 "7" "2024-07-01" "2024-07-01",
    mkMatched 2 "7" "2024-01-01" "2024-06-01" ]

/-- Claim C2, counterexample: a row whose interval is empty is vacuously
covered by the union of its higher-row-id partition mates, yet the sweep
never marks it eclipsed — the containment test demands an actual covering
block. -/
theorem C2_counterexample :
    ((detect_eclipsed c2_matched ctxUpsertIdentity).getD 0 default).is_eclipsed = false
    ∧ (c2_matched.getD 0 default).early_feedback = Option.none
    ∧ (∀ x, notNan (decide (ctxUpsertIdentity.era.range_subtype_category = 'N')) x →
        tcLe (decide (ctxUpsertIdentity.era.range_subtype_category = 'N'))
          (c2_matched.getD 0 default).source.valid_from x →
        tcLt (decide (ctxUpsertIdentity.era.range_subtype_category = 'N'))
          x (c2_matched.getD 0 default).source.valid_until →
        memPt (decide (ctxUpsertIdentity.era.range_subtype_category = 'N'))
          (higherRows c2_matched ctxUpsertIdentity (c2_matched.getD 0 default)) x) := by
  refine ⟨by decide, by decide, ?_⟩
  intro x hx h1 h2
  exfalso
  have h2' : tcLt (decide (ctxUpsertIdentity.era.range_subtype_category = 'N')) x
      (c2_matched.getD 0 default).source.valid_from := h2
  exact tcLt_irrefl (tc_le_lt_trans (by decide) hx (by decide) h1 h2')

/-- Row 1 is genuinely covered by row 2's interval. -/
def c2w_matched : List MatchedSourceRow :=
  [ mkMatched 1 "7" "2024-02-01" "2024-03-01",
    mkMatched 2 "7" "2024-01-01" "2024-06-01" ]

theorem C2_eclipse_detection_witness :
    ((detect_eclipsed c2w_matched ctxUpsertIdentity).getD 0 default).is_eclipsed = true ↔
      ∀ x, notNan (decide (ctxUpsertIdentity.era.range_subtype_category = 'N')) x →
        tcLe (decide (ctxUpsertIdentity.era.range_subtype_category = 'N'))
          (c2w_matched.getD 0 default).source.valid_from x →
        tcLt (decide (ctxUpsertIdentity.era.range_subtype_category = 'N'))
          x (c2w_matched.getD 0 default).source.valid_until →
        memPt (decide (ctxUpsertIdentity.era.range_subtype_category = 'N'))
          (higherRows c2w_matched ctxUpsertIdentity (c2w_matched.getD 0 default)) x :=
  C2_eclipse_detection c2w_matched ctxUpsertIdentity (by decide) (by decide) (by decide)
    0 (by decide) (by decide)

end SqlSaga
